import Mathlib

/-!
Verification of core components of a small relational database engine
(B+-tree index, executors, query optimizer, record printer), shallowly
embedded in Lean 4.  Machine integers are modelled as `Int`/`Nat`,
IEEE floats as `Rat` (all float values occurring in the engine are
finite and totally ordered, and every arithmetic operation used on them
is order-preserving, so `Rat` is an order-faithful model), and raw
record buffers as lists of byte cells in which each fixed-width column
slice stores its decoded value in its first cell.
-/

set_option maxRecDepth 4000

/-! ## Common data model: column types, values, comparison -/

/-- Column type tag (`ColType` in the source). -/
inductive ColType where
  | tint
  | tfloat
  | tstring
deriving Repr, DecidableEq

/-- A decoded column value: a 32-bit integer, a float (modelled as `Rat`),
or a fixed-length byte string (list of bytes). -/
inductive ColData where
  | dint (i : Int)
  | dfloat (q : Rat)
  | dstr (bs : List Nat)
deriving Repr, DecidableEq

/-- A byte cell of a record buffer: the first cell of a column slice holds
the decoded value, the remaining cells of the slice are padding. -/
abbrev Cell : Type := Option ColData

/-- A record buffer: a list of byte cells. -/
abbrev Rec : Type := List Cell

/-- Check that a value carries the given type tag. -/
def ColData.hasType : ColData → ColType → Bool
  | .dint _, .tint => true
  | .dfloat _, .tfloat => true
  | .dstr _, .tstring => true
  | _, _ => false

/-- Byte-wise `memcmp` over two byte lists of the same length:
returns the sign of the first differing byte pair (the C standard fixes
only the sign of `memcmp`). -/
def memcmpBytes : List Nat → List Nat → Int
  | [], _ => 0
  | _ :: _, [] => 0
  | a :: as, b :: bs =>
    if a < b then -1 else if b < a then 1 else memcmpBytes as bs

/-- Numeric promotion of a column value to a float, as done by
`static_cast<float>` on the int operand of a mixed comparison.
(The promotion is exact for every 32-bit int in the order-faithful
`Rat` model.) -/
def ColData.toFloat : ColData → Option Rat
  | .dint i => some (i : Rat)
  | .dfloat q => some q
  | .dstr _ => none

/-- `comp` of `IndexScanExecutor` / `NestedLoopJoinExecutor`: three-way
comparison of two raw operands under the given type tags.  Mixed
int/float operands are promoted to float; any other type mismatch and
any read of padding bytes is the thrown `IncompatibleTypeError`,
modelled as `Except.error`. -/
def comp (ldata rdata : Option ColData) (len : Nat) (lhsType rhsType : ColType) :
    Except Unit Int :=
  match ldata, rdata with
  | none, _ => Except.error ()
  | some _, none => Except.error ()
  | some l, some r =>
    if (lhsType = .tint ∧ rhsType = .tfloat) ∨ (lhsType = .tfloat ∧ rhsType = .tint) then
      match l.toFloat, r.toFloat with
      | some lval, some rval =>
        Except.ok (if lval < rval then -1 else if rval < lval then 1 else 0)
      | _, _ => Except.error ()
    else if lhsType ≠ rhsType then
      Except.error ()
    else
      match lhsType, l, r with
      | .tint, .dint lv, .dint rv =>
        Except.ok (if lv < rv then -1 else if rv < lv then 1 else 0)
      | .tfloat, .dfloat lv, .dfloat rv =>
        Except.ok (if lv < rv then -1 else if rv < lv then 1 else 0)
      | .tstring, .dstr lv, .dstr rv => Except.ok (memcmpBytes (lv.take len) (rv.take len))
      | _, _, _ => Except.error ()

/-- Comparison operators of conditions (`CompOp` in the source). -/
inductive CompOp where
  | OP_EQ
  | OP_NE
  | OP_LT
  | OP_GT
  | OP_LE
  | OP_GE
deriving Repr, DecidableEq

/-- The `switch (cond.op)` of `check_cond`: turn the three-way comparison
result into the truth value of the condition. -/
def applyOp (op : CompOp) (cmp : Int) : Bool :=
  match op with
  | .OP_EQ => cmp = 0
  | .OP_NE => cmp ≠ 0
  | .OP_LT => cmp < 0
  | .OP_GT => cmp > 0
  | .OP_LE => cmp ≤ 0
  | .OP_GE => cmp ≥ 0

/-! ## Record printer (`src/record_printer.h`) -/

namespace RP

/-- `RECORD_COUNT_LENGTH` from `record_printer.h`. -/
def RECORD_COUNT_LENGTH : Nat := 40

/-- `RecordPrinter::COL_WIDTH`. -/
def COL_WIDTH : Nat := 16

/-- The mutable printing state carried in `Context`: the send-buffer
offset, the ellipsis flag, and the bytes sent so far. -/
structure Ctx where
  offset : Nat
  ellipsis : Bool
  sent : String
deriving Repr, DecidableEq

/-- One guarded `memcpy` into the response buffer: the string is copied
only when the ellipsis flag is clear and
`offset + RECORD_COUNT_LENGTH + str.length < BUFFER_LENGTH`;
otherwise the ellipsis flag is set. -/
def writeGuarded (BUF : Nat) (str : String) (c : Ctx) : Ctx :=
  if c.ellipsis = false ∧ c.offset + RECORD_COUNT_LENGTH + str.length < BUF then
    { c with offset := c.offset + str.length, sent := c.sent ++ str }
  else
    { c with ellipsis := true }

/-- The per-column separator segment `"+" + std::string(COL_WIDTH + 2, '-')`. -/
def sepSegment : String := "+" ++ String.mk (List.replicate (COL_WIDTH + 2) (Char.ofNat 45))

/-- `RecordPrinter::print_separator`: one guarded write per column segment,
then a guarded write of the terminating `"+\n"`. -/
def print_separator (BUF numCols : Nat) (c : Ctx) : Ctx :=
  let c := (List.range numCols).foldl (fun c _ => writeGuarded BUF sepSegment c) c
  writeGuarded BUF "+\n" c

/-- Column formatting of `print_record`: values longer than `COL_WIDTH`
are truncated to `COL_WIDTH - 3` characters plus `"..."`, then the value
is right-justified in a field of width `COL_WIDTH` between `"| "` and `" "`. -/
def fmtCol (col : String) : String :=
  let col := if col.length > COL_WIDTH then
    ⟨col.toList.take (COL_WIDTH - 3)⟩ ++ "..." else col
  "| " ++ String.mk (List.replicate (COL_WIDTH - col.length) (Char.ofNat 32)) ++ col ++ " "

/-- `RecordPrinter::print_record`: the whole data row (all formatted
columns plus `"|\n"`) is written by a single guarded copy. -/
def print_record (BUF : Nat) (recStr : List String) (c : Ctx) : Ctx :=
  writeGuarded BUF (String.join (recStr.map fmtCol) ++ "|\n") c

/-- The footer string of `print_record_count`: an optional `"... ...\n"`
marker when the ellipsis flag is set, then `"Total record(s): N\n"`. -/
def footerStr (ellipsis : Bool) (numRec : Nat) : String :=
  (if ellipsis then "... ...\n" else "") ++ "Total record(s): " ++ toString numRec ++ "\n"

/-- `RecordPrinter::print_record_count`: the footer is copied with no
bound check at all. -/
def print_record_count (numRec : Nat) (c : Ctx) : Ctx :=
  let str := footerStr c.ellipsis numRec
  { c with offset := c.offset + str.length, sent := c.sent ++ str }

/-- A printing step of a result set: a separator row or a data row. -/
inductive PrintOp where
  | sepRow (numCols : Nat)
  | dataRow (recStr : List String)

/-- Run a sequence of separator/data-row printing steps. -/
def runPrint (BUF : Nat) (ops : List PrintOp) (c : Ctx) : Ctx :=
  ops.foldl (fun c op =>
    match op with
    | .sepRow n => print_separator BUF n c
    | .dataRow r => print_record BUF r c) c

theorem writeGuarded_ellipsis_mono (BUF : Nat) (s : String) (c : Ctx)
    (h : c.ellipsis = true) : (writeGuarded BUF s c).ellipsis = true := by
  simp [writeGuarded, h]

theorem writeGuarded_frozen (BUF : Nat) (s : String) (c : Ctx)
    (h : c.ellipsis = true) : writeGuarded BUF s c = c := by
  cases c
  simp_all [writeGuarded]

/-- The safety envelope: the offset always stays at least
`RECORD_COUNT_LENGTH` short of the buffer end. -/
def Inv (BUF : Nat) (c : Ctx) : Prop := c.offset + RECORD_COUNT_LENGTH ≤ BUF

theorem writeGuarded_inv (BUF : Nat) (s : String) (c : Ctx)
    (h : Inv BUF c) : Inv BUF (writeGuarded BUF s c) := by
  unfold Inv at *
  unfold writeGuarded
  split
  · next hc => simp; omega
  · exact h

theorem print_separator_inv (BUF n : Nat) (c : Ctx) (h : Inv BUF c) :
    Inv BUF (print_separator BUF n c) := by
  unfold print_separator
  apply writeGuarded_inv
  induction n generalizing c with
  | zero => simpa using h
  | succ m ih =>
    rw [List.range_succ, List.foldl_append]
    exact writeGuarded_inv _ _ _ (ih c h)

theorem runPrint_inv (BUF : Nat) (ops : List PrintOp) (c : Ctx)
    (h : Inv BUF c) : Inv BUF (runPrint BUF ops c) := by
  induction ops generalizing c with
  | nil => exact h
  | cons op rest ih =>
    cases op with
    | sepRow n => exact ih _ (print_separator_inv BUF n c h)
    | dataRow r => exact ih _ (writeGuarded_inv BUF _ c h)

theorem print_separator_frozen (BUF n : Nat) (c : Ctx)
    (h : c.ellipsis = true) : print_separator BUF n c = c := by
  unfold print_separator
  have hfold : (List.range n).foldl (fun c _ => writeGuarded BUF sepSegment c) c = c := by
    induction n with
    | zero => rfl
    | succ m ih => rw [List.range_succ, List.foldl_append, ih]; exact writeGuarded_frozen _ _ _ h
  rw [hfold]
  exact writeGuarded_frozen _ _ _ h

theorem runPrint_frozen (BUF : Nat) (ops : List PrintOp) (c : Ctx)
    (h : c.ellipsis = true) : runPrint BUF ops c = c := by
  induction ops with
  | nil => rfl
  | cons op rest ih =>
    cases op with
    | sepRow n =>
      show runPrint BUF rest (print_separator BUF n c) = c
      rw [print_separator_frozen BUF n c h]; exact ih
    | dataRow r =>
      show runPrint BUF rest (print_record BUF r c) = c
      rw [show print_record BUF r c = c from writeGuarded_frozen _ _ _ h]; exact ih

end RP

/-- Claim C10 (counterexample to the claim as stated): with `BUFFER_LENGTH = 79`
and two columns, the whole separator row is 40 bytes long, so
`offset + 40-byte reserve + row length < BUFFER_LENGTH` fails at offset 0 and the
claim says the row is dropped entirely; but `print_separator` guards each
19-byte segment separately, so the first two segments (38 bytes) are written
before the ellipsis flag is set. -/
theorem C10_printer_counterexample :
    ¬ (0 + RP.RECORD_COUNT_LENGTH + (2 * RP.sepSegment.length + 2) < 79) ∧
    (RP.print_separator 79 2 ⟨0, false, ""⟩).offset = 38 ∧
    (RP.print_separator 79 2 ⟨0, false, ""⟩).ellipsis = true := by
  refine ⟨by decide, by decide, by decide⟩

/-- Claim C10 (amended): the record printer never writes past the end of the
response buffer.  A data row is copied whole only when the current offset plus
the 40-byte footer reserve plus the row length is below `BUFFER_LENGTH`; a
separator row is guarded segment by segment in the same way, so it may be
written partially; once the ellipsis flag is set every subsequent separator
segment and data row is dropped; the footer is then written without a further
bound check, and the final offset stays within `BUFFER_LENGTH` whenever the
footer fits in the reserved 40 bytes. -/
theorem C10_printer_bounded (BUF : Nat) (ops : List RP.PrintOp) (numRec : Nat)
    (c0 : RP.Ctx) (h0 : c0.offset + RP.RECORD_COUNT_LENGTH ≤ BUF)
    (hfoot : (RP.footerStr (RP.runPrint BUF ops c0).ellipsis numRec).length ≤
      RP.RECORD_COUNT_LENGTH) :
    (RP.print_record_count numRec (RP.runPrint BUF ops c0)).offset ≤ BUF ∧
    (∀ c : RP.Ctx, c.ellipsis = true → RP.runPrint BUF ops c = c) := by
  constructor
  · have hinv : RP.Inv BUF (RP.runPrint BUF ops c0) := RP.runPrint_inv BUF ops c0 h0
    unfold RP.Inv at hinv
    unfold RP.print_record_count
    simp only
    omega
  · intro c hc
    exact RP.runPrint_frozen BUF ops c hc

/-- Witness for {C10_printer_bounded} at a concrete print run. -/
theorem C10_printer_bounded_witness :
    (RP.print_record_count 1
      (RP.runPrint 100 [.sepRow 1, .dataRow ["ab"]] ⟨0, false, ""⟩)).offset ≤ 100 ∧
    (∀ c : RP.Ctx, c.ellipsis = true →
      RP.runPrint 100 [.sepRow 1, .dataRow ["ab"]] c = c) :=
  C10_printer_bounded 100 [.sepRow 1, .dataRow ["ab"]] 1 ⟨0, false, ""⟩
    (by decide) (by decide)

/-! ## Nested-loop join executor (`src/src/execution/executor_nestedloop_join.h`) -/

/-- A qualified column reference (`TabCol` in the source). -/
structure TabCol where
  tab_name : String
  col_name : String
  colAlias : String
deriving Repr, DecidableEq

/-- Column metadata (`ColMeta`): owning table, name, type, byte length
and byte offset within the record. -/
structure ColMeta where
  tab_name : String
  name : String
  type : ColType
  len : Nat
  offset : Nat
deriving Repr, DecidableEq

/-- A literal value with its raw buffer (`Value` after `init_raw`):
the decoded value plus the raw buffer length. -/
structure Value where
  type : ColType
  data : ColData
  rawLen : Nat
deriving Repr, DecidableEq

/-- The raw buffer of a value: the decoded value in the first cell,
padding in the rest. -/
def Value.rawCells (v : Value) : Rec :=
  some v.data :: List.replicate (v.rawLen - 1) none

/-- A WHERE / join condition (`Condition`). -/
structure Condition where
  lhs_col : TabCol
  op : CompOp
  is_rhs_val : Bool
  rhs_col : TabCol
  rhs_val : Value
deriving Repr, DecidableEq

/-- Modelled from the spec: `get_col` of the abstract executor resolves a
qualified column against the output schema by table and column name
(the condition checker resolves operands as column-relative offsets).
Absence is the thrown `ColumnNotFoundError`. -/
def get_col (cols : List ColMeta) (target : TabCol) : Option ColMeta :=
  cols.find? (fun c => c.tab_name = target.tab_name ∧ c.name = target.col_name)

/-- Read the cell of a record at a byte offset (none on padding or
out-of-range access). -/
def Rec.read (r : Rec) (off : Nat) : Option ColData :=
  (r.get? off).join

/-- Read at a possibly negative (pointer-arithmetic) offset. -/
def Rec.readI (r : Rec) (off : Int) : Option ColData :=
  if off < 0 then none else r.read off.toNat

namespace NLJ

/-- `NestedLoopJoinExecutor::check_cond`: the left operand is read from
the left record at its combined-schema offset; a column right operand is
read from the right record at its combined-schema offset minus
`left_->tupleLen()`; a literal right operand is its raw buffer. -/
def check_cond (leftLen : Nat) (lrecord rrecord : Rec) (cols : List ColMeta)
    (cond : Condition) : Except Unit Bool :=
  match get_col cols cond.lhs_col with
  | none => Except.error ()
  | some lhs_meta =>
    let lhs_data := lrecord.read lhs_meta.offset
    let lhs_type := lhs_meta.type
    let rd : Except Unit (Option ColData × ColType) :=
      if cond.is_rhs_val = false then
        match get_col cols cond.rhs_col with
        | none => Except.error ()
        | some rhs_meta =>
          Except.ok (rrecord.readI ((rhs_meta.offset : Int) - (leftLen : Int)), rhs_meta.type)
      else
        Except.ok (some cond.rhs_val.data, cond.rhs_val.type)
    match rd with
    | Except.error e => Except.error e
    | Except.ok (rhs_data, rhs_type) =>
      match comp lhs_data rhs_data lhs_meta.len lhs_type rhs_type with
      | Except.error e => Except.error e
      | Except.ok cmp => Except.ok (applyOp cond.op cmp)

/-- `NestedLoopJoinExecutor::check_conds`: all conditions must hold,
short-circuiting on first failure. -/
def check_conds (leftLen : Nat) (lrecord rrecord : Rec) (cols : List ColMeta) :
    List Condition → Except Unit Bool
  | [] => Except.ok true
  | cond :: rest =>
    match check_cond leftLen lrecord rrecord cols cond with
    | Except.error e => Except.error e
    | Except.ok true => check_conds leftLen lrecord rrecord cols rest
    | Except.ok false => Except.ok false

/-- A pull-based child executor, modelled as its produced record list
plus a cursor. -/
structure SimpleExec where
  recs : List Rec
  pos : Nat
deriving Repr, DecidableEq

/-- `is_end` of a child: the cursor has run past the produced records. -/
def SimpleExec.is_end (e : SimpleExec) : Bool := e.recs.length ≤ e.pos

/-- `beginTuple` of a child: reset the cursor. -/
def SimpleExec.beginT (e : SimpleExec) : SimpleExec := { e with pos := 0 }

/-- `nextTuple` of a child: advance the cursor. -/
def SimpleExec.nextT (e : SimpleExec) : SimpleExec := { e with pos := e.pos + 1 }

/-- `Next()` of a child: the record at the cursor. -/
def SimpleExec.current (e : SimpleExec) : Option Rec := e.recs.get? e.pos

/-- The nested-loop join executor state. -/
structure NLJoinExec where
  left : SimpleExec
  right : SimpleExec
  leftLen : Nat
  rightLen : Nat
  cols : List ColMeta
  fed_conds : List Condition
  lrecord : Option Rec
  join_record : Option Rec
deriving Repr, DecidableEq

/-- The constructor of `NestedLoopJoinExecutor`: the output schema is the
left columns followed by the right columns with their offsets shifted up
by `left_->tupleLen()`. -/
def mkNLJoin (left right : SimpleExec) (leftCols rightCols : List ColMeta)
    (leftLen rightLen : Nat) (conds : List Condition) : NLJoinExec :=
  { left := left, right := right, leftLen := leftLen, rightLen := rightLen,
    cols := leftCols ++ rightCols.map (fun c => { c with offset := c.offset + leftLen }),
    fed_conds := conds, lrecord := none, join_record := none }

/-- `is_end` of the join: the join is exhausted exactly when the left
child is exhausted. -/
def is_end (st : NLJoinExec) : Bool := st.left.is_end

/-- The inner `while (!right_->is_end())` loop of `beginTuple`: read the
current right record, test the full condition list, and either stop at
the match or advance the right child. -/
def innerLoop (leftLen : Nat) (cols : List ColMeta) (conds : List Condition)
    (lrec : Rec) (right : SimpleExec) : Except Unit (Option (SimpleExec × Rec)) :=
  if h : right.is_end = true then Except.ok none
  else
    match right.current with
    | none => Except.error ()
    | some rrec =>
      match check_conds leftLen lrec rrec cols conds with
      | Except.error e => Except.error e
      | Except.ok true => Except.ok (some (right, rrec))
      | Except.ok false => innerLoop leftLen cols conds lrec right.nextT
termination_by right.recs.length - right.pos
decreasing_by
  simp [SimpleExec.is_end, SimpleExec.nextT] at *
  omega

/-- The outer `while (!left_->is_end())` loop of `beginTuple`: read the
current left record, search the right child from its current position,
and on failure advance the left child and re-begin the right child. -/
def outerLoop (leftLen rightLen : Nat) (cols : List ColMeta) (conds : List Condition)
    (lrecOld : Option Rec) (left right : SimpleExec) :
    Except Unit (SimpleExec × SimpleExec × Option Rec × Option Rec) :=
  if h : left.is_end = true then Except.ok (left, right, lrecOld, none)
  else
    match left.current with
    | none => Except.error ()
    | some lrec =>
      match innerLoop leftLen cols conds lrec right with
      | Except.error e => Except.error e
      | Except.ok (some (right1, rrec)) =>
        Except.ok (left, right1, some lrec, some (lrec ++ rrec))
      | Except.ok none =>
        outerLoop leftLen rightLen cols conds (some lrec) left.nextT right.beginT
termination_by left.recs.length - left.pos
decreasing_by
  simp [SimpleExec.is_end, SimpleExec.nextT] at *
  omega

/-- `NestedLoopJoinExecutor::beginTuple`: begin both children, then run
the nested search loops; on success the join record is the left record
followed by the right record. -/
def beginTuple (st : NLJoinExec) : Except Unit NLJoinExec :=
  match outerLoop st.leftLen st.rightLen st.cols st.fed_conds st.lrecord
      st.left.beginT st.right.beginT with
  | Except.error e => Except.error e
  | Except.ok (left1, right1, lrec1, jrec1) =>
    let jrec2 : Option Rec := match jrec1 with | some j => some j | none => st.join_record
    Except.ok { st with left := left1, right := right1, lrecord := lrec1, join_record := jrec2 }

/-- A (left, right) record pair at the given positions satisfies the
full condition list. -/
def MatchAt (leftLen : Nat) (cols : List ColMeta) (conds : List Condition)
    (lrecs rrecs : List Rec) (i j : Nat) : Prop :=
  ∃ lrec rrec, lrecs.get? i = some lrec ∧ rrecs.get? j = some rrec ∧
    check_conds leftLen lrec rrec cols conds = Except.ok true

end NLJ

namespace NLJ

theorem innerLoop_ok_none (leftLen : Nat) (cols : List ColMeta) (conds : List Condition)
    (lrec : Rec) (right : SimpleExec)
    (h : innerLoop leftLen cols conds lrec right = Except.ok none) :
    ∀ j rrec, right.pos ≤ j → right.recs.get? j = some rrec →
      check_conds leftLen lrec rrec cols conds ≠ Except.ok true := by
  induction right using innerLoop.induct leftLen cols conds lrec with
  | case1 right hend =>
    intro j rrec hj hget
    exfalso
    simp [SimpleExec.is_end] at hend
    have := List.get?_eq_none.mpr (le_trans hend hj)
    rw [this] at hget
    exact Option.noConfusion hget
  | case2 right hend hcur =>
    rw [innerLoop] at h
    simp [hend, hcur] at h
  | case3 right hend rrec0 hcur e hchk =>
    rw [innerLoop] at h
    simp [hend, hcur, hchk] at h
  | case4 right hend rrec0 hcur hchk =>
    rw [innerLoop] at h
    simp [hend, hcur, hchk] at h
  | case5 right hend rrec0 hcur hchk ih =>
    rw [innerLoop] at h
    simp only [hend, hcur, hchk] at h
    rw [dif_neg (by simp [hend])] at h
    intro j rrec hj hget hcontra
    rcases Nat.lt_or_ge right.pos j with hlt | hge
    · exact ih h j rrec (by simp [SimpleExec.nextT]; omega) hget hcontra
    · have hj2 : j = right.pos := le_antisymm (by omega) hj
      subst hj2
      rw [show right.recs.get? right.pos = right.current from rfl, hcur] at hget
      cases hget
      rw [hchk] at hcontra
      exact Bool.noConfusion (Except.ok.inj hcontra)

end NLJ

namespace NLJ

theorem innerLoop_ok_some (leftLen : Nat) (cols : List ColMeta) (conds : List Condition)
    (lrec : Rec) (right right1 : SimpleExec) (rrec : Rec)
    (h : innerLoop leftLen cols conds lrec right = Except.ok (some (right1, rrec))) :
    right1.recs = right.recs ∧ right.pos ≤ right1.pos ∧
    right1.recs.get? right1.pos = some rrec ∧
    check_conds leftLen lrec rrec cols conds = Except.ok true ∧
    ∀ j rrec2, right.pos ≤ j → j < right1.pos → right.recs.get? j = some rrec2 →
      check_conds leftLen lrec rrec2 cols conds ≠ Except.ok true := by
  induction right using innerLoop.induct leftLen cols conds lrec with
  | case1 right hend =>
    rw [innerLoop] at h
    simp [hend] at h
  | case2 right hend hcur =>
    rw [innerLoop] at h
    simp [hend, hcur] at h
  | case3 right hend rrec0 hcur e hchk =>
    rw [innerLoop] at h
    simp [hend, hcur, hchk] at h
  | case4 right hend rrec0 hcur hchk =>
    rw [innerLoop] at h
    simp only [hend, hcur, hchk] at h
    have h2 := Except.ok.inj h
    have h3 := Option.some.inj h2
    simp only [Prod.mk.injEq] at h3
    obtain ⟨hr1, hr2⟩ := h3
    subst hr1; subst hr2
    refine ⟨rfl, le_refl _, ?_, hchk, ?_⟩
    · rw [show right.recs.get? right.pos = right.current from rfl, hcur]
    · intro j rrec2 hj hjlt
      omega
  | case5 right hend rrec0 hcur hchk ih =>
    rw [innerLoop] at h
    simp only [hend, hcur, hchk] at h
    obtain ⟨ih1, ih2, ih3, ih4, ih5⟩ := ih h
    refine ⟨ih1, ?_, ih3, ih4, ?_⟩
    · simp [SimpleExec.nextT] at ih2
      omega
    · intro j rrec2 hj hjlt hget hcontra
      rcases Nat.lt_or_ge right.pos j with hlt | hge
      · exact ih5 j rrec2 (by simp [SimpleExec.nextT]; omega) hjlt hget hcontra
      · have hj2 : j = right.pos := le_antisymm (by omega) hj
        subst hj2
        rw [show right.recs.get? right.pos = right.current from rfl, hcur] at hget
        cases hget
        rw [hchk] at hcontra
        exact Bool.noConfusion (Except.ok.inj hcontra)

theorem outerLoop_ok (leftLen rightLen : Nat) (cols : List ColMeta)
    (conds : List Condition) (lrecOld : Option Rec) (left right : SimpleExec)
    (l1 r1 : SimpleExec) (lr1 jr1 : Option Rec) :
    right.pos = 0 →
    outerLoop leftLen rightLen cols conds lrecOld left right =
      Except.ok (l1, r1, lr1, jr1) →
    l1.recs = left.recs ∧ left.pos ≤ l1.pos ∧ r1.recs = right.recs ∧
    (jr1 = none → l1.is_end = true ∧
      ∀ i j, left.pos ≤ i → ¬ MatchAt leftLen cols conds left.recs right.recs i j) ∧
    (∀ jrec, jr1 = some jrec →
      ∃ lrec rrec, l1.recs.get? l1.pos = some lrec ∧ r1.recs.get? r1.pos = some rrec ∧
        check_conds leftLen lrec rrec cols conds = Except.ok true ∧
        jrec = lrec ++ rrec ∧ lr1 = some lrec ∧ l1.is_end = false ∧
        ∀ i j, left.pos ≤ i → (i < l1.pos ∨ (i = l1.pos ∧ j < r1.pos)) →
          ¬ MatchAt leftLen cols conds left.recs right.recs i j) := by
  induction lrecOld, left, right using outerLoop.induct leftLen rightLen cols conds with
  | case1 lrecOld left right hend =>
    intro hr0 h
    rw [outerLoop] at h
    rw [dif_pos hend] at h
    have h2 := Except.ok.inj h
    simp only [Prod.mk.injEq] at h2
    obtain ⟨e1, e2, e3, e4⟩ := h2
    subst e1; subst e2; subst e3; subst e4
    refine ⟨rfl, le_refl _, rfl, ?_, ?_⟩
    · intro _
      refine ⟨hend, ?_⟩
      intro i j hi hm
      obtain ⟨lrec, rrec, hgl, hgr, hc⟩ := hm
      simp [SimpleExec.is_end] at hend
      rw [List.get?_eq_none.mpr (le_trans hend hi)] at hgl
      exact Option.noConfusion hgl
    · intro jrec hjr
      exact absurd hjr (by simp)
  | case2 lrecOld left right hend hcur =>
    intro hr0 h
    rw [outerLoop] at h
    simp [hend, hcur] at h
  | case3 lrecOld left right hend lrec0 hcur e hinner =>
    intro hr0 h
    rw [outerLoop] at h
    simp only [hend, hcur, hinner] at h
    exact absurd h (by simp)
  | case4 lrecOld left right hend lrec0 hcur right1 rrec0 hinner =>
    intro hr0 h
    rw [outerLoop] at h
    simp only [hend, hcur, hinner] at h
    have h2 := Except.ok.inj h
    simp only [Prod.mk.injEq] at h2
    obtain ⟨e1, e2, e3, e4⟩ := h2
    subst e1; subst e2; subst e3; subst e4
    obtain ⟨i1, i2, i3, i4, i5⟩ :=
      innerLoop_ok_some leftLen cols conds lrec0 right right1 rrec0 hinner
    refine ⟨rfl, le_refl _, i1, by simp, ?_⟩
    intro jrec hjr
    cases hjr
    refine ⟨lrec0, rrec0, ?_, i3, i4, rfl, rfl, by simpa [SimpleExec.is_end] using hend, ?_⟩
    · rw [show left.recs.get? left.pos = left.current from rfl, hcur]
    · intro i j hi hlex hm
      rcases hlex with hlt | ⟨heq, hjlt⟩
      · omega
      · subst heq
        obtain ⟨lrec2, rrec2, hgl, hgr, hc⟩ := hm
        rw [show left.recs.get? left.pos = left.current from rfl, hcur] at hgl
        cases hgl
        exact i5 j rrec2 (by omega) hjlt hgr hc
  | case5 lrecOld left right hend lrec0 hcur hinner ih =>
    intro hr0 h
    rw [outerLoop] at h
    simp only [hend, hcur, hinner] at h
    have hnone := innerLoop_ok_none leftLen cols conds lrec0 right hinner
    obtain ⟨ih1, ih2, ih3, ih4, ih5⟩ := ih (by simp [SimpleExec.beginT]) h
    have hrow : ∀ j, ¬ MatchAt leftLen cols conds left.recs right.recs left.pos j := by
      intro j hm
      obtain ⟨lrec2, rrec2, hgl, hgr, hc⟩ := hm
      rw [show left.recs.get? left.pos = left.current from rfl, hcur] at hgl
      cases hgl
      exact hnone j rrec2 (by omega) hgr hc
    have hrecs : (SimpleExec.beginT right).recs = right.recs := rfl
    have hnextr : (SimpleExec.nextT left).recs = left.recs := rfl
    rw [hnextr] at ih1
    rw [hrecs] at ih3
    refine ⟨ih1, ?_, ih3, ?_, ?_⟩
    · simp [SimpleExec.nextT] at ih2
      omega
    · intro hjr
      obtain ⟨a1, a2⟩ := ih4 hjr
      refine ⟨a1, ?_⟩
      intro i j hi
      rcases Nat.lt_or_ge left.pos i with hlt | hge
      · exact a2 i j (by simp [SimpleExec.nextT]; omega)
      · have hie : i = left.pos := by omega
        subst hie
        exact hrow j
    · intro jrec hjr
      obtain ⟨lrec2, rrec2, b1, b2, b3, b4, b5, b6, b7⟩ := ih5 jrec hjr
      refine ⟨lrec2, rrec2, b1, b2, b3, b4, b5, b6, ?_⟩
      intro i j hi hlex
      rcases Nat.lt_or_ge left.pos i with hlt | hge
      · exact b7 i j (by simp [SimpleExec.nextT]; omega) hlex
      · have hie : i = left.pos := by omega
        subst hie
        exact hrow j

end NLJ

/-- Claim C5: for the nested-loop join with the left child as outer and the
right child as inner loop: the output schema is the left columns followed by
the right columns with offsets shifted up by `left.tuple_length`; the join is
exhausted exactly when the left child is exhausted; `beginTuple` positions the
cursors on the lexicographically first (left, right) pair satisfying every
join condition and makes the current record the left record followed by the
right record (or exhausts the left child when no pair matches); and evaluating
a condition whose right operand is a column reads the right record only
through the cell at that column's combined offset minus `left.tuple_length`. -/
theorem C5_nested_loop_join (left right : NLJ.SimpleExec)
    (leftCols rightCols : List ColMeta) (leftLen rightLen : Nat)
    (conds : List Condition) (st : NLJ.NLJoinExec)
    (h : NLJ.beginTuple
      (NLJ.mkNLJoin left right leftCols rightCols leftLen rightLen conds) =
      Except.ok st) :
    st.cols = leftCols ++ rightCols.map (fun c => { c with offset := c.offset + leftLen }) ∧
    NLJ.is_end st = st.left.is_end ∧
    ((∃ lrec rrec,
        st.left.current = some lrec ∧ st.right.current = some rrec ∧
        NLJ.check_conds leftLen lrec rrec st.cols conds = Except.ok true ∧
        st.join_record = some (lrec ++ rrec) ∧ st.lrecord = some lrec ∧
        ∀ i j, (i < st.left.pos ∨ (i = st.left.pos ∧ j < st.right.pos)) →
          ¬ NLJ.MatchAt leftLen st.cols conds left.recs right.recs i j)
      ∨ (st.left.is_end = true ∧ st.join_record = none ∧
        ∀ i j, ¬ NLJ.MatchAt leftLen st.cols conds left.recs right.recs i j)) ∧
    (∀ cond, cond.is_rhs_val = false →
      ∀ m, get_col st.cols cond.rhs_col = some m →
      ∀ l r r2 : Rec,
        r.readI ((m.offset : Int) - (leftLen : Int)) =
          r2.readI ((m.offset : Int) - (leftLen : Int)) →
        NLJ.check_cond leftLen l r st.cols cond = NLJ.check_cond leftLen l r2 st.cols cond) := by
  unfold NLJ.beginTuple at h
  set ex := NLJ.mkNLJoin left right leftCols rightCols leftLen rightLen conds with hex
  rcases hout : NLJ.outerLoop ex.leftLen ex.rightLen ex.cols ex.fed_conds ex.lrecord
      ex.left.beginT ex.right.beginT with e | res
  · rw [hout] at h
    exact absurd h (by simp)
  · obtain ⟨l1, r1, lr1, jr1⟩ := res
    rw [hout] at h
    simp only at h
    have hst := Except.ok.inj h
    have hcols : ex.cols = leftCols ++ rightCols.map
        (fun c => { c with offset := c.offset + leftLen }) := rfl
    have hleftLen : ex.leftLen = leftLen := rfl
    have hfed : ex.fed_conds = conds := rfl
    have hlrecold : ex.lrecord = none := rfl
    have hlrecs : (ex.left.beginT).recs = left.recs := rfl
    have hrrecs : (ex.right.beginT).recs = right.recs := rfl
    obtain ⟨o1, o2, o3, o4, o5⟩ :=
      NLJ.outerLoop_ok ex.leftLen ex.rightLen ex.cols ex.fed_conds ex.lrecord
        ex.left.beginT ex.right.beginT l1 r1 lr1 jr1 rfl hout
    subst hst
    refine ⟨rfl, rfl, ?_, ?_⟩
    · cases hjr : jr1 with
      | none =>
        obtain ⟨n1, n2⟩ := o4 hjr
        right
        refine ⟨n1, by simp [hjr, hex, NLJ.mkNLJoin], ?_⟩
        intro i j
        rw [hlrecs, hrrecs] at n2
        exact n2 i j (Nat.zero_le i)
      | some jrec =>
        obtain ⟨lrec, rrec, b1, b2, b3, b4, b5, b6, b7⟩ := o5 jrec hjr
        left
        refine ⟨lrec, rrec, b1, b2, b3, by simp [hjr, b4], by simp [b5], ?_⟩
        intro i j hlex
        rw [hlrecs, hrrecs] at b7
        exact b7 i j (Nat.zero_le i) hlex
    · intro cond hrv m hm l r r2 hread
      unfold NLJ.check_cond
      cases hlc : get_col ex.cols cond.lhs_col with
      | none => rfl
      | some lhsm =>
        simp only [hrv, hm, if_true, hread]

/-- Concrete left child for the nested-loop join witness: one int record. -/
def wLeft : NLJ.SimpleExec := ⟨[[some (ColData.dint 1), none, none, none]], 5⟩

/-- Concrete right child: two int records, only the second matches. -/
def wRight : NLJ.SimpleExec :=
  ⟨[[some (ColData.dint 2), none, none, none], [some (ColData.dint 1), none, none, none]], 7⟩

/-- Schema of the witness left child. -/
def wLeftCols : List ColMeta := [⟨"t", "a", ColType.tint, 4, 0⟩]

/-- Schema of the witness right child. -/
def wRightCols : List ColMeta := [⟨"u", "b", ColType.tint, 4, 0⟩]

/-- The witness join condition `t.a = u.b`. -/
def wCond : Condition :=
  { lhs_col := ⟨"t", "a", ""⟩, op := CompOp.OP_EQ, is_rhs_val := false,
    rhs_col := ⟨"u", "b", ""⟩, rhs_val := ⟨ColType.tint, ColData.dint 0, 4⟩ }

/-- The state produced by `beginTuple` on the witness join. -/
def wSt : NLJ.NLJoinExec :=
  { left := ⟨[[some (ColData.dint 1), none, none, none]], 0⟩,
    right := ⟨[[some (ColData.dint 2), none, none, none],
               [some (ColData.dint 1), none, none, none]], 1⟩,
    leftLen := 4, rightLen := 4,
    cols := [⟨"t", "a", ColType.tint, 4, 0⟩, ⟨"u", "b", ColType.tint, 4, 4⟩],
    fed_conds := [wCond],
    lrecord := some [some (ColData.dint 1), none, none, none],
    join_record := some [some (ColData.dint 1), none, none, none,
                         some (ColData.dint 1), none, none, none] }

/-- Witness for {C5_nested_loop_join} at a concrete two-record join. -/
theorem C5_nested_loop_join_witness :
    wSt.cols = wLeftCols ++ wRightCols.map (fun c => { c with offset := c.offset + 4 }) ∧
    NLJ.is_end wSt = wSt.left.is_end ∧
    ((∃ lrec rrec,
        wSt.left.current = some lrec ∧ wSt.right.current = some rrec ∧
        NLJ.check_conds 4 lrec rrec wSt.cols [wCond] = Except.ok true ∧
        wSt.join_record = some (lrec ++ rrec) ∧ wSt.lrecord = some lrec ∧
        ∀ i j, (i < wSt.left.pos ∨ (i = wSt.left.pos ∧ j < wSt.right.pos)) →
          ¬ NLJ.MatchAt 4 wSt.cols [wCond] wLeft.recs wRight.recs i j)
      ∨ (wSt.left.is_end = true ∧ wSt.join_record = none ∧
        ∀ i j, ¬ NLJ.MatchAt 4 wSt.cols [wCond] wLeft.recs wRight.recs i j)) ∧
    (∀ cond, cond.is_rhs_val = false →
      ∀ m, get_col wSt.cols cond.rhs_col = some m →
      ∀ l r r2 : Rec,
        r.readI ((m.offset : Int) - (4 : Int)) = r2.readI ((m.offset : Int) - (4 : Int)) →
        NLJ.check_cond 4 l r wSt.cols cond = NLJ.check_cond 4 l r2 wSt.cols cond) :=
  C5_nested_loop_join wLeft wRight wLeftCols wRightCols 4 4 [wCond] wSt (by
    simp [NLJ.beginTuple, NLJ.outerLoop, NLJ.innerLoop, NLJ.check_conds, NLJ.check_cond,
      get_col, comp, applyOp, wLeft, wRight, wCond, wSt, wLeftCols, wRightCols, NLJ.mkNLJoin,
      NLJ.SimpleExec.is_end, NLJ.SimpleExec.beginT, NLJ.SimpleExec.nextT,
      NLJ.SimpleExec.current, Rec.read, Rec.readI, ColData.toFloat])

/-! ## Index scan executor (`src/src/execution/executor_index_scan.h`) -/

namespace ISE

/-- The `swap_op` map of the `IndexScanExecutor` constructor:
`{= ↦ =, ≠ ↦ ≠, < ↦ >, > ↦ <, ≤ ↦ ≥, ≥ ↦ ≤}`. -/
def swap_op : CompOp → CompOp
  | .OP_EQ => .OP_EQ
  | .OP_NE => .OP_NE
  | .OP_LT => .OP_GT
  | .OP_GT => .OP_LT
  | .OP_LE => .OP_GE
  | .OP_GE => .OP_LE

/-- The condition-normalisation loop of the `IndexScanExecutor` constructor:
a condition whose left column is not on the scanned table has its sides
swapped and its operator replaced through `swap_op`.  (The source asserts
that such a condition is a column-column condition whose right side is on
the scanned table.) -/
def swapCondsForTable (tab_name : String) (conds : List Condition) : List Condition :=
  conds.map (fun cond =>
    if cond.lhs_col.tab_name ≠ tab_name then
      { cond with lhs_col := cond.rhs_col, rhs_col := cond.lhs_col, op := swap_op cond.op }
    else cond)

/-- `IndexScanExecutor::check_cond`: both operands are read from the same
record (or the literal raw buffer). -/
def check_cond (rec : Rec) (cols : List ColMeta) (cond : Condition) : Except Unit Bool :=
  match get_col cols cond.lhs_col with
  | none => Except.error ()
  | some lhs_meta =>
    let lhs_data := rec.read lhs_meta.offset
    let lhs_type := lhs_meta.type
    let rd : Except Unit (Option ColData × ColType) :=
      if cond.is_rhs_val = false then
        match get_col cols cond.rhs_col with
        | none => Except.error ()
        | some rhs_meta => Except.ok (rec.read rhs_meta.offset, rhs_meta.type)
      else
        Except.ok (some cond.rhs_val.data, cond.rhs_val.type)
    match rd with
    | Except.error e => Except.error e
    | Except.ok (rhs_data, rhs_type) =>
      match comp lhs_data rhs_data lhs_meta.len lhs_type rhs_type with
      | Except.error e => Except.error e
      | Except.ok cmp => Except.ok (applyOp cond.op cmp)

/-- `IndexScanExecutor::check_conds`. -/
def check_conds (rec : Rec) (cols : List ColMeta) : List Condition → Except Unit Bool
  | [] => Except.ok true
  | cond :: rest =>
    match check_cond rec cols cond with
    | Except.error e => Except.error e
    | Except.ok true => check_conds rec cols rest
    | Except.ok false => Except.ok false

end ISE

theorem memcmpBytes_antisymm (a b : List Nat) : memcmpBytes a b = - memcmpBytes b a := by
  induction a generalizing b with
  | nil => cases b <;> simp [memcmpBytes]
  | cons x xs ih =>
    cases b with
    | nil => simp [memcmpBytes]
    | cons y ys =>
      by_cases hxy : x < y
      · simp [memcmpBytes, hxy, Nat.lt_asymm hxy]
      · by_cases hyx : y < x
        · simp [memcmpBytes, hxy, hyx]
        · simp [memcmpBytes, hxy, hyx, ih ys]

theorem memcmpBytes_take_right (a b : List Nat) (n : Nat) (hn : a.length = n) :
    memcmpBytes a (b.take n) = memcmpBytes a b := by
  induction a generalizing b n with
  | nil => cases b <;> cases n <;> simp [memcmpBytes]
  | cons x xs ih =>
    cases b with
    | nil => simp [memcmpBytes]
    | cons y ys =>
      cases n with
      | zero => exact absurd hn (by simp)
      | succ m =>
        simp only [List.take_succ_cons, memcmpBytes]
        rw [ih ys m (by simpa using hn)]

theorem if3_swap {x y : Int} :
    (if y < x then (-1 : Int) else if x < y then 1 else 0) =
      -(if x < y then (-1 : Int) else if y < x then 1 else 0) := by
  rcases lt_trichotomy x y with h | h | h
  · rw [if_neg (lt_asymm h), if_pos h, if_pos h]; norm_num
  · subst h; simp
  · rw [if_pos h, if_neg (lt_asymm h), if_pos h]
    try norm_num

theorem if3_swapQ {x y : Rat} :
    (if y < x then (-1 : Int) else if x < y then 1 else 0) =
      -(if x < y then (-1 : Int) else if y < x then 1 else 0) := by
  rcases lt_trichotomy x y with h | h | h
  · rw [if_neg (lt_asymm h), if_pos h, if_pos h]; norm_num
  · subst h; simp
  · rw [if_pos h, if_neg (lt_asymm h), if_pos h]
    try norm_num

/-- Flipping the operand order of `comp` negates the comparison result,
provided the declared byte length of each operand matches its data
(as it does for a value stored in a column of that length). -/
theorem comp_swap (ldata rdata : Option ColData) (lenL lenR : Nat) (lt rt : ColType)
    (hL : ∀ bs, ldata = some (.dstr bs) → bs.length = lenL)
    (hR : ∀ bs, rdata = some (.dstr bs) → bs.length = lenR) :
    comp rdata ldata lenR rt lt = Except.map (fun c => -c) (comp ldata rdata lenL lt rt) := by
  cases ldata with
  | none => cases rdata <;> simp [comp, Except.map]
  | some l =>
    cases rdata with
    | none => simp [comp, Except.map]
    | some r =>
      cases lt <;> cases rt <;> cases l <;> cases r <;>
        simp [comp, ColData.toFloat, Except.map] <;>
        first
          | exact if3_swap
          | exact if3_swapQ
          | (rename_i bsL bsR
             have h1 : bsL.length = lenL := hL bsL rfl
             have h2 : bsR.length = lenR := hR bsR rfl
             rw [List.take_of_length_le (le_of_eq h2), List.take_of_length_le (le_of_eq h1)]
             rw [memcmpBytes_take_right bsR bsL lenR h2,
                 memcmpBytes_take_right bsL bsR lenL h1]
             exact memcmpBytes_antisymm bsR bsL)

theorem applyOp_swap (op : CompOp) (c : Int) :
    applyOp (ISE.swap_op op) (-c) = applyOp op c := by
  cases op <;> simp [applyOp, ISE.swap_op] <;> omega

/-- Claim C9: in the index-scan constructor, exactly those conditions whose
left-hand column does not belong to the scanned table have their sides
swapped and their operator replaced through
`{= ↦ =, ≠ ↦ ≠, < ↦ >, > ↦ <, ≤ ↦ ≥, ≥ ↦ ≤}`, the others are kept; and the
rewritten comparison evaluates to the same truth value (and the same thrown
error) as the original comparison on the same pair of operands, whenever each
operand's data fits its declared column length. -/
theorem C9_index_scan_cond_swap (tab : String) (conds : List Condition) :
    (∀ i cond, conds.get? i = some cond → cond.lhs_col.tab_name ≠ tab →
      (ISE.swapCondsForTable tab conds).get? i = some
        { cond with lhs_col := cond.rhs_col, rhs_col := cond.lhs_col,
                    op := ISE.swap_op cond.op }) ∧
    (∀ i cond, conds.get? i = some cond → cond.lhs_col.tab_name = tab →
      (ISE.swapCondsForTable tab conds).get? i = some cond) ∧
    (ISE.swap_op .OP_EQ = .OP_EQ ∧ ISE.swap_op .OP_NE = .OP_NE ∧
     ISE.swap_op .OP_LT = .OP_GT ∧ ISE.swap_op .OP_GT = .OP_LT ∧
     ISE.swap_op .OP_LE = .OP_GE ∧ ISE.swap_op .OP_GE = .OP_LE) ∧
    (∀ (op : CompOp) (ldata rdata : Option ColData) (lenL lenR : Nat) (lt rt : ColType),
      (∀ bs, ldata = some (.dstr bs) → bs.length = lenL) →
      (∀ bs, rdata = some (.dstr bs) → bs.length = lenR) →
      Except.map (applyOp (ISE.swap_op op)) (comp rdata ldata lenR rt lt) =
        Except.map (applyOp op) (comp ldata rdata lenL lt rt)) := by
  refine ⟨?_, ?_, ⟨rfl, rfl, rfl, rfl, rfl, rfl⟩, ?_⟩
  · intro i cond hget hne
    unfold ISE.swapCondsForTable
    rw [List.get?_map, hget]
    simp [hne]
  · intro i cond hget heq
    unfold ISE.swapCondsForTable
    rw [List.get?_map, hget]
    simp [heq]
  · intro op ldata rdata lenL lenR lt rt hL hR
    rw [comp_swap ldata rdata lenL lenR lt rt hL hR]
    cases comp ldata rdata lenL lt rt with
    | error e => rfl
    | ok c =>
      simp only [Except.map]
      rw [applyOp_swap]

/-- Witness for {C9_index_scan_cond_swap}: a one-condition list on table
`t` with the left column on table `u`, and a concrete comparison. -/
theorem C9_index_scan_cond_swap_witness :
    (ISE.swapCondsForTable "u" [wCond]).get? 0 = some
      { wCond with lhs_col := wCond.rhs_col, rhs_col := wCond.lhs_col,
                   op := ISE.swap_op wCond.op } ∧
    Except.map (applyOp (ISE.swap_op .OP_LT))
        (comp (some (ColData.dint 5)) (some (ColData.dint 3)) 4 .tint .tint) =
      Except.map (applyOp .OP_LT)
        (comp (some (ColData.dint 3)) (some (ColData.dint 5)) 4 .tint .tint) := by
  constructor
  · exact (C9_index_scan_cond_swap "u" [wCond]).1 0 wCond (by decide) (by decide)
  · exact (C9_index_scan_cond_swap "u" [wCond]).2.2.2 .OP_LT
      (some (ColData.dint 3)) (some (ColData.dint 5)) 4 4 .tint .tint
      (by intro bs h; cases h) (by intro bs h; cases h)

/-! ## Optimizer plan tree and predicate pushdown
(`src/src/optimizer/plan_tree.h`, `src/src/optimizer/query_optimizer.cpp`) -/

namespace OPT

/-- The relational plan tree (`PlanTreeNode` and its four variants);
conditions are carried in their string form as in the source. -/
inductive PlanTree where
  | scan (table : String)
  | filter (child : PlanTree) (conditions : List String)
  | project (child : PlanTree) (columns : List String) (selectAll : Bool)
  | join (left : PlanTree) (right : PlanTree) (conditions : List String)
deriving Repr, DecidableEq

/-- `getOutputTables` of each plan tree node. -/
def getOutputTables : PlanTree → List String
  | .scan t => [t]
  | .filter c _ => getOutputTables c
  | .project c _ _ => getOutputTables c
  | .join l r _ => getOutputTables l ++ getOutputTables r

/-- `\w` of the condition regexes and the `isalnum(c) || c == '_'`
word-character test. -/
def isWordChar (c : Char) : Bool := c.isAlphanum || c = '_'

/-- The `prefix_is_table` / `suffix_is_column` test of
`getTablesInCondition`: non-empty, does not start with a digit, and is
not all digits. -/
def looksLikeName (p : List Char) : Bool :=
  match p with
  | [] => false
  | c0 :: _ => if c0.isDigit then false else !(p.all Char.isDigit)

/-- Insertion into the `std::set` of table prefixes (membership only;
the iteration order of the set is never observed). -/
def setInsert (x : String) (l : List String) : List String :=
  if l.contains x then l else l ++ [x]

/-- The dot-scanning loop of `getTablesInCondition`: at each `.` the
word-characters before and after it are expanded; when both sides are
non-empty and look like identifiers, the prefix is recorded. -/
def scanDots (prevRev rest : List Char) (acc : List String) : List String :=
  match rest with
  | [] => acc
  | c :: cs =>
    let acc2 :=
      if c = '.' then
        let pfx := (prevRev.takeWhile isWordChar).reverse
        let sfx := cs.takeWhile isWordChar
        if pfx ≠ [] ∧ sfx ≠ [] then
          if looksLikeName pfx ∧ looksLikeName sfx then setInsert (String.mk pfx) acc
          else acc
        else acc
      else acc
    scanDots (c :: prevRev) cs acc2

/-- An operator character of the regex `[<>=!]+`. -/
def isOpChar (c : Char) : Bool := c = '<' ∨ c = '>' ∨ c = '=' ∨ c = '!'

/-- The anchored regex `^(\w+)[<>=!]+` used for unprefixed conditions:
the leading column name, when followed by at least one operator
character. -/
def leadingColName (s : List Char) : Option String :=
  let w := s.takeWhile isWordChar
  let opNext : Bool :=
    match s.drop w.length with
    | c :: _ => isOpChar c
    | [] => false
  if w ≠ [] ∧ opNext = true then some (String.mk w) else none

/-- `QueryOptimizer::getTablesInCondition`: collect the table prefixes of
a condition string; when none is found but the condition starts with a
column name, the marker `__ANY_TABLE__` is returned. -/
def getTablesInCondition (condition : String) : List String :=
  let tabs := scanDots [] condition.toList []
  if tabs.isEmpty then
    match leadingColName condition.toList with
    | some _ => ["__ANY_TABLE__"]
    | none => []
  else tabs

/-- The catalogue environment consulted during pushdown: the bound
alias map (`alias_to_table_map_`) and, per table, its column names
(`get_table` / `is_col`; a missing table is the caught exception). -/
structure SchemaEnv where
  aliasToTable : List (String × String)
  tables : List (String × List String)
deriving Repr, DecidableEq

/-- Lookup in `alias_to_table_map_`. -/
def lookupAlias (env : SchemaEnv) (a : String) : Option String :=
  (env.aliasToTable.find? (fun p => p.1 = a)).map (fun p => p.2)

/-- `get_table(t).is_col(col)`, with a missing table caught as `false`. -/
def is_col (env : SchemaEnv) (t col : String) : Bool :=
  match env.tables.find? (fun p => p.1 = t) with
  | some p => p.2.contains col
  | none => false

/-- The three-way prefix match used both by `conditionAppliesTo` and by
the partition loop of `pushPredicatesDown`: exact table name, bound
alias, or a single character equal to the first character of the table
name. -/
def prefixMatchesTable (env : SchemaEnv) (condTable table : String) : Bool :=
  condTable = table ∨ lookupAlias env condTable = some table ∨
    (condTable.length = 1 ∧ table.take 1 = condTable)

/-- `QueryOptimizer::conditionAppliesTo`. -/
def conditionAppliesTo (env : SchemaEnv) (condition : String)
    (tables : List String) : Bool :=
  let condition_tables := getTablesInCondition condition
  if condition_tables.contains "__ANY_TABLE__" then
    match leadingColName condition.toList with
    | some col_name => tables.any (fun t => is_col env t col_name)
    | none => false
  else
    condition_tables.all (fun ct => tables.any (fun t => prefixMatchesTable env ct t)) &&
      !condition_tables.isEmpty

/-- The condition-partition loop of the `JoinNode` branch of
`pushPredicatesDown`: each residual condition goes to the left subtree
when every one of its table prefixes is on the left, else to the right
subtree when every prefix is on the right, else it is kept. -/
def partitionConds (env : SchemaEnv) (ltabs rtabs : List String) :
    List String → List String × List String × List String
  | [] => ([], [], [])
  | c :: cs =>
    let condTables := getTablesInCondition c
    let leftOnly := condTables.all (fun ct => ltabs.any (fun t => prefixMatchesTable env ct t))
    let rightOnly := condTables.all (fun ct => rtabs.any (fun t => prefixMatchesTable env ct t))
    let rest := partitionConds env ltabs rtabs cs
    if leftOnly ∧ condTables ≠ [] then (rest.1, c :: rest.2.1, rest.2.2)
    else if rightOnly ∧ condTables ≠ [] then (rest.1, rest.2.1, c :: rest.2.2)
    else (c :: rest.1, rest.2.1, rest.2.2)

/-- `QueryOptimizer::pushPredicatesDown`: returns the rewritten subtree
and the conditions remaining after the walk (the in-out
`remaining_conditions`). -/
def pushPredicatesDown (env : SchemaEnv) :
    PlanTree → List String → PlanTree × List String
  | .join l r jconds, remaining =>
    let ltabs := getOutputTables l
    let rtabs := getOutputTables r
    let part := partitionConds env ltabs rtabs remaining
    let lres := pushPredicatesDown env l part.2.1
    let rres := pushPredicatesDown env r part.2.2
    (.join lres.1 rres.1 jconds, part.1 ++ lres.2 ++ rres.2)
  | .scan t, remaining =>
    let applicable := remaining.filter (fun c => conditionAppliesTo env c [t])
    let kept := remaining.filter (fun c => !conditionAppliesTo env c [t])
    if applicable ≠ [] then (.filter (.scan t) applicable, kept) else (.scan t, kept)
  | node, remaining => (node, remaining)

/-- `QueryOptimizer::applyPredicatePushdown` (after the conditions have
been rendered to strings): push down, then wrap the survivors in an
outermost `Filter`. -/
def applyPredicatePushdown (env : SchemaEnv) (root : PlanTree)
    (condStrs : List String) : PlanTree :=
  let res := pushPredicatesDown env root condStrs
  if res.2 ≠ [] then .filter res.1 res.2 else res.1

/-- The multiset of all conditions attached in `Filter` nodes of a tree. -/
def filterConds : PlanTree → Multiset String
  | .scan _ => 0
  | .filter c conds => (conds : Multiset String) + filterConds c
  | .project c _ _ => filterConds c
  | .join l r _ => filterConds l + filterConds r

/-- A tree built of scans and joins only, as produced by the initial
build and the join-ordering phase that feed predicate pushdown. -/
def scanJoinOnly : PlanTree → Bool
  | .scan _ => true
  | .join l r _ => scanJoinOnly l && scanJoinOnly r
  | _ => false

end OPT

namespace OPT

theorem coe_cons_split (a : String) (l : List String) :
    ((a :: l : List String) : Multiset String) = {a} + (l : Multiset String) := by
  rw [← Multiset.cons_coe, ← Multiset.singleton_add]

theorem partitionConds_perm (env : SchemaEnv) (ltabs rtabs : List String)
    (conds : List String) :
    ((partitionConds env ltabs rtabs conds).1 : Multiset String) +
      ((partitionConds env ltabs rtabs conds).2.1 : Multiset String) +
      ((partitionConds env ltabs rtabs conds).2.2 : Multiset String) =
      (conds : Multiset String) := by
  induction conds with
  | nil => rfl
  | cons c cs ih =>
    unfold partitionConds
    by_cases h1 : ((getTablesInCondition c).all
        (fun ct => ltabs.any (fun t => prefixMatchesTable env ct t))) = true ∧
        getTablesInCondition c ≠ []
    · rw [if_pos h1]
      simp only [coe_cons_split]
      rw [← ih]
      abel
    · rw [if_neg h1]
      by_cases h2 : ((getTablesInCondition c).all
          (fun ct => rtabs.any (fun t => prefixMatchesTable env ct t))) = true ∧
          getTablesInCondition c ≠ []
      · rw [if_pos h2]
        simp only [coe_cons_split]
        rw [← ih]
        abel
      · rw [if_neg h2]
        simp only [coe_cons_split]
        rw [← ih]
        abel

theorem pushPredicatesDown_conds (env : SchemaEnv) (t : PlanTree) (conds : List String) :
    filterConds (pushPredicatesDown env t conds).1 +
      ((pushPredicatesDown env t conds).2 : Multiset String) =
      filterConds t + (conds : Multiset String) := by
  induction t generalizing conds with
  | scan tab =>
    unfold pushPredicatesDown
    have hp := List.filter_append_perm (fun c => conditionAppliesTo env c [tab]) conds
    have hsum : ((conds.filter (fun c => conditionAppliesTo env c [tab]) : List String) :
          Multiset String) +
        ((conds.filter (fun c => !conditionAppliesTo env c [tab]) : List String) :
          Multiset String) = (conds : Multiset String) := by
      rw [show (((conds.filter (fun c => conditionAppliesTo env c [tab]) : List String) :
            Multiset String) +
          ((conds.filter (fun c => !conditionAppliesTo env c [tab]) : List String) :
            Multiset String)) =
          ((conds.filter (fun c => conditionAppliesTo env c [tab]) ++
            conds.filter (fun c => !conditionAppliesTo env c [tab]) : List String) :
            Multiset String) from rfl]
      exact Multiset.coe_eq_coe.mpr hp
    by_cases he : conds.filter (fun c => conditionAppliesTo env c [tab]) ≠ []
    · rw [if_pos he]
      simp only [filterConds]
      simp only [add_zero, zero_add]
      exact hsum
    · rw [if_neg he]
      rw [not_not] at he
      simp only [filterConds]
      simp only [zero_add]
      have h2 := hsum
      rw [he] at h2
      simpa using h2
  | filter c cnds ihc => rfl
  | project c cols sa ihc => rfl
  | join l r jconds ihl ihr =>
    unfold pushPredicatesDown
    simp only [filterConds]
    have hpart := partitionConds_perm env (getOutputTables l) (getOutputTables r) conds
    have hl := ihl (partitionConds env (getOutputTables l) (getOutputTables r) conds).2.1
    have hr := ihr (partitionConds env (getOutputTables l) (getOutputTables r) conds).2.2
    push_cast at *
    rw [← hpart]
    calc filterConds (pushPredicatesDown env l
            (partitionConds env (getOutputTables l) (getOutputTables r) conds).2.1).1 +
          filterConds (pushPredicatesDown env r
            (partitionConds env (getOutputTables l) (getOutputTables r) conds).2.2).1 +
          (((partitionConds env (getOutputTables l) (getOutputTables r) conds).1 : Multiset String) +
            ((pushPredicatesDown env l
              (partitionConds env (getOutputTables l) (getOutputTables r) conds).2.1).2 : Multiset String) +
            ((pushPredicatesDown env r
              (partitionConds env (getOutputTables l) (getOutputTables r) conds).2.2).2 : Multiset String))
        = (filterConds (pushPredicatesDown env l
            (partitionConds env (getOutputTables l) (getOutputTables r) conds).2.1).1 +
           ((pushPredicatesDown env l
              (partitionConds env (getOutputTables l) (getOutputTables r) conds).2.1).2 : Multiset String)) +
          (filterConds (pushPredicatesDown env r
            (partitionConds env (getOutputTables l) (getOutputTables r) conds).2.2).1 +
           ((pushPredicatesDown env r
              (partitionConds env (getOutputTables l) (getOutputTables r) conds).2.2).2 : Multiset String)) +
          ((partitionConds env (getOutputTables l) (getOutputTables r) conds).1 : Multiset String) := by
          abel
      _ = (filterConds l +
            ((partitionConds env (getOutputTables l) (getOutputTables r) conds).2.1 : Multiset String)) +
          (filterConds r +
            ((partitionConds env (getOutputTables l) (getOutputTables r) conds).2.2 : Multiset String)) +
          ((partitionConds env (getOutputTables l) (getOutputTables r) conds).1 : Multiset String) := by
          rw [hl, hr]
      _ = filterConds l + filterConds r +
          (((partitionConds env (getOutputTables l) (getOutputTables r) conds).1 : Multiset String) +
           ((partitionConds env (getOutputTables l) (getOutputTables r) conds).2.1 : Multiset String) +
           ((partitionConds env (getOutputTables l) (getOutputTables r) conds).2.2 : Multiset String)) := by
          abel

theorem scanJoinOnly_no_filters (t : PlanTree) (h : scanJoinOnly t = true) :
    filterConds t = 0 := by
  induction t with
  | scan tab => rfl
  | filter c cnds ihc => exact absurd h (by simp [scanJoinOnly])
  | project c cols sa ihc => exact absurd h (by simp [scanJoinOnly])
  | join l r jconds ihl ihr =>
    simp only [scanJoinOnly, Bool.and_eq_true] at h
    simp only [filterConds, ihl h.1, ihr h.2, add_zero]

end OPT

/-- Claim C7: for every Scan/Join plan tree (the trees the earlier phases
hand to predicate pushdown) and every multiset of WHERE condition strings,
the multiset union of the conditions attached in Filter nodes of the output
tree (the Filters placed above Scans plus the outermost Filter holding the
surviving cross-table conditions) equals the original WHERE condition
multiset: no condition is dropped and none is duplicated. -/
theorem C7_pushdown_preserves_conditions (env : OPT.SchemaEnv) (t : OPT.PlanTree)
    (conds : List String) (h : OPT.scanJoinOnly t = true) :
    OPT.filterConds (OPT.applyPredicatePushdown env t conds) = (conds : Multiset String) := by
  unfold OPT.applyPredicatePushdown
  have hmain := OPT.pushPredicatesDown_conds env t conds
  rw [OPT.scanJoinOnly_no_filters t h, zero_add] at hmain
  by_cases he : (OPT.pushPredicatesDown env t conds).2 ≠ []
  · rw [if_pos he]
    simp only [OPT.filterConds]
    rw [add_comm]
    exact hmain
  · rw [if_neg he]
    rw [not_not] at he
    rw [he] at hmain
    simpa using hmain

/-- Witness for {C7_pushdown_preserves_conditions}: a two-table join where
one condition is pushed to a scan and one cross condition survives at the
outermost Filter. -/
theorem C7_pushdown_preserves_conditions_witness :
    OPT.filterConds (OPT.applyPredicatePushdown ⟨[], [("a", ["x"]), ("b", ["y"])]⟩
      (OPT.PlanTree.join (OPT.PlanTree.scan "a") (OPT.PlanTree.scan "b") [])
      ["a.x=1", "z.w=2"]) = (["a.x=1", "z.w=2"] : Multiset String) :=
  C7_pushdown_preserves_conditions ⟨[], [("a", ["x"]), ("b", ["y"])]⟩
    (OPT.PlanTree.join (OPT.PlanTree.scan "a") (OPT.PlanTree.scan "b") [])
    ["a.x=1", "z.w=2"] (by decide)

namespace OPT

/-- The referencing rule exactly as the spec states it: an explicit prefix
must equal the table name or a bound alias of that table; an unprefixed
condition references the table when its column name exists among the
table's columns. -/
def claimRefsTable (env : SchemaEnv) (condition table : String) : Bool :=
  let pts := getTablesInCondition condition
  if pts.contains "__ANY_TABLE__" then
    match leadingColName condition.toList with
    | some col => is_col env table col
    | none => false
  else
    pts.all (fun p => p = table ∨ lookupAlias env p = some table) && !pts.isEmpty

/-- The referencing rule amended by the first-letter fallback the code
actually implements: a prefix also matches when it is a single character
equal to the first character of the table name. -/
def amendedRefsTable (env : SchemaEnv) (condition table : String) : Bool :=
  let pts := getTablesInCondition condition
  if pts.contains "__ANY_TABLE__" then
    match leadingColName condition.toList with
    | some col => is_col env table col
    | none => false
  else
    pts.all (fun p => p = table ∨ lookupAlias env p = some table ∨
      (p.length = 1 ∧ table.take 1 = p)) && !pts.isEmpty

end OPT

/-- Claim C8 (counterexample to the claim as stated): with no alias bound,
the condition `u.id=5` is treated by `conditionAppliesTo` as referencing
the table `users`, although `u` is neither the table name nor a bound
alias and the column is prefixed. -/
theorem C8_cond_refs_counterexample :
    OPT.conditionAppliesTo ⟨[], [("users", ["id", "name"])]⟩ "u.id=5" ["users"] = true ∧
    OPT.claimRefsTable ⟨[], [("users", ["id", "name"])]⟩ "u.id=5" "users" = false := by
  constructor
  · decide
  · decide

/-- Claim C8 (amended): during predicate pushdown a condition is treated
as referencing a table iff every explicit prefix occurring in it equals
the table's name, a bound alias of that table, or is a single character
equal to the first character of the table's name (and at least one prefix
occurs), or, when the condition's column carries no prefix, the column
name exists among that table's columns. -/
theorem C8_cond_refs_amended (env : OPT.SchemaEnv) (cond table : String) :
    OPT.conditionAppliesTo env cond [table] = OPT.amendedRefsTable env cond table := by
  unfold OPT.conditionAppliesTo OPT.amendedRefsTable
  by_cases h : (OPT.getTablesInCondition cond).contains "__ANY_TABLE__"
  · rw [if_pos h, if_pos h]
    cases OPT.leadingColName cond.toList with
    | none => rfl
    | some col => simp
  · rw [if_neg h, if_neg h]
    congr 1
    induction OPT.getTablesInCondition cond with
    | nil => rfl
    | cons p ps ih =>
      simp only [List.all_cons, ih]
      congr 1
      simp [OPT.prefixMatchesTable]

namespace OPT

/-- Rendering of a float literal by `conditionToString`: an integral value
is printed with one decimal (`%.1f`); the `%.6g` rendering of a
non-integral value is modelled by a deterministic exact rendering (no
claim depends on the text of a condition string). -/
def formatFloatLit (q : Rat) : String :=
  if q.den = 1 then toString q.num ++ ".0"
  else toString q.num ++ "/" ++ toString q.den

/-- The operator spelling of `conditionToString` (`<>` for `OP_NE`). -/
def opToString : CompOp → String
  | .OP_GE => ">="
  | .OP_LE => "<="
  | .OP_GT => ">"
  | .OP_LT => "<"
  | .OP_NE => "<>"
  | .OP_EQ => "="

/-- The literal rendering of `conditionToString`: strings are quoted,
ints printed, floats formatted. -/
def valueToString (v : Value) : String :=
  match v.data with
  | .dstr bs => "'" ++ String.mk (bs.map Char.ofNat) ++ "'"
  | .dfloat q => formatFloatLit q
  | .dint i => toString i

/-- `QueryOptimizer::conditionToString`: `prefix.column op rhs`, the
prefix being the alias when bound, else the table name. -/
def conditionToString (cond : Condition) : String :=
  let left_pfx := if cond.lhs_col.colAlias ≠ "" then cond.lhs_col.colAlias
    else cond.lhs_col.tab_name
  let s := (if left_pfx ≠ "" then left_pfx ++ "." else "") ++ cond.lhs_col.col_name
  let s := s ++ opToString cond.op
  if cond.is_rhs_val then
    s ++ valueToString cond.rhs_val
  else
    let right_pfx := if cond.rhs_col.colAlias ≠ "" then cond.rhs_col.colAlias
      else cond.rhs_col.tab_name
    s ++ (if right_pfx ≠ "" then right_pfx ++ "." else "") ++ cond.rhs_col.col_name

/-- `QueryOptimizer::extractJoinConditions`: a column-column condition is
a join condition between the two table sets when one operand's table lies
in each set (either orientation). -/
def extractJoinConditions (conds : List Condition)
    (left_tables right_tables : List String) : List String :=
  conds.filterMap (fun cond =>
    if cond.is_rhs_val = false then
      let leftHas0 := left_tables.contains cond.lhs_col.tab_name
      let rightHas0 := right_tables.contains cond.rhs_col.tab_name
      let pair :=
        if leftHas0 = false ∧ rightHas0 = false then
          (left_tables.contains cond.rhs_col.tab_name,
           right_tables.contains cond.lhs_col.tab_name)
        else (leftHas0, rightHas0)
      if pair.1 = true ∧ pair.2 = true then some (conditionToString cond) else none
    else none)

/-- `QueryOptimizer::getTableCardinality`: the exact heap row count
(obtained by scanning the record file, supplied here as `rowCount`),
clamped to at least 1. -/
def getTableCardinality (rowCount : String → Nat) (t : String) : Nat :=
  max (rowCount t) 1

/-- Modelled `std::sort` with the comparator
`cardinality(a) < cardinality(b)`: `std::sort` may produce any ordering
consistent with this strict-weak comparator; for pairwise-distinct
cardinalities all such orderings coincide, and insertion sort realises
one. -/
def insertByCard (card : String → Nat) (x : String) : List String → List String
  | [] => [x]
  | y :: ys => if card x < card y then x :: y :: ys else y :: insertByCard card x ys

/-- Sorting of `sorted_tables` by ascending cardinality. -/
def sortByCardinality (card : String → Nat) : List String → List String
  | [] => []
  | x :: xs => insertByCard card x (sortByCardinality card xs)

/-- The `std::swap(sorted_tables[i], sorted_tables[j])` of the
connectable-table search, on the not-yet-joined suffix: exchange the
head with position `j`. -/
def swapHead (l : List String) (j : Nat) : List String :=
  match l.get? 0, l.get? j with
  | some a, some b => (l.set 0 b).set j a
  | _, _ => l

/-- The connectable-table search of one iteration of
`buildOptimalJoinOrder`: when the next table has no join condition with
the current result and is not the last table, search the remaining
tables for a connectable one and swap it into place; returns the chosen
table, the remaining suffix, and the join conditions. -/
def chooseNext (conds : List Condition) (current_tables : List String)
    (next0 : String) (rest0 : List String) : String × List String × List String :=
  let jconds0 := extractJoinConditions conds current_tables [next0]
  if jconds0.isEmpty ∧ rest0 ≠ [] then
    match rest0.findIdx? (fun cand =>
      !(extractJoinConditions conds current_tables [cand]).isEmpty) with
    | some j =>
      match swapHead (next0 :: rest0) (j + 1) with
      | [] => (next0, rest0, jconds0)
      | next1 :: rest1 =>
        (next1, rest1, extractJoinConditions conds current_tables [next1])
    | none => (next0, rest0, jconds0)
  else (next0, rest0, jconds0)

theorem chooseNext_len (conds : List Condition) (current_tables : List String)
    (next0 : String) (rest0 : List String) :
    (chooseNext conds current_tables next0 rest0).2.1.length = rest0.length := by
  unfold chooseNext
  by_cases hc : (extractJoinConditions conds current_tables [next0]).isEmpty = true ∧
      rest0 ≠ []
  · rw [if_pos hc]
    cases hfind : rest0.findIdx? (fun cand =>
        !(extractJoinConditions conds current_tables [cand]).isEmpty) with
    | none => rfl
    | some j =>
      have hlen : (swapHead (next0 :: rest0) (j + 1)).length = rest0.length + 1 := by
        unfold swapHead
        cases h0 : (next0 :: rest0).get? 0 with
        | none => simp
        | some a =>
          cases hj : (next0 :: rest0).get? (j + 1) with
          | none => simp
          | some b => simp [List.length_set]
      show (match swapHead (next0 :: rest0) (j + 1) with
        | [] => (next0, rest0, extractJoinConditions conds current_tables [next0])
        | next1 :: rest1 =>
          (next1, rest1, extractJoinConditions conds current_tables [next1])).2.1.length =
        rest0.length
      cases hsw : swapHead (next0 :: rest0) (j + 1) with
      | nil => rfl
      | cons next1 rest1 =>
        rw [hsw] at hlen
        simpa using hlen
  · rw [if_neg hc]

/-- The `while (i < sorted_tables.size())` loop of
`buildOptimalJoinOrder`: join the chosen next table onto the left-deep
result and continue with the remaining suffix. -/
def buildLoop (conds : List Condition) : PlanTree → List String → PlanTree
  | result, [] => result
  | result, next0 :: rest0 =>
    let step := chooseNext conds (getOutputTables result) next0 rest0
    buildLoop conds (.join result (.scan step.1) step.2.2) step.2.1
termination_by _ rest => rest.length
decreasing_by
  simp only [chooseNext_len]
  simp
/-- `QueryOptimizer::buildOptimalJoinOrder`: no table gives a null plan;
one table gives its scan; otherwise the tables are sorted by ascending
cardinality and folded into a left-deep join tree. -/
def buildOptimalJoinOrder (rowCount : String → Nat) (conds : List Condition) :
    List String → Option PlanTree
  | [] => none
  | [t] => some (.scan t)
  | t1 :: t2 :: ts =>
    let card := getTableCardinality rowCount
    match sortByCardinality card (t1 :: t2 :: ts) with
    | [] => none
    | t0 :: rest => some (buildLoop conds (.scan t0) rest)

/-- The spine of a strictly left-deep tree: every right child of a join
is a base-table scan; the result is the scans in left-to-right order. -/
def leftDeepSpine : PlanTree → Option (List String)
  | .scan t => some [t]
  | .join l (.scan t) _ => (leftDeepSpine l).map (fun s => s ++ [t])
  | _ => none

/-- Two tables share a join predicate: some column-column condition has
one operand on each. -/
def connectedBy (conds : List Condition) (a b : String) : Prop :=
  ∃ cond ∈ conds, cond.is_rhs_val = false ∧
    ((cond.lhs_col.tab_name = a ∧ cond.rhs_col.tab_name = b) ∨
     (cond.lhs_col.tab_name = b ∧ cond.rhs_col.tab_name = a))

end OPT

namespace OPT

theorem leftDeepSpine_out (t : PlanTree) (s : List String)
    (h : leftDeepSpine t = some s) : getOutputTables t = s := by
  induction t generalizing s with
  | scan tab => cases h; rfl
  | filter c cnds ihc => simp [leftDeepSpine] at h
  | project c cols sa ihc => simp [leftDeepSpine] at h
  | join l r jconds ihl ihr =>
    cases r with
    | scan tab =>
      simp only [leftDeepSpine, Option.map_eq_some'] at h
      obtain ⟨s0, hs0, hs⟩ := h
      subst hs
      simp only [getOutputTables, ihl s0 hs0]
    | filter c2 cs2 => simp [leftDeepSpine] at h
    | project c2 cs2 sa2 => simp [leftDeepSpine] at h
    | join l2 r2 c2 => simp [leftDeepSpine] at h

theorem extract_ne_nil (conds : List Condition) (ltabs : List String) (a b : String)
    (ha : a ∈ ltabs) (hb : b ∉ ltabs) (hne : a ≠ b) (hab : connectedBy conds a b) :
    extractJoinConditions conds ltabs [b] ≠ [] := by
  obtain ⟨cond, hmem, hval, hor⟩ := hab
  intro hnil
  unfold extractJoinConditions at hnil
  rw [List.filterMap_eq_nil] at hnil
  have hcond := hnil cond hmem
  rw [hval] at hcond
  simp only [if_pos rfl] at hcond
  rcases hor with ⟨hl, hr⟩ | ⟨hl, hr⟩
  · rw [hl, hr] at hcond
    simp [ha] at hcond
  · rw [hl, hr] at hcond
    simp [ha, hb, hne] at hcond

theorem chooseNext_connected (conds : List Condition) (current_tables : List String)
    (next0 : String) (rest0 : List String)
    (hne : extractJoinConditions conds current_tables [next0] ≠ []) :
    chooseNext conds current_tables next0 rest0 =
      (next0, rest0, extractJoinConditions conds current_tables [next0]) := by
  unfold chooseNext
  rw [if_neg]
  intro hcontra
  exact hne (List.isEmpty_iff.mp hcontra.1)

theorem buildLoop_spine (conds : List Condition) (rest : List String) :
    ∀ (acc : PlanTree) (pre : List String),
    leftDeepSpine acc = some pre →
    getOutputTables acc = pre →
    (pre ++ rest).Nodup →
    List.Chain' (connectedBy conds) (pre ++ rest) →
    pre ≠ [] →
    leftDeepSpine (buildLoop conds acc rest) = some (pre ++ rest) := by
  induction rest with
  | nil =>
    intro acc pre hspine hout hnd hch hpre
    rw [buildLoop]
    simpa using hspine
  | cons next0 rest0 ih =>
    intro acc pre hspine hout hnd hch hpre
    have hjunction : connectedBy conds (pre.getLast hpre) next0 := by
      rw [List.chain'_append] at hch
      exact hch.2.2 (pre.getLast hpre) (List.getLast?_eq_getLast pre hpre ▸ rfl)
        next0 rfl
    have hmemlast : pre.getLast hpre ∈ pre := List.getLast_mem hpre
    have hnotin : next0 ∉ pre := by
      intro hin
      rw [List.nodup_append] at hnd
      exact hnd.2.2 hin (List.mem_cons_self next0 rest0)
    have hneq : pre.getLast hpre ≠ next0 := fun h => hnotin (h ▸ hmemlast)
    have hjne : extractJoinConditions conds pre [next0] ≠ [] :=
      extract_ne_nil conds pre (pre.getLast hpre) next0 hmemlast hnotin hneq hjunction
    rw [buildLoop]
    rw [hout, chooseNext_connected conds pre next0 rest0 hjne]
    have hspine2 : leftDeepSpine
        (PlanTree.join acc (PlanTree.scan next0)
          (extractJoinConditions conds pre [next0])) = some (pre ++ [next0]) := by
      show (leftDeepSpine acc).map (fun s => s ++ [next0]) = some (pre ++ [next0])
      rw [hspine]
      rfl
    have hout2 : getOutputTables
        (PlanTree.join acc (PlanTree.scan next0)
          (extractJoinConditions conds pre [next0])) = pre ++ [next0] := by
      simp only [getOutputTables, hout]
    have hassoc : (pre ++ [next0]) ++ rest0 = pre ++ (next0 :: rest0) := by simp
    have := ih (PlanTree.join acc (PlanTree.scan next0)
        (extractJoinConditions conds pre [next0])) (pre ++ [next0]) hspine2 hout2
      (by rw [hassoc]; exact hnd) (by rw [hassoc]; exact hch) (by simp)
    rw [this, hassoc]

theorem insertByCard_length (card : String → Nat) (x : String) (l : List String) :
    (insertByCard card x l).length = l.length + 1 := by
  induction l with
  | nil => rfl
  | cons y ys ih =>
    unfold insertByCard
    by_cases h : card x < card y
    · rw [if_pos h]; rfl
    · rw [if_neg h]; simp [ih]

theorem sortByCardinality_length (card : String → Nat) (l : List String) :
    (sortByCardinality card l).length = l.length := by
  induction l with
  | nil => rfl
  | cons x xs ih =>
    unfold sortByCardinality
    rw [insertByCard_length, ih]
    rfl

end OPT

/-- Claim C6: when the tables of a multi-table query have pairwise strictly
increasing clamped heap row counts in their ascending cardinality order and
every adjacent pair in that order shares a join predicate, the join-ordering
phase produces the strictly left-deep tree over exactly that ascending
order: the smallest table is the leftmost scan and every right child of a
join is a base-table scan. -/
theorem C6_join_ordering (rowCount : String → Nat) (conds : List Condition)
    (tables : List String) (h2 : 2 ≤ tables.length)
    (hchain : (OPT.sortByCardinality (OPT.getTableCardinality rowCount) tables).Chain'
      (fun a b => OPT.getTableCardinality rowCount a < OPT.getTableCardinality rowCount b))
    (hconn : (OPT.sortByCardinality (OPT.getTableCardinality rowCount) tables).Chain'
      (OPT.connectedBy conds)) :
    ∃ res, OPT.buildOptimalJoinOrder rowCount conds tables = some res ∧
      OPT.leftDeepSpine res =
        some (OPT.sortByCardinality (OPT.getTableCardinality rowCount) tables) := by
  have hnd : (OPT.sortByCardinality (OPT.getTableCardinality rowCount) tables).Nodup := by
    haveI : IsTrans String (fun a b =>
        OPT.getTableCardinality rowCount a < OPT.getTableCardinality rowCount b) :=
      ⟨fun a b c hab hbc => lt_trans hab hbc⟩
    have hpw := List.chain'_iff_pairwise.mp hchain
    exact hpw.imp (fun hlt => by
      intro heq
      subst heq
      exact lt_irrefl _ hlt)
  match tables, h2 with
  | t1 :: t2 :: ts, _ =>
    unfold OPT.buildOptimalJoinOrder
    have hlen : (OPT.sortByCardinality (OPT.getTableCardinality rowCount)
        (t1 :: t2 :: ts)).length = ts.length + 2 := by
      rw [OPT.sortByCardinality_length]
      simp
    cases hsorted : OPT.sortByCardinality (OPT.getTableCardinality rowCount)
        (t1 :: t2 :: ts) with
    | nil => rw [hsorted] at hlen; cases hlen
    | cons t0 rest =>
      refine ⟨OPT.buildLoop conds (OPT.PlanTree.scan t0) rest, ?_, ?_⟩
      · show (match OPT.sortByCardinality (OPT.getTableCardinality rowCount)
            (t1 :: t2 :: ts) with
          | [] => none
          | t0 :: rest => some (OPT.buildLoop conds (OPT.PlanTree.scan t0) rest)) =
          some (OPT.buildLoop conds (OPT.PlanTree.scan t0) rest)
        rw [hsorted]
      rw [hsorted] at hnd hconn
      have := OPT.buildLoop_spine conds rest (OPT.PlanTree.scan t0) [t0] rfl rfl
        (by simpa using hnd) (by simpa using hconn) (by simp)
      simpa using this

/-- Heap row counts of the join-ordering witness. -/
def wRowCount : String → Nat := fun t => if t = "big" then 5 else 1

/-- The witness join condition `small.x = big.y`. -/
def wJoinCond : Condition :=
  { lhs_col := ⟨"small", "x", ""⟩, op := CompOp.OP_EQ, is_rhs_val := false,
    rhs_col := ⟨"big", "y", ""⟩, rhs_val := ⟨ColType.tint, ColData.dint 0, 4⟩ }

/-- Witness for {C6_join_ordering}: two tables of sizes 1 and 5 joined on
equality give the left-deep order small, big. -/
theorem C6_join_ordering_witness :
    ∃ res, OPT.buildOptimalJoinOrder wRowCount [wJoinCond] ["big", "small"] = some res ∧
      OPT.leftDeepSpine res =
        some (OPT.sortByCardinality (OPT.getTableCardinality wRowCount)
          ["big", "small"]) :=
  C6_join_ordering wRowCount [wJoinCond] ["big", "small"] (by decide)
    (by
      show List.Chain' _ (["small", "big"] : List String)
      refine List.chain'_cons.mpr ⟨?_, List.chain'_singleton _⟩
      show OPT.getTableCardinality wRowCount "small" < OPT.getTableCardinality wRowCount "big"
      decide) (by
      show List.Chain' (OPT.connectedBy [wJoinCond]) ["small", "big"]
      refine List.chain'_cons.mpr ⟨?_, List.chain'_singleton _⟩
      exact ⟨wJoinCond, List.mem_singleton_self _, rfl, Or.inl ⟨rfl, rfl⟩⟩)

/-! ## B+-tree index (`ix_index_handle.cpp`, second document of
`src/src/execution/executor_nestedloop_join.h`)

The page pool of the buffer-pool manager is modelled as a partial map
from page numbers to node contents; key comparison (`ix_compare`, whose
source lies outside `src/`) is a parameter `cmp`; pinning/unpinning and
latching are resource management with no effect on the stored data and
are elided.  All loops carry explicit fuel so that every function is
structurally recursive and executable; fuel exhaustion is an error that
provably cannot occur from well-formed states and sufficient fuel. -/

namespace BPT

/-- `IX_NO_PAGE`: Modelled from the spec (`ix_defs.h` is not in `src/`):
the null page number. -/
def IX_NO_PAGE : Int := -1

/-- `INVALID_PAGE_ID`: Modelled from the spec: the invalid page id. -/
def INVALID_PAGE_ID : Int := -1

/-- `IX_INIT_ROOT_PAGE`: Modelled from the spec (page numbers are
allocated from 3 on, pages 0-2 being the file header, leaf header and
initial root). -/
def IX_INIT_ROOT_PAGE : Int := 2

/-- A record identifier (page, slot); internal nodes store their child
page number in the `page_no` field with `slot_no = -1`. -/
structure Rid where
  page_no : Int
  slot_no : Int
deriving Repr, DecidableEq

/-- An index position (leaf page, slot). -/
structure Iid where
  page_no : Int
  slot_no : Nat
deriving Repr, DecidableEq

/-- A B+-tree node page: header fields plus the live prefix of the key
and rid arrays (`num_key` is the length of the lists). -/
structure IxNode (K : Type) where
  is_leaf : Bool
  parent : Int
  prev_leaf : Int
  next_leaf : Int
  keys : List K
  rids : List Rid
deriving Repr, DecidableEq

/-- A freshly allocated, zero-filled node page. -/
def zeroNode (K : Type) : IxNode K :=
  { is_leaf := false, parent := 0, prev_leaf := 0, next_leaf := 0, keys := [], rids := [] }

/-- The whole on-disk index state: file header, page pool, the next page
number the disk manager will allocate, and the node capacity
`get_max_size()` (Modelled from the spec: a node is split when it
reaches `maxSize` keys and `get_min_size()` is `maxSize / 2`, half the
maximum). -/
structure IxState (K : Type) where
  root_page : Int
  first_leaf : Int
  last_leaf : Int
  num_pages : Int
  pages : Int → Option (IxNode K)
  nextPageNo : Int
  maxSize : Nat

/-- `get_min_size()`: Modelled from the spec: half the maximum size. -/
def minSize (s : IxState K) : Nat := s.maxSize / 2

/-- `node_is_full()`: Modelled from the spec: the node has reached the
maximum size. -/
def nodeIsFull (s : IxState K) (n : IxNode K) : Bool := n.keys.length = s.maxSize

/-- Write a node page into the pool. -/
def setPage (s : IxState K) (p : Int) (n : IxNode K) : IxState K :=
  { s with pages := fun q => if q = p then some n else s.pages q }

/-- `buffer_pool_manager_->delete_page`. -/
def delPage (s : IxState K) (p : Int) : IxState K :=
  { s with pages := fun q => if q = p then none else s.pages q }

variable {K : Type} (cmp : K → K → Ordering)

/-- The shared binary-search loop of `IxNodeHandle::lower_bound` /
`upper_bound`: the least index in `[l, r)` whose key satisfies `p`
(assuming `p` is upward closed on the sorted key array); the fuel is at
least `r - l`. -/
def bsearchAux (keys : List K) (p : K → Bool) : Nat → Nat → Nat → Nat
  | 0, l, _ => l
  | fuel + 1, l, r =>
    if l < r then
      match keys.get? ((l + r) / 2) with
      | none => l
      | some km =>
        if p km then bsearchAux keys p fuel l ((l + r) / 2)
        else bsearchAux keys p fuel ((l + r) / 2 + 1) r
    else l

/-- `IxNodeHandle::lower_bound`: first `key_idx` in `[0, num_key)` with
`Compare(target, key) <= 0`. -/
def nodeLowerBound (n : IxNode K) (target : K) : Nat :=
  bsearchAux n.keys (fun km => cmp target km ≠ Ordering.gt) n.keys.length 0 n.keys.length

/-- `IxNodeHandle::upper_bound`: first `key_idx` in `[1, num_key)` with
`Compare(target, key) < 0` (note the range starts at 1). -/
def nodeUpperBound (n : IxNode K) (target : K) : Nat :=
  bsearchAux n.keys (fun km => cmp target km = Ordering.lt) n.keys.length 1 n.keys.length

/-- `IxNodeHandle::value_at`. -/
def valueAt (n : IxNode K) (i : Nat) : Option Int :=
  (n.rids.get? i).map (fun r => r.page_no)

/-- `IxNodeHandle::internal_lookup`: the child at `upper_bound(key) - 1`. -/
def internalLookup (n : IxNode K) (key : K) : Option Int :=
  valueAt n (nodeUpperBound cmp n key - 1)

/-- `IxNodeHandle::insert_pairs`: insert key/rid runs at `pos`
(out-of-range `pos` is the thrown `IndexEntryNotFoundError`). -/
def insertPairs (n : IxNode K) (pos : Nat) (ks : List K) (rs : List Rid) :
    Except Unit (IxNode K) :=
  if pos > n.keys.length then Except.error ()
  else Except.ok { n with
    keys := n.keys.take pos ++ ks ++ n.keys.drop pos,
    rids := n.rids.take pos ++ rs ++ n.rids.drop pos }

/-- `IxNodeHandle::insert_pair`. -/
def insertPair (n : IxNode K) (pos : Nat) (k : K) (r : Rid) : Except Unit (IxNode K) :=
  insertPairs n pos [k] [r]

/-- `IxNodeHandle::insert_kv_pair`: duplicate keys are rejected with
position `-1`; otherwise the pair is inserted at the lower-bound
position.  Returns the node, the new size and the position. -/
def insertKvPair (n : IxNode K) (k : K) (r : Rid) :
    Except Unit (IxNode K × Nat × Int) :=
  let pos := nodeLowerBound cmp n k
  match n.keys.get? pos with
  | some kp =>
    if cmp k kp = Ordering.eq then Except.ok (n, n.keys.length, -1)
    else
      match insertPair n pos k r with
      | Except.error e => Except.error e
      | Except.ok n2 => Except.ok (n2, n2.keys.length, (pos : Int))
  | none =>
    match insertPair n pos k r with
    | Except.error e => Except.error e
    | Except.ok n2 => Except.ok (n2, n2.keys.length, (pos : Int))

/-- `IxNodeHandle::erase_pair`. -/
def erasePair (n : IxNode K) (pos : Nat) : Except Unit (IxNode K) :=
  if pos ≥ n.keys.length then Except.error ()
  else Except.ok { n with
    keys := n.keys.take pos ++ n.keys.drop (pos + 1),
    rids := n.rids.take pos ++ n.rids.drop (pos + 1) }

/-- `IxNodeHandle::remove_key`: erase the key when present; returns the
node, the new size and the lower-bound position. -/
def removeKey (n : IxNode K) (k : K) : Except Unit (IxNode K × Nat × Nat) :=
  let pos := nodeLowerBound cmp n k
  match n.keys.get? pos with
  | some kp =>
    if cmp k kp = Ordering.eq then
      match erasePair n pos with
      | Except.error e => Except.error e
      | Except.ok n2 => Except.ok (n2, n2.keys.length, pos)
    else Except.ok (n, n.keys.length, pos)
  | none => Except.ok (n, n.keys.length, pos)

/-- `IxNodeHandle::find_child`: the slot of the parent whose child page
is `p`. -/
def findChild (parent : IxNode K) (p : Int) : Option Nat :=
  parent.rids.findIdx? (fun r => r.page_no = p)

/-- `IxIndexHandle::find_leaf_page` (the descent loop; the latching of
the FIND/INSERT/DELETE operation modes manages concurrency only and is
elided): follow `internal_lookup` (or the leftmost child when
`find_first`) from the given page down to a leaf. -/
def findLeafFrom (s : IxState K) (key : K) (find_first : Bool) :
    Nat → Int → Except Unit (Int × IxNode K)
  | 0, _ => Except.error ()
  | fuel + 1, p =>
    match s.pages p with
    | none => Except.error ()
    | some n =>
      if n.is_leaf then Except.ok (p, n)
      else
        match (if find_first then valueAt n 0 else internalLookup cmp n key) with
        | none => Except.error ()
        | some c => findLeafFrom s key find_first fuel c

/-- `find_leaf_page` from the root. -/
def findLeafPage (s : IxState K) (key : K) (find_first : Bool) (fuel : Nat) :
    Except Unit (Int × IxNode K) :=
  findLeafFrom cmp s key find_first fuel s.root_page

end BPT

namespace BPT

variable {K : Type} (cmp : K → K → Ordering)

/-- `IxIndexHandle::create_new_node`: bump `num_pages`, allocate the next
page number and install a zero-filled page. -/
def createNewNode (s : IxState K) : IxState K × Int :=
  let p := s.nextPageNo
  (setPage { s with num_pages := s.num_pages + 1, nextPageNo := p + 1 } p (zeroNode K), p)

/-- `IxIndexHandle::maintain_child`: point the parent field of the
`i`-th child of the internal node at page `p` back at `p`. -/
def maintainChild (s : IxState K) (p : Int) (i : Nat) : Except Unit (IxState K) :=
  match s.pages p with
  | none => Except.error ()
  | some n =>
    if n.is_leaf then Except.ok s
    else
      match valueAt n i with
      | none => Except.error ()
      | some cp =>
        match s.pages cp with
        | none => Except.error ()
        | some child => Except.ok (setPage s cp { child with parent := p })

/-- The `for i in [0, num_key)` loop of `split_node` over `maintain_child`. -/
def maintainChildren (s : IxState K) (p : Int) : List Nat → Except Unit (IxState K)
  | [] => Except.ok s
  | i :: rest =>
    match maintainChild s p i with
    | Except.error e => Except.error e
    | Except.ok s2 => maintainChildren s2 p rest

/-- `IxIndexHandle::split_node`: allocate a right sibling, stitch the
leaf chain, move the upper half (from `get_min_size()`) of the keys into
the sibling, truncate the original node, and re-parent the sibling's
children when internal.  Returns the sibling's page number. -/
def splitNode (s0 : IxState K) (p : Int) : Except Unit (IxState K × Int) :=
  match s0.pages p with
  | none => Except.error ()
  | some node =>
    let alloc := createNewNode s0
    let s1 := alloc.1
    let newP := alloc.2
    let stepLeaf : Except Unit (IxState K) :=
      if node.is_leaf then
        let s2 := setPage s1 newP { zeroNode K with prev_leaf := p, next_leaf := node.next_leaf }
        let s3 := setPage s2 p { node with next_leaf := newP }
        if node.next_leaf ≠ IX_NO_PAGE then
          match s3.pages node.next_leaf with
          | none => Except.error ()
          | some nl => Except.ok (setPage s3 node.next_leaf { nl with prev_leaf := newP })
        else Except.ok s3
      else Except.ok s1
    match stepLeaf with
    | Except.error e => Except.error e
    | Except.ok s4 =>
      match s4.pages p, s4.pages newP with
      | some nodeF, some sibF =>
        let split_point := minSize s4
        let sib0 := { sibF with is_leaf := nodeF.is_leaf, parent := nodeF.parent }
        match insertPairs sib0 0 (nodeF.keys.drop split_point) (nodeF.rids.drop split_point) with
        | Except.error e => Except.error e
        | Except.ok sib1 =>
          let s5 := setPage s4 newP sib1
          let s6 := setPage s5 p
            { nodeF with keys := nodeF.keys.take split_point, rids := nodeF.rids.take split_point }
          if sib1.is_leaf then Except.ok (s6, newP)
          else
            match maintainChildren s6 newP (List.range sib1.keys.length) with
            | Except.error e => Except.error e
            | Except.ok s7 => Except.ok (s7, newP)
      | _, _ => Except.error ()

/-- `IxIndexHandle::insert_into_parent` (`is_root_page()`: Modelled from
the spec: a node is the root exactly when its parent pointer is
`IX_NO_PAGE`): on a root split build a fresh root with the two children;
otherwise insert the sibling after the old node's slot in the parent and
split the parent recursively when it becomes full. -/
def insertIntoParent : Nat → IxState K → Int → K → Int → Except Unit (IxState K)
  | 0, _, _, _, _ => Except.error ()
  | fuel + 1, s, oldP, key, newP =>
    match s.pages oldP with
    | none => Except.error ()
    | some old =>
      if old.parent = IX_NO_PAGE then
        let alloc := createNewNode s
        let s1 := alloc.1
        let rootP := alloc.2
        let root0 : IxNode K :=
          { is_leaf := false, parent := IX_NO_PAGE, prev_leaf := IX_NO_PAGE,
            next_leaf := IX_NO_PAGE, keys := [], rids := [] }
        match old.keys.get? 0 with
        | none => Except.error ()
        | some k0 =>
          match insertPair root0 0 k0 ⟨oldP, -1⟩ with
          | Except.error e => Except.error e
          | Except.ok root1 =>
            match insertPair root1 1 key ⟨newP, -1⟩ with
            | Except.error e => Except.error e
            | Except.ok root2 =>
              let s2 := setPage s1 rootP root2
              let s3 := setPage s2 oldP { old with parent := rootP }
              match s3.pages newP with
              | none => Except.error ()
              | some nn =>
                Except.ok { setPage s3 newP { nn with parent := rootP } with root_page := rootP }
      else
        match s.pages old.parent with
        | none => Except.error ()
        | some parent =>
          match findChild parent oldP with
          | none => Except.error ()
          | some rank =>
            match insertPair parent (rank + 1) key ⟨newP, -1⟩ with
            | Except.error e => Except.error e
            | Except.ok parent1 =>
              let s1 := setPage s old.parent parent1
              match s1.pages newP with
              | none => Except.error ()
              | some nn =>
                let s2 := setPage s1 newP { nn with parent := old.parent }
                if nodeIsFull s2 parent1 then
                  match splitNode s2 old.parent with
                  | Except.error e => Except.error e
                  | Except.ok (s3, sibP) =>
                    match s3.pages sibP with
                    | none => Except.error ()
                    | some sib =>
                      match sib.keys.get? 0 with
                      | none => Except.error ()
                      | some sk0 => insertIntoParent fuel s3 old.parent sk0 sibP
                else Except.ok s2

/-- `IxIndexHandle::maintain_parent`: walk up from the node at page `p`,
overwriting in each parent the separator key of the visited child with
the child's first key, stopping as soon as they already agree (byte
equality `memcmp == 0` is equality of the decoded keys) or the root is
reached. -/
def maintainParent [DecidableEq K] : Nat → IxState K → Int → Except Unit (IxState K)
  | 0, _, _ => Except.error ()
  | fuel + 1, s, p =>
    match s.pages p with
    | none => Except.error ()
    | some curr =>
      if curr.parent = IX_NO_PAGE then Except.ok s
      else
        match s.pages curr.parent with
        | none => Except.error ()
        | some parent =>
          match findChild parent p with
          | none => Except.error ()
          | some rank =>
            match parent.keys.get? rank, curr.keys.get? 0 with
            | some pk, some ck =>
              if pk = ck then Except.ok s
              else
                maintainParent fuel
                  (setPage s curr.parent { parent with keys := parent.keys.set rank ck })
                  curr.parent
            | _, _ => Except.error ()

/-- `IxIndexHandle::insert_entry`: find the leaf, try `insert_kv_pair`
(duplicates leave the tree untouched and yield `IX_NO_PAGE`), maintain
the parent separator when inserting at slot 0, split a full leaf
(updating `last_leaf`) and report the page that ends up holding the key.
The read of `get_key(lower_bound(key))` one past the last key of the
sibling compares uninitialised bytes against `key`; that read only
happens when the key is absent from the sibling, and it is modelled as
comparing unequal. -/
def insert_entry [DecidableEq K] (s : IxState K) (key : K) (value : Rid) (fuel : Nat) :
    Except Unit (IxState K × Int) :=
  match findLeafPage cmp s key false fuel with
  | Except.error e => Except.error e
  | Except.ok (leafP, leaf) =>
    let old_size := leaf.keys.length
    match insertKvPair cmp leaf key value with
    | Except.error e => Except.error e
    | Except.ok (leaf1, new_size, pos) =>
      if new_size = old_size then Except.ok (s, IX_NO_PAGE)
      else
        let s1 := setPage s leafP leaf1
        match (if pos = 0 then maintainParent fuel s1 leafP else Except.ok s1) with
        | Except.error e => Except.error e
        | Except.ok s2 =>
          if nodeIsFull s2 leaf1 then
            match splitNode s2 leafP with
            | Except.error e => Except.error e
            | Except.ok (s3, sibP) =>
              let s4 := if leafP = s3.last_leaf then { s3 with last_leaf := sibP } else s3
              match s4.pages sibP with
              | none => Except.error ()
              | some sib =>
                match sib.keys.get? 0 with
                | none => Except.error ()
                | some sk0 =>
                  match insertIntoParent fuel s4 leafP sk0 sibP with
                  | Except.error e => Except.error e
                  | Except.ok s5 =>
                    match s5.pages sibP with
                    | none => Except.error ()
                    | some sib2 =>
                      match sib2.keys.get? (nodeLowerBound cmp sib2 key) with
                      | some kk =>
                        if cmp kk key = Ordering.eq then Except.ok (s5, sibP)
                        else Except.ok (s5, leafP)
                      | none => Except.ok (s5, leafP)
          else Except.ok (s2, leafP)

end BPT

namespace BPT

variable {K : Type} (cmp : K → K → Ordering)

/-- `IxIndexHandle::adjust_root`: an internal root with a single child
hands the root over to that child and releases the old root page; an
empty leaf root resets the root to `IX_INIT_ROOT_PAGE`.  Returns whether
the old root should be deleted. -/
def adjustRoot (s : IxState K) (p : Int) : Except Unit (IxState K × Bool) :=
  match s.pages p with
  | none => Except.error ()
  | some old_root =>
    if ¬old_root.is_leaf ∧ old_root.keys.length = 1 then
      match valueAt old_root 0 with
      | none => Except.error ()
      | some childP =>
        match s.pages childP with
        | none => Except.error ()
        | some child =>
          let s1 := { setPage s childP { child with parent := IX_NO_PAGE } with
                      root_page := childP }
          let s2 := delPage s1 p
          Except.ok ({ s2 with num_pages := s2.num_pages - 1 }, true)
    else if old_root.is_leaf ∧ old_root.keys.length = 0 then
      Except.ok ({ s with root_page := IX_INIT_ROOT_PAGE }, true)
    else Except.ok (s, false)

/-- `IxIndexHandle::redistribute_keys`: with `index = 0` move the right
sibling's first pair to the end of `node` and refresh the parent's
separator at `index + 1`; otherwise move the left sibling's last pair to
the front of `node` and refresh the separator at `index`; internal nodes
re-parent the moved child. -/
def redistributeKeys (s : IxState K) (neighborP nodeP parentP : Int) (index : Nat) :
    Except Unit (IxState K) :=
  match s.pages neighborP, s.pages nodeP with
  | some neighbor, some node =>
    if index = 0 then
      match neighbor.keys.get? 0, neighbor.rids.get? 0 with
      | some k0, some r0 =>
        let node1 := { node with keys := node.keys ++ [k0], rids := node.rids ++ [r0] }
        let s1 := setPage s nodeP node1
        match s1.pages neighborP with
        | none => Except.error ()
        | some nb2 =>
          match erasePair nb2 0 with
          | Except.error e => Except.error e
          | Except.ok nb3 =>
            let s2 := setPage s1 neighborP nb3
            match s2.pages parentP, (s2.pages neighborP).bind (fun n => n.keys.get? 0) with
            | some parentN, some nk0 =>
              let s3 := setPage s2 parentP
                { parentN with keys := parentN.keys.set (index + 1) nk0 }
              if node1.is_leaf then Except.ok s3
              else maintainChild s3 nodeP (node1.keys.length - 1)
            | _, _ => Except.error ()
      | _, _ => Except.error ()
    else
      match neighbor.keys.get? (neighbor.keys.length - 1),
            neighbor.rids.get? (neighbor.rids.length - 1) with
      | some kl, some rl =>
        let node1 := { node with keys := kl :: node.keys, rids := rl :: node.rids }
        let s1 := setPage s nodeP node1
        match s1.pages neighborP with
        | none => Except.error ()
        | some nb2 =>
          let nb3 := { nb2 with keys := nb2.keys.dropLast, rids := nb2.rids.dropLast }
          let s2 := setPage s1 neighborP nb3
          match s2.pages parentP, (s2.pages nodeP).bind (fun n => n.keys.get? 0) with
          | some parentN, some nk0 =>
            let s3 := setPage s2 parentP { parentN with keys := parentN.keys.set index nk0 }
            if node1.is_leaf then Except.ok s3
            else maintainChild s3 nodeP 0
          | _, _ => Except.error ()
      | _, _ => Except.error ()
  | _, _ => Except.error ()

/-- The loop of `coalesce_nodes` that re-parents the children of the
absorbed node to the absorbing page. -/
def reparentAll (s : IxState K) (newParent : Int) : List Rid → Except Unit (IxState K)
  | [] => Except.ok s
  | r :: rest =>
    match s.pages r.page_no with
    | none => Except.error ()
    | some child => reparentAll (setPage s r.page_no { child with parent := newParent }) newParent rest

/-- The body of `IxIndexHandle::coalesce_nodes` up to (and excluding)
the recursive `coalesce_or_redistribute` call: after the `index = 0`
swap, append all of the right node's pairs to the left node, re-parent
moved children (internal) or stitch the leaf chain / `last_leaf`
(leaves), and erase the right node's slot from the parent.  The returned
flag says whether the parent underflowed (`size < get_min_size()`), in
which case the caller recurses on the parent.  The page of the absorbed
right node is not freed here: `coalesce_nodes` only reports
`should_delete_parent` to its caller. -/
def coalesceNodesStep (s : IxState K) (neighborP0 nodeP0 parentP : Int) (index0 : Nat) :
    Except Unit (IxState K × Bool) :=
  let neighborP := if index0 = 0 then nodeP0 else neighborP0
  let nodeP := if index0 = 0 then neighborP0 else nodeP0
  let index := if index0 = 0 then 1 else index0
  match s.pages neighborP, s.pages nodeP with
  | some neighbor, some node =>
    match insertPairs neighbor neighbor.keys.length node.keys node.rids with
    | Except.error e => Except.error e
    | Except.ok neighbor1 =>
      let s1 := setPage s neighborP neighbor1
      match (if node.is_leaf then Except.ok s1 else reparentAll s1 neighborP node.rids) with
      | Except.error e => Except.error e
      | Except.ok s2 =>
        let stepLeaf : Except Unit (IxState K) :=
          if node.is_leaf then
            match s2.pages neighborP with
            | none => Except.error ()
            | some nbF =>
              let s3 := setPage s2 neighborP { nbF with next_leaf := node.next_leaf }
              if node.next_leaf ≠ IX_NO_PAGE then
                match s3.pages node.next_leaf with
                | none => Except.error ()
                | some nl => Except.ok (setPage s3 node.next_leaf { nl with prev_leaf := neighborP })
              else Except.ok { s3 with last_leaf := neighborP }
          else Except.ok s2
        match stepLeaf with
        | Except.error e => Except.error e
        | Except.ok s4 =>
          match s4.pages parentP with
          | none => Except.error ()
          | some parentN =>
            match erasePair parentN index with
            | Except.error e => Except.error e
            | Except.ok parent1 =>
              let s5 := setPage s4 parentP parent1
              Except.ok (s5, decide (parent1.keys.length < minSize s5))
  | _, _ => Except.error ()

/-- `IxIndexHandle::coalesce_or_redistribute`: the root goes through
`adjust_root`; a node still at `get_min_size()` needs nothing; otherwise
the preferred (left, else right) sibling either redistributes one pair
(when the two nodes together hold at least `get_max_size()` keys) or the
nodes are coalesced, recursing on an underflowing parent.  The returned
flag is the return value of the source function: for the redistribution
and well-filled cases it is `false`, and for the coalesce case it is
`should_delete_parent` — the flag for the *parent* — which the caller
`delete_entry` nevertheless interprets as "delete the leaf". -/
def coalesceOrRedistribute : Nat → IxState K → Int → Except Unit (IxState K × Bool)
  | 0, _, _ => Except.error ()
  | fuel + 1, s, p =>
    match s.pages p with
    | none => Except.error ()
    | some node =>
      if p = s.root_page then adjustRoot s p
      else if node.keys.length ≥ minSize s then Except.ok (s, false)
      else
        match s.pages node.parent with
        | none => Except.error ()
        | some parent =>
          match findChild parent p with
          | none => Except.error ()
          | some node_idx =>
            let neighbor_idx := if node_idx > 0 then node_idx - 1 else 1
            match valueAt parent neighbor_idx with
            | none => Except.error ()
            | some neighborP =>
              match s.pages neighborP with
              | none => Except.error ()
              | some neighbor =>
                if node.keys.length + neighbor.keys.length ≥ s.maxSize then
                  match redistributeKeys s neighborP p node.parent node_idx with
                  | Except.error e => Except.error e
                  | Except.ok s2 => Except.ok (s2, false)
                else
                  match coalesceNodesStep s neighborP p node.parent node_idx with
                  | Except.error e => Except.error e
                  | Except.ok (s2, recurse) =>
                    if recurse then coalesceOrRedistribute fuel s2 node.parent
                    else Except.ok (s2, false)

/-- `IxIndexHandle::erase_leaf`: unlink a leaf from the doubly linked
leaf chain (both neighbour pages are fetched unconditionally). -/
def eraseLeaf (s : IxState K) (leafP : Int) : Except Unit (IxState K) :=
  match s.pages leafP with
  | none => Except.error ()
  | some leaf =>
    if ¬leaf.is_leaf then Except.error ()
    else
      match s.pages leaf.prev_leaf with
      | none => Except.error ()
      | some prev =>
        let s1 := setPage s leaf.prev_leaf { prev with next_leaf := leaf.next_leaf }
        match s1.pages leaf.next_leaf with
        | none => Except.error ()
        | some next =>
          Except.ok (setPage s1 leaf.next_leaf { next with prev_leaf := leaf.prev_leaf })

/-- `IxIndexHandle::delete_entry`: find the leaf and remove the key (an
absent key returns `false` with the state untouched); maintain the
parent separator when slot 0 was removed; run
`coalesce_or_redistribute`, and when it reports deletion, unlink the
leaf from the chain, decrement `num_pages` and free the page — note the
freed page is the `leaf` handle's page, whatever
`coalesce_or_redistribute` did. -/
def delete_entry [DecidableEq K] (s : IxState K) (key : K) (fuel : Nat) :
    Except Unit (IxState K × Bool) :=
  match findLeafPage cmp s key false fuel with
  | Except.error e => Except.error e
  | Except.ok (leafP, leaf) =>
    let size_before := leaf.keys.length
    let pos := nodeLowerBound cmp leaf key
    match removeKey cmp leaf key with
    | Except.error e => Except.error e
    | Except.ok (leaf1, size_after, _) =>
      if size_before = size_after then Except.ok (s, false)
      else
        let s1 := setPage s leafP leaf1
        match (if pos = 0 then maintainParent fuel s1 leafP else Except.ok s1) with
        | Except.error e => Except.error e
        | Except.ok s2 =>
          match coalesceOrRedistribute fuel s2 leafP with
          | Except.error e => Except.error e
          | Except.ok (s3, should_delete) =>
            if should_delete then
              match s3.pages leafP with
              | none => Except.error ()
              | some leafF =>
                match (if leafF.is_leaf then eraseLeaf s3 leafP else Except.ok s3) with
                | Except.error e => Except.error e
                | Except.ok s4 =>
                  Except.ok (delPage { s4 with num_pages := s4.num_pages - 1 } leafP, true)
            else Except.ok (s3, true)

/-- `IxIndexHandle::lower_bound` (the `Iid`-level one): find the leaf
for `key` and take the in-node `lower_bound`; a position one past the
last key rolls over to slot 0 of the next leaf unless this is the last
leaf. -/
def iidLowerBound (s : IxState K) (key : K) (fuel : Nat) : Except Unit Iid :=
  match findLeafPage cmp s key false fuel with
  | Except.error e => Except.error e
  | Except.ok (leafP, leaf) =>
    let pos := nodeLowerBound cmp leaf key
    if pos = leaf.keys.length then
      if leafP = s.last_leaf then Except.ok ⟨leafP, pos⟩
      else Except.ok ⟨leaf.next_leaf, 0⟩
    else Except.ok ⟨leafP, pos⟩

/-- `IxIndexHandle::upper_bound` (the `Iid`-level one): as
`lower_bound` but with the in-node `upper_bound`, plus the patch that a
position of exactly 1 with `key < get_key(0)` is decremented to 0
(compensating for the in-node search starting at index 1). -/
def iidUpperBound (s : IxState K) (key : K) (fuel : Nat) : Except Unit Iid :=
  match findLeafPage cmp s key false fuel with
  | Except.error e => Except.error e
  | Except.ok (leafP, leaf) =>
    let pos := nodeUpperBound cmp leaf key
    if pos = leaf.keys.length then
      if leafP = s.last_leaf then Except.ok ⟨leafP, pos⟩
      else Except.ok ⟨leaf.next_leaf, 0⟩
    else
      let hit0 : Bool :=
        match leaf.keys.get? 0 with
        | some k0 => cmp key k0 == Ordering.lt
        | none => false
      if pos = 1 ∧ hit0 then Except.ok ⟨leafP, pos - 1⟩
      else Except.ok ⟨leafP, pos⟩

/-- `IxIndexHandle::leaf_end`: one past the last slot of the last leaf. -/
def leaf_end (s : IxState K) : Except Unit Iid :=
  match s.pages s.last_leaf with
  | none => Except.error ()
  | some n => Except.ok ⟨s.last_leaf, n.keys.length⟩

/-- `IxIndexHandle::leaf_begin`: slot 0 of the first leaf. -/
def leaf_begin (s : IxState K) : Iid := ⟨s.first_leaf, 0⟩

/-- The stored entries in leaf-chain order, each with its index
position: walk the leaf chain from page `p` up to `last_leaf`. -/
def leafChainEntries (s : IxState K) : Nat → Int → List (Iid × K)
  | 0, _ => []
  | fuel + 1, p =>
    match s.pages p with
    | none => []
    | some n =>
      let here := n.keys.enum.map (fun x => ((⟨p, x.1⟩ : Iid), x.2))
      if p = s.last_leaf then here
      else here ++ leafChainEntries s fuel n.next_leaf

/-- The stored entries whose index position lies in the half-open
interval `[lo, hi)` of the leaf chain. -/
def iidRange (s : IxState K) (fuel : Nat) (lo hi : Iid) : List (Iid × K) :=
  ((leafChainEntries s fuel s.first_leaf).dropWhile (fun e => e.1 ≠ lo)).takeWhile
    (fun e => e.1 ≠ hi)

end BPT

/-! ## C4: exactness of the `[lower_bound, upper_bound)` interval -/

/-- Modelled from the spec: `ix_compare` on a single `int` index column
is the three-way integer comparison (the source returns `-1/0/1` from
`<` and `>`). -/
def intCmp (i j : Int) : Ordering :=
  if i < j then Ordering.lt else if j < i then Ordering.gt else Ordering.eq

/-- A valid one-leaf tree over integer keys: the root is the initial
leaf page 2 holding the single entry `(5, rid)`. -/
def sC4 : BPT.IxState Int :=
  { root_page := 2, first_leaf := 2, last_leaf := 2, num_pages := 3,
    pages := fun p => if p = 2 then
        some { is_leaf := true, parent := BPT.IX_NO_PAGE, prev_leaf := 1, next_leaf := 1,
               keys := [5], rids := [⟨100, 0⟩] }
      else none,
    nextPageNo := 3, maxSize := 4 }

/-- C4: the claim that `[lower_bound(k), upper_bound(k))` contains
exactly the stored entries with key `k` fails on the code: on a tree
holding only the key 5, probing `k = 3` yields the interval
`[(2,0), (2,1))` — `upper_bound` comes back as the leaf-end position
because the in-node binary search only inspects `[1, num_key)` and its
`pos == 1` patch is bypassed when `pos = num_key` — so the interval
contains the entry with key 5 even though `5 ≠ 3`. -/
theorem C4_bound_interval_counterexample :
    BPT.iidLowerBound intCmp sC4 3 4 = Except.ok ⟨2, 0⟩ ∧
    BPT.iidUpperBound intCmp sC4 3 4 = Except.ok ⟨2, 1⟩ ∧
    BPT.leaf_end sC4 = Except.ok ⟨2, 1⟩ ∧
    BPT.leafChainEntries sC4 4 2 = [(⟨2, 0⟩, (5 : Int))] ∧
    BPT.iidRange sC4 4 ⟨2, 0⟩ ⟨2, 1⟩ = [(⟨2, 0⟩, (5 : Int))] ∧
    (5 : Int) ≠ 3 := by
  refine ⟨rfl, rfl, rfl, rfl, rfl, by decide⟩

/-! ## C3: index-scan range keys (`executor_index_scan.h`, `beginTuple`) -/

namespace ISC

/-- `INT32_MIN` (`int_min_`). -/
def INT32_MIN : Int := -(2 ^ 31)

/-- `INT32_MAX` (`int_max_`). -/
def INT32_MAX : Int := 2 ^ 31 - 1

/-- `FLT_MIN` (`float_min_`): the smallest positive normalised
single-precision float, `2^-126` — not the most negative float. -/
def FLT_MIN : Rat := mkRat 1 ((2 : Nat) ^ 126)

/-- `FLT_MAX` (`float_max_`): `(2 - 2^-23) * 2^127 = 2^128 - 2^104`. -/
def FLT_MAX : Rat := mkRat ((2 : Int) ^ 128 - (2 : Int) ^ 104) 1

/-- `memcpy(buf + off, cells, cells.length)` on the cell model. -/
def writeCells (buf : Rec) (off : Nat) (cells : Rec) : Rec :=
  buf.take off ++ cells ++ buf.drop (off + cells.length)

/-- One column of `ix_compare`: Modelled from the spec (the comparator's
source is not in `src/`): ints and floats compare numerically, strings
by `memcmp` over the column width. -/
def colCompare (t : ColType) (x y : Cell) : Ordering :=
  match t, x, y with
  | ColType.tint, some (ColData.dint i), some (ColData.dint j) =>
    if i < j then Ordering.lt else if j < i then Ordering.gt else Ordering.eq
  | ColType.tfloat, some (ColData.dfloat p), some (ColData.dfloat q) =>
    if p < q then Ordering.lt else if q < p then Ordering.gt else Ordering.eq
  | ColType.tstring, some (ColData.dstr a), some (ColData.dstr b) =>
    let m := memcmpBytes a b
    if m < 0 then Ordering.lt else if 0 < m then Ordering.gt else Ordering.eq
  | _, _, _ => Ordering.eq

/-- `ix_compare` over the index columns `(type, len)` at successive
offsets: Modelled from the spec: lexicographic by column. -/
def ixCompareAux : List (ColType × Nat) → Nat → Rec → Rec → Ordering
  | [], _, _, _ => Ordering.eq
  | (t, len) :: rest, off, a, b =>
    match colCompare t (a.read off) (b.read off) with
    | Ordering.eq => ixCompareAux rest (off + len) a b
    | o => o

/-- `ix_compare`: Modelled from the spec. -/
def ixCompare (cols : List (ColType × Nat)) (a b : Rec) : Ordering :=
  ixCompareAux cols 0 a b

/-- Loop 1 of `IndexScanExecutor::beginTuple`: concatenate the raw
values of the leading equality conditions into the (zeroed) key buffer;
returns the key, `key_pos` and `eq_count`. -/
def buildEqKey : List Condition → Rec → Nat → Nat → Rec × Nat × Nat
  | [], key, key_pos, eq_count => (key, key_pos, eq_count)
  | cond :: rest, key, key_pos, eq_count =>
    if cond.op = CompOp.OP_EQ then
      buildEqKey rest (writeCells key key_pos cond.rhs_val.rawCells)
        (key_pos + cond.rhs_val.rawLen) (eq_count + 1)
    else (key, key_pos, eq_count)

/-- `IndexScanExecutor::set_remaining_all_min`, the loop over the index
columns from `last_idx`: ints are padded with `int_min_`, floats with
`float_min_` (= `FLT_MIN`, the smallest *positive* float), strings with
`0x00` bytes. -/
def setRemainingMinAux : List (ColType × Nat) → Nat → Rec → Rec
  | [], _, key => key
  | (t, len) :: rest, off, key =>
    match t with
    | ColType.tint =>
      setRemainingMinAux rest (off + 4)
        (writeCells key off (some (ColData.dint INT32_MIN) :: List.replicate 3 none))
    | ColType.tfloat =>
      setRemainingMinAux rest (off + 4)
        (writeCells key off (some (ColData.dfloat FLT_MIN) :: List.replicate 3 none))
    | ColType.tstring =>
      setRemainingMinAux rest (off + len)
        (writeCells key off
          (some (ColData.dstr (List.replicate len 0)) :: List.replicate (len - 1) none))

/-- `set_remaining_all_min`. -/
def set_remaining_all_min (idxCols : List (ColType × Nat)) (offset last_idx : Nat)
    (key : Rec) : Rec :=
  setRemainingMinAux (idxCols.drop last_idx) offset key

/-- `IndexScanExecutor::set_remaining_all_max`: ints are padded with
`int_max_`, floats with `float_max_` (= `FLT_MAX`), strings with `0xFF`
bytes. -/
def setRemainingMaxAux : List (ColType × Nat) → Nat → Rec → Rec
  | [], _, key => key
  | (t, len) :: rest, off, key =>
    match t with
    | ColType.tint =>
      setRemainingMaxAux rest (off + 4)
        (writeCells key off (some (ColData.dint INT32_MAX) :: List.replicate 3 none))
    | ColType.tfloat =>
      setRemainingMaxAux rest (off + 4)
        (writeCells key off (some (ColData.dfloat FLT_MAX) :: List.replicate 3 none))
    | ColType.tstring =>
      setRemainingMaxAux rest (off + len)
        (writeCells key off
          (some (ColData.dstr (List.replicate len 255)) :: List.replicate (len - 1) none))

/-- `set_remaining_all_max`. -/
def set_remaining_all_max (idxCols : List (ColType × Nat)) (offset last_idx : Nat)
    (key : Rec) : Rec :=
  setRemainingMaxAux (idxCols.drop last_idx) offset key

/-- The bound computation of `IndexScanExecutor::beginTuple` (steps
1-3): start from `[leaf_begin, leaf_end)`; build the equality-prefix
key; the first range condition after the prefix, if any, overrides one
of the bounds through a key that appends its value to the prefix;
otherwise a non-empty pure-equality prefix queries `lower_bound` /
`upper_bound` with the prefix padded by `set_remaining_all_min` /
`set_remaining_all_max`. -/
def beginTupleBounds (idxCols : List (ColType × Nat)) (totLen : Nat)
    (conds : List Condition) (s : BPT.IxState Rec) (fuel : Nat) :
    Except Unit (BPT.Iid × BPT.Iid) :=
  match BPT.leaf_end s with
  | Except.error e => Except.error e
  | Except.ok upper0 =>
    let lower0 := BPT.leaf_begin s
    let r := buildEqKey conds (List.replicate totLen (none : Cell)) 0 0
    let key := r.1
    let key_pos := r.2.1
    let eq_count := r.2.2
    match (conds.drop eq_count).find?
        (fun c => c.op = CompOp.OP_GT ∨ c.op = CompOp.OP_GE ∨
                   c.op = CompOp.OP_LT ∨ c.op = CompOp.OP_LE) with
    | some cond =>
      let bound_key := writeCells (List.replicate totLen (none : Cell)) 0 (key.take key_pos)
      let bound_key := writeCells bound_key key_pos cond.rhs_val.rawCells
      match cond.op with
      | CompOp.OP_GT =>
        match BPT.iidUpperBound (ixCompare idxCols) s bound_key fuel with
        | Except.error e => Except.error e
        | Except.ok lo => Except.ok (lo, upper0)
      | CompOp.OP_GE =>
        match BPT.iidLowerBound (ixCompare idxCols) s bound_key fuel with
        | Except.error e => Except.error e
        | Except.ok lo => Except.ok (lo, upper0)
      | CompOp.OP_LT =>
        match BPT.iidLowerBound (ixCompare idxCols) s bound_key fuel with
        | Except.error e => Except.error e
        | Except.ok up => Except.ok (lower0, up)
      | CompOp.OP_LE =>
        match BPT.iidUpperBound (ixCompare idxCols) s bound_key fuel with
        | Except.error e => Except.error e
        | Except.ok up => Except.ok (lower0, up)
      | _ => Except.ok (lower0, upper0)
    | none =>
      if eq_count > 0 then
        let lower_key := set_remaining_all_min idxCols key_pos eq_count
          (writeCells (List.replicate totLen (none : Cell)) 0 (key.take key_pos))
        let upper_key := set_remaining_all_max idxCols key_pos eq_count
          (writeCells (List.replicate totLen (none : Cell)) 0 (key.take key_pos))
        match BPT.iidLowerBound (ixCompare idxCols) s lower_key fuel,
              BPT.iidUpperBound (ixCompare idxCols) s upper_key fuel with
        | Except.ok lo, Except.ok up => Except.ok (lo, up)
        | _, _ => Except.error ()
      else Except.ok (lower0, upper0)

end ISC

/-- The index columns of the C3 scenario: `(a INT, b FLOAT)`. -/
def idxColsC3 : List (ColType × Nat) := [(ColType.tint, 4), (ColType.tfloat, 4)]

/-- The stored index key of the single record `(a = 1, b = 0.0)`. -/
def recKeyC3 : Rec :=
  [some (ColData.dint 1), none, none, none, some (ColData.dfloat 0), none, none, none]

/-- A valid one-leaf tree over the composite keys holding that record. -/
def sC3 : BPT.IxState Rec :=
  { root_page := 2, first_leaf := 2, last_leaf := 2, num_pages := 3,
    pages := fun p => if p = 2 then
        some { is_leaf := true, parent := BPT.IX_NO_PAGE, prev_leaf := 1, next_leaf := 1,
               keys := [recKeyC3], rids := [⟨50, 0⟩] }
      else none,
    nextPageNo := 3, maxSize := 4 }

/-- The scan condition `a = 1` (a pure-equality prefix of the index). -/
def condC3 : Condition :=
  { lhs_col := ⟨"t", "a", ""⟩, op := CompOp.OP_EQ, is_rhs_val := true,
    rhs_col := ⟨"", "", ""⟩, rhs_val := ⟨ColType.tint, ColData.dint 1, 4⟩ }

/-- C3: the pure-equality-prefix scan `a = 1` pads the trailing float
column of the lower key with `FLT_MIN` (the smallest *positive* float)
and of the upper key with `FLT_MAX`, exactly as the padding sentence
says — but then the containment part of the claim fails: the stored
record `(1, 0.0)` agrees with the equality prefix, yet the computed
range is the empty interval `[(2,1), (2,1))`, because its key
`(1, 0.0)` is strictly below the lower key `(1, FLT_MIN)`. -/
theorem C3_index_scan_padding_counterexample :
    (ISC.buildEqKey [condC3] (List.replicate 8 (none : Cell)) 0 0 =
      ([some (ColData.dint 1), none, none, none, none, none, none, none], 4, 1)) ∧
    (ISC.set_remaining_all_min idxColsC3 4 1
        [some (ColData.dint 1), none, none, none, none, none, none, none] =
      [some (ColData.dint 1), none, none, none,
       some (ColData.dfloat ISC.FLT_MIN), none, none, none]) ∧
    (ISC.set_remaining_all_max idxColsC3 4 1
        [some (ColData.dint 1), none, none, none, none, none, none, none] =
      [some (ColData.dint 1), none, none, none,
       some (ColData.dfloat ISC.FLT_MAX), none, none, none]) ∧
    (ISC.beginTupleBounds idxColsC3 8 [condC3] sC3 4 = Except.ok (⟨2, 1⟩, ⟨2, 1⟩)) ∧
    (BPT.leafChainEntries sC3 4 2 = [(⟨2, 0⟩, recKeyC3)]) ∧
    (ISC.ixCompare [(ColType.tint, 4)] recKeyC3
        [some (ColData.dint 1), none, none, none, none, none, none, none] = Ordering.eq) ∧
    (BPT.iidRange sC3 4 ⟨2, 1⟩ ⟨2, 1⟩ = []) ∧
    (0 : Rat) < ISC.FLT_MIN := by
  refine ⟨rfl, rfl, rfl, rfl, rfl, rfl, rfl, by decide⟩

/-! ## C1: `insert_entry` — search-tree machinery

`ix_compare` on the key buffers is a linear comparator; the claim is
settled for an arbitrary linearly ordered key type with the comparator
`ordCmp` below (of which `intCmp` is the integer instance). -/

namespace BPT

variable {K : Type}

/-- Modelled from the spec: `ix_compare` as the three-way comparison of
a linear order (the source derives `-1/0/1` from `<` and `>` per
column). -/
def ordCmp [LinearOrder K] (a b : K) : Ordering :=
  if a < b then Ordering.lt else if b < a then Ordering.gt else Ordering.eq

lemma ordCmp_eq_iff [LinearOrder K] (a b : K) : ordCmp a b = Ordering.eq ↔ a = b := by
  unfold ordCmp
  split_ifs with h1 h2
  · simp [h1.ne]
  · simp [h2.ne']
  · simp [le_antisymm (le_of_not_lt h2) (le_of_not_lt h1)]

lemma ordCmp_lt_iff [LinearOrder K] (a b : K) : ordCmp a b = Ordering.lt ↔ a < b := by
  unfold ordCmp
  split_ifs with h1 h2
  · simp [h1]
  · simp [asymm h2]
  · simp [h1]

lemma ordCmp_ne_gt_iff [LinearOrder K] (a b : K) : (ordCmp a b ≠ Ordering.gt) ↔ a ≤ b := by
  unfold ordCmp
  split_ifs with h1 h2
  · simp [le_of_lt h1]
  · simp [not_le.mpr h2]
  · simp [le_of_not_lt h2]

/-- Strict ascending sortedness of a key array (a boolean adjacent-pairs
check; on a transitive order it is equivalent to pairwise). -/
def strictSorted [LinearOrder K] : List K → Bool
  | [] => true
  | [_] => true
  | a :: b :: rest => decide (a < b) && strictSorted (b :: rest)

lemma strictSorted_iff_pairwise [LinearOrder K] (l : List K) :
    strictSorted l = true ↔ l.Pairwise (· < ·) := by
  induction l with
  | nil => simp [strictSorted]
  | cons a t ih =>
    cases t with
    | nil => simp [strictSorted]
    | cons b rest =>
      rw [strictSorted, Bool.and_eq_true, decide_eq_true_iff, ih]
      constructor
      · rintro ⟨hab, hp⟩
        refine List.Pairwise.cons (fun x hx => ?_) hp
        rcases List.mem_cons.mp hx with h | h
        · exact h ▸ hab
        · exact hab.trans (List.rel_of_pairwise_cons hp h)
      · intro hp
        exact ⟨List.rel_of_pairwise_cons hp (List.mem_cons_self b rest), hp.of_cons⟩

lemma sorted_get?_lt [LinearOrder K] {l : List K} (h : l.Pairwise (· < ·)) {i j : Nat}
    (hij : i < j) {a b : K} (ha : l.get? i = some a) (hb : l.get? j = some b) : a < b := by
  obtain ⟨hi, rfl⟩ := List.get?_eq_some.mp ha
  obtain ⟨hj, rfl⟩ := List.get?_eq_some.mp hb
  exact List.pairwise_iff_get.mp h ⟨i, hi⟩ ⟨j, hj⟩ hij

/-- Characterisation of the binary-search loop on an array where the
predicate is upward closed: the result splits `[l, r)` into a false
prefix and a true suffix (the suffix conclusion extends to the end of
the array when everything at and beyond `r` is known true). -/
lemma bsearchAux_spec {keys : List K} {p : K → Bool}
    (hmono : ∀ i j, i ≤ j → ∀ k1 k2, keys.get? i = some k1 → keys.get? j = some k2 →
      p k1 = true → p k2 = true) :
    ∀ fuel l r, l ≤ r → r ≤ keys.length → r - l ≤ fuel →
    (∀ i, r ≤ i → i < keys.length → ∀ k0, keys.get? i = some k0 → p k0 = true) →
    l ≤ bsearchAux keys p fuel l r ∧ bsearchAux keys p fuel l r ≤ r ∧
    (∀ i, l ≤ i → i < bsearchAux keys p fuel l r → ∀ k0, keys.get? i = some k0 → p k0 = false) ∧
    (∀ i, bsearchAux keys p fuel l r ≤ i → i < keys.length → ∀ k0, keys.get? i = some k0 →
      p k0 = true) := by
  intro fuel
  induction fuel with
  | zero =>
    intro l r hlr hrlen hfuel habove
    have hlr' : l = r := by omega
    subst hlr'
    simp only [bsearchAux]
    exact ⟨le_refl _, le_refl _, fun i h1 h2 => absurd h2 (by omega), habove⟩
  | succ fuel ih =>
    intro l r hlr hrlen hfuel habove
    by_cases hlt : l < r
    · have hmid : (l + r) / 2 < keys.length := by omega
      obtain ⟨km, hkm⟩ : ∃ km, keys.get? ((l + r) / 2) = some km :=
        ⟨_, List.get?_eq_get hmid⟩
      rw [bsearchAux, if_pos hlt]
      simp only [hkm]
      by_cases hp : p km = true
      · rw [if_pos hp]
        have hmono2 : ∀ i, (l + r) / 2 ≤ i → i < keys.length → ∀ k0, keys.get? i = some k0 →
            p k0 = true := fun i hi hilen k0 hk0 => hmono _ _ hi _ _ hkm hk0 hp
        have := ih l ((l + r) / 2) (by omega) (by omega) (by omega) hmono2
        exact ⟨this.1, this.2.1.trans (by omega), this.2.2.1, this.2.2.2⟩
      · have hp' : p km = false := by
          cases h : p km
          · rfl
          · exact absurd h hp
        rw [if_neg hp]
        have := ih ((l + r) / 2 + 1) r (by omega) hrlen (by omega) habove
        refine ⟨by have h1 := this.1; omega, this.2.1, ?_, this.2.2.2⟩
        intro i hli hires k0 hk0
        by_cases hmid2 : (l + r) / 2 + 1 ≤ i
        · exact this.2.2.1 i hmid2 hires k0 hk0
        · -- i ≤ mid: if p k0 were true, monotonicity would force p km = true
          cases h : p k0
          · rfl
          · exact absurd (hmono i ((l + r) / 2) (by omega) _ _ hk0 hkm h) (by rw [hp']; simp)
    · have hlr' : l = r := by omega
      subst hlr'
      rw [bsearchAux, if_neg hlt]
      exact ⟨le_refl _, le_refl _, fun i h1 h2 => absurd h2 (by omega), habove⟩

end BPT

namespace BPT

variable {K : Type}

lemma nodeLowerBound_spec [LinearOrder K] (n : IxNode K) (k : K)
    (hs : strictSorted n.keys = true) :
    nodeLowerBound (ordCmp (K := K)) n k ≤ n.keys.length ∧
    (∀ i k0, i < nodeLowerBound (ordCmp (K := K)) n k → n.keys.get? i = some k0 → k0 < k) ∧
    (∀ i k0, nodeLowerBound (ordCmp (K := K)) n k ≤ i → n.keys.get? i = some k0 → k ≤ k0) := by
  have hpair := (strictSorted_iff_pairwise n.keys).mp hs
  have hmono : ∀ i j, i ≤ j → ∀ k1 k2, n.keys.get? i = some k1 → n.keys.get? j = some k2 →
      decide (ordCmp k k1 ≠ Ordering.gt) = true → decide (ordCmp k k2 ≠ Ordering.gt) = true := by
    intro i j hij k1 k2 h1 h2 hp
    simp only [decide_eq_true_iff, ordCmp_ne_gt_iff] at hp ⊢
    rcases Nat.lt_or_ge i j with h | h
    · exact hp.trans (sorted_get?_lt hpair h h1 h2).le
    · have hij' : i = j := by omega
      subst hij'
      rw [h1] at h2
      cases h2
      exact hp
  have hmain := bsearchAux_spec (p := fun km => decide (ordCmp k km ≠ Ordering.gt)) hmono
    n.keys.length 0 n.keys.length (by omega) (le_refl _) (by omega)
    (fun i h1 h2 => absurd h2 (by omega))
  refine ⟨hmain.2.1, ?_, ?_⟩
  · intro i k0 hi hget
    have hfalse : decide (ordCmp k k0 ≠ Ordering.gt) = false := hmain.2.2.1 i (by omega) hi k0 hget
    have : ¬ (k ≤ k0) := by
      intro hle
      rw [show (decide (ordCmp k k0 ≠ Ordering.gt)) = true by
        simp [decide_eq_true_iff, ordCmp_ne_gt_iff, hle]] at hfalse
      exact absurd hfalse (by simp)
    exact lt_of_not_le this
  · intro i k0 hi hget
    have hilen : i < n.keys.length := (List.get?_eq_some.mp hget).1
    have htrue : decide (ordCmp k k0 ≠ Ordering.gt) = true := hmain.2.2.2 i hi hilen k0 hget
    simpa [decide_eq_true_iff, ordCmp_ne_gt_iff] using htrue

lemma nodeUpperBound_spec [LinearOrder K] (n : IxNode K) (k : K)
    (hs : strictSorted n.keys = true) (hlen : 1 ≤ n.keys.length) :
    1 ≤ nodeUpperBound (ordCmp (K := K)) n k ∧
    nodeUpperBound (ordCmp (K := K)) n k ≤ n.keys.length ∧
    (∀ i k0, 1 ≤ i → i < nodeUpperBound (ordCmp (K := K)) n k → n.keys.get? i = some k0 →
      k0 ≤ k) ∧
    (∀ i k0, nodeUpperBound (ordCmp (K := K)) n k ≤ i → n.keys.get? i = some k0 → k < k0) := by
  have hpair := (strictSorted_iff_pairwise n.keys).mp hs
  have hmono : ∀ i j, i ≤ j → ∀ k1 k2, n.keys.get? i = some k1 → n.keys.get? j = some k2 →
      decide (ordCmp k k1 = Ordering.lt) = true → decide (ordCmp k k2 = Ordering.lt) = true := by
    intro i j hij k1 k2 h1 h2 hp
    simp only [decide_eq_true_iff, ordCmp_lt_iff] at hp ⊢
    rcases Nat.lt_or_ge i j with h | h
    · exact hp.trans (sorted_get?_lt hpair h h1 h2)
    · have hij' : i = j := by omega
      subst hij'
      rw [h1] at h2
      cases h2
      exact hp
  have hmain := bsearchAux_spec (p := fun km => decide (ordCmp k km = Ordering.lt)) hmono
    n.keys.length 1 n.keys.length hlen (le_refl _) (by omega)
    (fun i h1 h2 => absurd h2 (by omega))
  refine ⟨hmain.1, hmain.2.1, ?_, ?_⟩
  · intro i k0 h1i hi hget
    have hfalse : decide (ordCmp k k0 = Ordering.lt) = false := hmain.2.2.1 i h1i hi k0 hget
    by_contra hlt
    rw [show (decide (ordCmp k k0 = Ordering.lt)) = true by
      simp [decide_eq_true_iff, ordCmp_lt_iff, lt_of_not_le hlt]] at hfalse
    exact absurd hfalse (by simp)
  · intro i k0 hi hget
    have hilen : i < n.keys.length := (List.get?_eq_some.mp hget).1
    have htrue : decide (ordCmp k k0 = Ordering.lt) = true := hmain.2.2.2 i hi hilen k0 hget
    simpa [decide_eq_true_iff, ordCmp_lt_iff] using htrue

/-- The children of an internal node with their separating key bounds:
child `i` is keyed by `[k_i, k_(i+1))` (the last child by `[k_last, hi)`). -/
def childBounds : List K → List Rid → Option K → List (Int × Option K × Option K)
  | [k], r :: _, hi => [(r.page_no, some k, hi)]
  | k1 :: k2 :: ks, r :: rs, hi => (r.page_no, some k1, some k2) :: childBounds (k2 :: ks) rs hi
  | _, _, _ => []

/-- Lower bound check for one key. -/
def loOk [LinearOrder K] (lo : Option K) (x : K) : Bool :=
  match lo with
  | none => true
  | some l => decide (l ≤ x)

/-- Upper bound check for one key. -/
def hiOk [LinearOrder K] (hi : Option K) (x : K) : Bool :=
  match hi with
  | none => true
  | some h => decide (x < h)

/-- Well-formedness of the subtree rooted at page `p` of height exactly
`fuel` (leaves sit at height 1, so all leaves are at the same depth):
the node is live in `[0, nextPageNo)`, its parent pointer is
`parentNo`, keys and rids run in parallel, keys are strictly sorted
within the `[lo, hi)` window, leaves point to a live next-leaf page
(unless `IX_NO_PAGE`), and an internal node is non-empty with children
well-formed under the separator windows of `childBounds`. -/
def nodeOk [LinearOrder K] (s : IxState K) :
    Nat → Int → Int → Option K → Option K → Bool
  | 0, _, _, _, _ => false
  | fuel + 1, p, parentNo, lo, hi =>
    match s.pages p with
    | none => false
    | some n =>
      decide (n.parent = parentNo) &&
      decide (n.keys.length = n.rids.length) &&
      strictSorted n.keys &&
      n.keys.all (fun x => loOk lo x && hiOk hi x) &&
      decide (0 ≤ p ∧ p < s.nextPageNo) &&
      (if n.is_leaf then
        decide (fuel = 0) && decide (n.next_leaf ≠ p) &&
          ((n.next_leaf == IX_NO_PAGE) || (s.pages n.next_leaf).isSome)
       else
        decide (1 ≤ n.keys.length) &&
        (childBounds n.keys n.rids hi).all (fun c => nodeOk s fuel c.1 p c.2.1 c.2.2))

/-- All keys stored in the leaves of the subtree at page `p`. -/
def treeKeys (s : IxState K) : Nat → Int → List K
  | 0, _ => []
  | fuel + 1, p =>
    match s.pages p with
    | none => []
    | some n =>
      if n.is_leaf then n.keys
      else (n.rids.map (fun rd => treeKeys s fuel rd.page_no)).join

/-- Well-formedness of the parent chain above page `p` (fuel bounds its
length): every ancestor is a live internal node within the page range
that lists the previous chain page among its children, with keys and
rids in parallel and every child page live. -/
def chainOk (s : IxState K) : Nat → Int → Bool
  | 0, _ => false
  | fuel + 1, p =>
    match s.pages p with
    | none => false
    | some n =>
      if n.parent = IX_NO_PAGE then true
      else
        match s.pages n.parent with
        | none => false
        | some par =>
          decide (par.is_leaf = false) &&
          decide (1 ≤ par.keys.length) &&
          decide (par.keys.length = par.rids.length) &&
          par.rids.any (fun rd => rd.page_no == p) &&
          par.rids.all (fun rd => (s.pages rd.page_no).isSome) &&
          decide (0 ≤ n.parent ∧ n.parent < s.nextPageNo) &&
          chainOk s fuel n.parent

/-- Well-formedness of the whole tree state. -/
def Wf [LinearOrder K] (s : IxState K) (h : Nat) : Bool :=
  nodeOk s h s.root_page IX_NO_PAGE none none && decide (2 ≤ s.maxSize)

end BPT

namespace BPT

variable {K : Type}

lemma nodeOk_elim [LinearOrder K] {s : IxState K} {fuel : Nat} {p parentNo : Int}
    {lo hi : Option K} (h : nodeOk s (fuel + 1) p parentNo lo hi = true) :
    ∃ n, s.pages p = some n ∧ n.parent = parentNo ∧ n.keys.length = n.rids.length ∧
      strictSorted n.keys = true ∧ (∀ x ∈ n.keys, loOk lo x = true ∧ hiOk hi x = true) ∧
      0 ≤ p ∧ p < s.nextPageNo ∧
      (n.is_leaf = true → fuel = 0) ∧
      (n.is_leaf = true → n.next_leaf ≠ p) ∧
      (n.is_leaf = true → n.next_leaf = IX_NO_PAGE ∨ (s.pages n.next_leaf).isSome = true) ∧
      (n.is_leaf = false → 1 ≤ n.keys.length ∧
        ∀ c ∈ childBounds n.keys n.rids hi, nodeOk s fuel c.1 p c.2.1 c.2.2 = true) := by
  rw [nodeOk] at h
  cases hsp : s.pages p with
  | none => rw [hsp] at h; exact absurd h (by simp)
  | some n =>
    rw [hsp] at h
    refine ⟨n, rfl, ?_⟩
    by_cases hleaf : n.is_leaf
    · simp only [hleaf, if_true, Bool.and_eq_true, decide_eq_true_iff, List.all_eq_true,
        Bool.or_eq_true, beq_iff_eq] at h
      obtain ⟨⟨⟨⟨⟨h1, h2⟩, h3⟩, h4⟩, h5⟩, ⟨h60, h61⟩, h6⟩ := h
      exact ⟨h1, h2, h3, fun x hx => by simpa [Bool.and_eq_true] using h4 x hx,
        h5.1, h5.2, fun _ => h60, fun _ => h61, fun _ => h6,
        fun hmal => absurd hleaf (by simp [hmal])⟩
    · simp only [hleaf, if_false, Bool.and_eq_true, decide_eq_true_iff, List.all_eq_true,
        Bool.false_eq_true] at h
      obtain ⟨⟨⟨⟨⟨h1, h2⟩, h3⟩, h4⟩, h5⟩, h6, h7⟩ := h
      refine ⟨h1, h2, h3, fun x hx => by simpa [Bool.and_eq_true] using h4 x hx,
        h5.1, h5.2, fun hml => absurd hml (by simp_all), fun hml => absurd hml (by simp_all),
        fun hml => absurd hml (by simp_all), fun _ => ⟨h6, fun c hc => h7 c hc⟩⟩

lemma childBounds_length : ∀ (ks : List K) (rs : List Rid) (hi : Option K),
    ks.length = rs.length → (childBounds ks rs hi).length = ks.length := by
  intro ks
  induction ks with
  | nil => intro rs hi h; cases rs with
    | nil => simp [childBounds]
    | cons r rs => simp at h
  | cons k1 kt ih =>
    intro rs hi h
    cases rs with
    | nil => simp at h
    | cons r rt =>
      cases kt with
      | nil => simp [childBounds]
      | cons k2 ks2 =>
        rw [childBounds]
        simp only [List.length_cons] at h ⊢
        rw [ih rt hi (by simpa using h)]
        simp

lemma childBounds_get : ∀ (ks : List K) (rs : List Rid) (hi : Option K) (i : Nat),
    ks.length = rs.length → i < ks.length →
    ∃ k r, ks.get? i = some k ∧ rs.get? i = some r ∧
      (childBounds ks rs hi).get? i = some (r.page_no, some k,
        (match ks.get? (i + 1) with | some k2 => some k2 | none => hi)) := by
  intro ks
  induction ks with
  | nil => intro rs hi i h hi2; simp at hi2
  | cons k1 kt ih =>
    intro rs hi i h hilt
    cases rs with
    | nil => simp at h
    | cons r rt =>
      cases kt with
      | nil =>
        -- single key
        cases i with
        | zero => exact ⟨k1, r, rfl, rfl, by simp [childBounds]⟩
        | succ j => simp at hilt
      | cons k2 ks2 =>
        cases i with
        | zero => exact ⟨k1, r, rfl, rfl, by simp [childBounds]⟩
        | succ j =>
          obtain ⟨k, r', h1, h2, h3⟩ := ih rt hi j (by simpa using h)
            (by simpa using hilt)
          exact ⟨k, r', h1, h2, by rw [childBounds]; simpa using h3⟩

lemma childBounds_covers : ∀ (ks : List K) (rs : List Rid) (hi : Option K),
    ks.length = rs.length → ∀ r ∈ rs, ∃ c ∈ childBounds ks rs hi, c.1 = r.page_no := by
  intro ks rs hi hlen r hr
  obtain ⟨j, hj⟩ := List.get?_of_mem hr
  have hjlt : j < rs.length := (List.get?_eq_some.mp hj).1
  obtain ⟨k, r', h1, h2, h3⟩ := childBounds_get ks rs hi j hlen (by omega)
  rw [hj] at h2
  cases h2
  exact ⟨_, List.get?_mem h3, rfl⟩

lemma chainOk_mono {s : IxState K} : ∀ {f1 f2 : Nat} {p : Int}, f1 ≤ f2 →
    chainOk s f1 p = true → chainOk s f2 p = true := by
  intro f1
  induction f1 with
  | zero => intro f2 p h hc; rw [chainOk] at hc; exact absurd hc (by simp)
  | succ f ih =>
    intro f2 p h hc
    cases f2 with
    | zero => omega
    | succ f2' =>
      rw [chainOk] at hc
      cases hsp : s.pages p with
      | none => rw [hsp] at hc; exact absurd hc (by simp)
      | some n =>
        simp only [hsp] at hc
        by_cases hroot : n.parent = IX_NO_PAGE
        · rw [chainOk, hsp]
          simp [hroot]
        · rw [if_neg hroot] at hc
          cases hpp : s.pages n.parent with
          | none => rw [hpp] at hc; exact absurd hc (by simp)
          | some par =>
            simp only [hpp, Bool.and_eq_true] at hc
            simp only [chainOk, hsp, hpp, if_neg hroot, Bool.and_eq_true]
            exact ⟨hc.1, ih (by omega) hc.2⟩

/-- All keys stored below a well-formed subtree respect its window. -/
lemma treeKeys_bounds [LinearOrder K] {s : IxState K} :
    ∀ {fuel : Nat} {p parentNo : Int} {lo hi : Option K},
    nodeOk s fuel p parentNo lo hi = true →
    ∀ x ∈ treeKeys s fuel p, loOk lo x = true ∧ hiOk hi x = true := by
  intro fuel
  induction fuel with
  | zero => intro p parentNo lo hi h; rw [nodeOk] at h; exact absurd h (by simp)
  | succ fuel ih =>
    intro p parentNo lo hi h x hx
    obtain ⟨n, hsp, hpar, hlen, hsort, hbnd, hp0, hpN, hfz, hnlp, hleaf, hint⟩ := nodeOk_elim h
    simp only [treeKeys, hsp] at hx
    by_cases hl : n.is_leaf
    · rw [if_pos hl] at hx
      exact hbnd x hx
    · rw [if_neg hl] at hx
      obtain ⟨hne, hch⟩ := hint (by simpa using hl)
      obtain ⟨l', hl', hxl⟩ := List.mem_join.mp hx
      obtain ⟨rd, hrd, hrdeq⟩ := List.mem_map.mp hl'
      -- find the childBounds entry for rd
      obtain ⟨j, hj⟩ := List.get?_of_mem hrd
      have hjlt : j < n.rids.length := (List.get?_eq_some.mp hj).1
      obtain ⟨kj, rj, hk, hr, hcb⟩ := childBounds_get n.keys n.rids hi j hlen (by omega)
      rw [hj] at hr
      cases hr
      have hok := hch _ (List.get?_mem hcb)
      have hxb := ih hok x (hrdeq ▸ hxl)
      have hkmem : kj ∈ n.keys := List.get?_mem hk
      have hkb := hbnd kj hkmem
      constructor
      · -- lower: lo ≤ kj ≤ x
        cases lo with
        | none => rfl
        | some l0 =>
          have h1 : l0 ≤ kj := by simpa [loOk, decide_eq_true_iff] using hkb.1
          have h2 : kj ≤ x := by simpa [loOk, decide_eq_true_iff] using hxb.1
          simp [loOk, decide_eq_true_iff]
          exact h1.trans h2
      · -- upper
        cases hnext : n.keys.get? (j + 1) with
        | some k2 =>
          rw [hnext] at hxb
          have h1 : x < k2 := by simpa [hiOk, decide_eq_true_iff] using hxb.2
          have hk2mem : k2 ∈ n.keys := List.get?_mem hnext
          have hk2b := hbnd k2 hk2mem
          cases hi with
          | none => rfl
          | some h0 =>
            have h2 : k2 < h0 := by simpa [hiOk, decide_eq_true_iff] using hk2b.2
            simp [hiOk, decide_eq_true_iff]
            exact h1.trans h2
        | none =>
          rw [hnext] at hxb
          exact hxb.2

end BPT

namespace BPT

variable {K : Type}

/-- A page's height is determined by its content: two well-formed
positions of the same page have the same height (`nodeOk` places all
leaves at height 1). -/
lemma nodeOk_height_unique [LinearOrder K] {s : IxState K} :
    ∀ {f1 : Nat} {f2 : Nat} {p pn1 pn2 : Int} {lo1 hi1 lo2 hi2 : Option K},
    nodeOk s f1 p pn1 lo1 hi1 = true → nodeOk s f2 p pn2 lo2 hi2 = true → f1 = f2 := by
  intro f1
  induction f1 with
  | zero =>
    intro f2 p pn1 pn2 lo1 hi1 lo2 hi2 h1 h2
    rw [nodeOk] at h1
    exact absurd h1 (by simp)
  | succ f1 ih =>
    intro f2 p pn1 pn2 lo1 hi1 lo2 hi2 h1 h2
    cases f2 with
    | zero => rw [nodeOk] at h2; exact absurd h2 (by simp)
    | succ f2' =>
      obtain ⟨n, hsp, _, hlen, _, _, _, _, hfz1, _, _, hint1⟩ := nodeOk_elim h1
      obtain ⟨n2, hsp2, _, _, _, _, _, _, hfz2, _, _, hint2⟩ := nodeOk_elim h2
      rw [hsp] at hsp2
      cases hsp2
      by_cases hl : n.is_leaf
      · rw [hfz1 hl, hfz2 hl]
      · have hl' : n.is_leaf = false := by simpa using hl
        obtain ⟨hne1, hch1⟩ := hint1 hl'
        obtain ⟨hne2, hch2⟩ := hint2 hl'
        obtain ⟨k0, r0, hk0, hr0, hcb1⟩ := childBounds_get n.keys n.rids hi1 0 hlen (by omega)
        obtain ⟨k0', r0', hk0', hr0', hcb2⟩ := childBounds_get n.keys n.rids hi2 0 hlen (by omega)
        rw [hr0] at hr0'
        cases hr0'
        have hc1 := hch1 _ (List.get?_mem hcb1)
        have hc2 := hch2 _ (List.get?_mem hcb2)
        rw [ih hc1 hc2]

/-- The ancestor chain of page `p`, nearest parent first, together with
all the structural facts the insert path needs: each ancestor is a live
internal node within the page range listing the previous page among its
children, all its children are live and none of them is the ancestor
itself or a higher ancestor, and the chain has no duplicates. -/
def ancChain (s : IxState K) : Int → List Int → Prop
  | p, [] => ∃ n, s.pages p = some n ∧ n.parent = IX_NO_PAGE
  | p, a :: rest =>
      (∃ n, s.pages p = some n ∧ n.parent = a) ∧
      (∃ par, s.pages a = some par ∧ par.is_leaf = false ∧ 1 ≤ par.keys.length ∧
        par.keys.length = par.rids.length ∧ (∃ rd ∈ par.rids, rd.page_no = p) ∧
        (∀ rd ∈ par.rids, (s.pages rd.page_no).isSome = true) ∧
        (∀ rd ∈ par.rids, rd.page_no ≠ a ∧ rd.page_no ∉ rest)) ∧
      0 ≤ a ∧ a < s.nextPageNo ∧ a ∉ rest ∧
      ancChain s a rest

/-- `ancChain` is stable under state changes that keep the chain pages
verbatim, keep the base page's parent, never kill a page and never
shrink the page range. -/
lemma ancChain_stable {s s' : IxState K}
    (hnext : s.nextPageNo ≤ s'.nextPageNo)
    (hlive : ∀ q, (s.pages q).isSome = true → (s'.pages q).isSome = true) :
    ∀ (A : List Int) (p : Int),
    ancChain s p A →
    (∀ a ∈ A, s'.pages a = s.pages a) →
    (∃ n n', s.pages p = some n ∧ s'.pages p = some n' ∧ n'.parent = n.parent) →
    ancChain s' p A := by
  intro A
  induction A with
  | nil =>
    intro p hanc hA hp
    obtain ⟨n0, hn0, hpar0⟩ := hanc
    obtain ⟨n, n', hn, hn', hpp⟩ := hp
    rw [hn0] at hn
    cases hn
    exact ⟨n', hn', hpp.trans hpar0⟩
  | cons a rest ih =>
    intro p hanc hA hp
    obtain ⟨⟨n0, hn0, hpar0⟩, ⟨par, hpar, hpl, hpk, hplen, hpc, hpcl, hpcd⟩, ha0, haN,
      hanr, hrest⟩ := hanc
    obtain ⟨n, n', hn, hn', hpp⟩ := hp
    rw [hn0] at hn
    cases hn
    have hA' : s'.pages a = s.pages a := hA a (List.mem_cons_self a rest)
    refine ⟨⟨n', hn', hpp.trans hpar0⟩, ⟨par, by rw [hA', hpar], hpl, hpk, hplen, hpc,
      fun rd hrd => hlive _ (hpcl rd hrd), hpcd⟩, ha0, by omega, hanr, ?_⟩
    exact ih a hrest (fun x hx => hA x (List.mem_cons_of_mem a hx))
      ⟨par, par, hpar, by rw [hA', hpar], rfl⟩

/-- Descent correctness of `find_leaf_page` on a well-formed subtree:
the walk reaches a live, sorted leaf; a key present below `p` is
present in that leaf and the leaf's keys all come from below `p`; the
parent chain of the leaf extends the chain of `p`. -/
lemma findLeaf_descend [LinearOrder K] {s : IxState K} (k : K) :
    ∀ (h : Nat) (p parentNo : Int) (lo hi : Option K) (fuel : Nat) (A : List Int),
    nodeOk s h p parentNo lo hi = true → h ≤ fuel →
    ancChain s p A →
    (∀ a ∈ A, ∃ f pn lo2 hi2, nodeOk s f a pn lo2 hi2 = true ∧ h < f) →
    ∃ LP L A', findLeafFrom (ordCmp (K := K)) s k false fuel p = Except.ok (LP, L) ∧
      s.pages LP = some L ∧ L.is_leaf = true ∧
      strictSorted L.keys = true ∧ L.keys.length = L.rids.length ∧
      0 ≤ LP ∧ LP < s.nextPageNo ∧
      L.next_leaf ≠ LP ∧
      (L.next_leaf = IX_NO_PAGE ∨ (s.pages L.next_leaf).isSome = true) ∧
      ancChain s LP A' ∧ A'.length < h + A.length ∧
      (k ∈ treeKeys s h p → k ∈ L.keys) ∧
      (∀ x ∈ L.keys, x ∈ treeKeys s h p) := by
  intro h
  induction h with
  | zero =>
    intro p parentNo lo hi fuel A hok hfuel hanc hhigh
    rw [nodeOk] at hok
    exact absurd hok (by simp)
  | succ h ih =>
    intro p parentNo lo hi fuel A hok hfuel hanc hhigh
    obtain ⟨n, hsp, hpar, hlen, hsort, hbnd, hp0, hpN, hfz, hnlp, hleafP, hint⟩ := nodeOk_elim hok
    cases fuel with
    | zero => omega
    | succ fuel =>
      by_cases hl : n.is_leaf
      · refine ⟨p, n, A, ?_, hsp, hl, hsort, hlen, hp0, hpN, hnlp hl, hleafP hl, hanc,
          by omega, ?_, ?_⟩
        · simp only [findLeafFrom, hsp, hl, if_true]
        · intro hk
          simpa [treeKeys, hsp, hl] using hk
        · intro x hx
          simp [treeKeys, hsp, hl, hx]
      · have hl' : n.is_leaf = false := by simpa using hl
        obtain ⟨hne, hch⟩ := hint hl'
        have hub := nodeUpperBound_spec n k hsort hne
        set ub := nodeUpperBound (ordCmp (K := K)) n k with hubdef
        have hub1 : 1 ≤ ub := hub.1
        have hubm : ub ≤ n.keys.length := hub.2.1
        obtain ⟨kj, rj, hk, hr, hcb⟩ := childBounds_get n.keys n.rids hi (ub - 1) hlen (by omega)
        have hok2 := hch _ (List.get?_mem hcb)
        have hlook : internalLookup (ordCmp (K := K)) n k = some rj.page_no := by
          unfold internalLookup valueAt
          rw [← hubdef, hr]
          rfl
        -- the child subtree has positive height
        cases h with
        | zero => rw [nodeOk] at hok2; exact absurd hok2 (by simp)
        | succ h2 =>
        obtain ⟨cn, hcsp, hcpar, _, _, _, _, _, _, _, _, _⟩ := nodeOk_elim hok2
        -- every child of this node has height h2 + 1 and so is neither
        -- this node nor a higher ancestor
        have hchildOk : ∀ rd ∈ n.rids, ∃ c ∈ childBounds n.keys n.rids hi,
            c.1 = rd.page_no ∧ nodeOk s (h2 + 1) c.1 p c.2.1 c.2.2 = true := by
          intro rd hrd
          obtain ⟨c, hcmem, hceq⟩ := childBounds_covers n.keys n.rids hi hlen rd hrd
          exact ⟨c, hcmem, hceq, hch c hcmem⟩
        have hchildDisj : ∀ rd ∈ n.rids, rd.page_no ≠ p ∧ rd.page_no ∉ A := by
          intro rd hrd
          obtain ⟨c, hcmem, hceq, hcok⟩ := hchildOk rd hrd
          constructor
          · intro heq
            rw [hceq, heq] at hcok
            have := nodeOk_height_unique hcok hok
            omega
          · intro hmem
            obtain ⟨f, pn, lo2, hi2, hf, hfgt⟩ := hhigh _ hmem
            rw [hceq] at hcok
            have := nodeOk_height_unique hcok hf
            omega
        have hpnotA : p ∉ A := by
          intro hmem
          obtain ⟨f, pn, lo2, hi2, hf, hfgt⟩ := hhigh _ hmem
          have := nodeOk_height_unique hok hf
          omega
        have hanc' : ancChain s rj.page_no (p :: A) := by
          refine ⟨⟨cn, hcsp, hcpar⟩, ⟨n, hsp, hl', hne, hlen, ⟨rj, List.get?_mem hr, rfl⟩,
            ?_, ?_⟩, hp0, hpN, hpnotA, hanc⟩
          · intro rd hrd
            obtain ⟨c, hcmem, hceq, hcok⟩ := hchildOk rd hrd
            obtain ⟨cn2, hcn2, _⟩ := nodeOk_elim hcok
            rw [hceq] at hcn2
            simp [hcn2]
          · exact hchildDisj
        have hhigh' : ∀ a ∈ p :: A, ∃ f pn lo2 hi2, nodeOk s f a pn lo2 hi2 = true ∧
            h2 + 1 < f := by
          intro a ha
          rcases List.mem_cons.mp ha with rfl | ha
          · exact ⟨h2 + 1 + 1, parentNo, lo, hi, hok, by omega⟩
          · obtain ⟨f, pn, lo2, hi2, hf, hfgt⟩ := hhigh _ ha
            exact ⟨f, pn, lo2, hi2, hf, by omega⟩
        obtain ⟨LP, L, A', hrun, hLsp, hLleaf, hLsort, hLlen, hLP0, hLPN, hLnlp, hLnext, hLanc,
          hLlen2, hpres, hrev⟩ := ih rj.page_no p _ _ fuel (p :: A) hok2 (by omega) hanc' hhigh'
        refine ⟨LP, L, A', ?_, hLsp, hLleaf, hLsort, hLlen, hLP0, hLPN, hLnlp, hLnext, hLanc,
          by simp at hLlen2 ⊢; omega, ?_, ?_⟩
        · simp only [findLeafFrom, hsp, hl', hlook]
          simp only [Bool.false_eq_true, if_false]
          exact hrun
        · intro hkmem
          apply hpres
          -- k lies below p; show it lies below the chosen child
          simp only [treeKeys, hsp, hl', Bool.false_eq_true, if_false] at hkmem
          obtain ⟨l', hl'', hkl⟩ := List.mem_join.mp hkmem
          obtain ⟨rd, hrd, hrdeq⟩ := List.mem_map.mp hl''
          obtain ⟨j, hj⟩ := List.get?_of_mem hrd
          have hjlt : j < n.rids.length := (List.get?_eq_some.mp hj).1
          obtain ⟨kj2, rj2, hk2, hr2, hcb2⟩ := childBounds_get n.keys n.rids hi j hlen (by omega)
          rw [hj] at hr2
          cases hr2
          have hokj := hch _ (List.get?_mem hcb2)
          have hklc : k ∈ treeKeys s (h2 + 1) rd.page_no := by
            rw [show treeKeys s (h2 + 1) rd.page_no = l' from hrdeq]
            exact hkl
          have hkb := treeKeys_bounds hokj k hklc
          have hlo : kj2 ≤ k := by simpa [loOk, decide_eq_true_iff] using hkb.1
          -- j cannot be below ub - 1
          have hjge : ub - 1 ≤ j := by
            by_contra hlt2
            push_neg at hlt2
            have hj1 : j + 1 < ub := by omega
            have hj1m : j + 1 < n.keys.length := by omega
            obtain ⟨k2, hk2'⟩ : ∃ k2, n.keys.get? (j + 1) = some k2 :=
              ⟨_, List.get?_eq_get hj1m⟩
            rw [hk2'] at hkb
            have hhi2 : k < k2 := by simpa [hiOk, decide_eq_true_iff] using hkb.2
            have := hub.2.2.1 (j + 1) k2 (by omega) hj1 hk2'
            exact absurd hhi2 (not_lt.mpr this)
          -- j cannot be above ub - 1
          have hjle : j ≤ ub - 1 := by
            by_contra hgt
            push_neg at hgt
            have := hub.2.2.2 j kj2 (by omega) hk2
            exact absurd hlo (not_le.mpr this)
          have hjeq : j = ub - 1 := by omega
          subst hjeq
          rw [hj] at hr
          cases hr
          rw [show treeKeys s (h2 + 1) rj.page_no = l' from hrdeq]
          exact hkl
        · intro x hx
          have := hrev x hx
          simp only [treeKeys, hsp, hl', Bool.false_eq_true, if_false]
          rw [List.mem_join]
          refine ⟨treeKeys s (h2 + 1) rj.page_no, ?_, this⟩
          rw [List.mem_map]
          exact ⟨rj, List.get?_mem hr, rfl⟩

end BPT

namespace BPT

variable {K : Type}

lemma findIdx?_of_mem {α : Type} {f : α → Bool} :
    ∀ {l : List α}, (∃ x ∈ l, f x = true) →
    ∃ i x, l.findIdx? f = some i ∧ i < l.length ∧ l.get? i = some x ∧ f x = true := by
  intro l
  induction l with
  | nil => rintro ⟨x, hx, _⟩; exact absurd hx (by simp)
  | cons a t ih =>
    rintro ⟨x, hx, hpx⟩
    by_cases hpa : f a = true
    · exact ⟨0, a, by simp [List.findIdx?_cons, hpa], by simp, rfl, hpa⟩
    · have hxt : x ∈ t := by
        rcases List.mem_cons.mp hx with rfl | h
        · exact absurd hpx hpa
        · exact h
      obtain ⟨i, y, hfind, hlt, hget, hpy⟩ := ih ⟨x, hxt, hpx⟩
      refine ⟨i + 1, y, ?_, by simp; omega, hget, hpy⟩
      simp [List.findIdx?_cons, hpa, hfind]

lemma insert_pairwise [LinearOrder K] {l : List K} {pos : Nat} {k : K}
    (hp : l.Pairwise (· < ·))
    (hlow : ∀ i k0, i < pos → l.get? i = some k0 → k0 < k)
    (hhigh : ∀ i k0, pos ≤ i → l.get? i = some k0 → k < k0) :
    (l.take pos ++ k :: l.drop pos).Pairwise (· < ·) := by
  rw [List.pairwise_append]
  refine ⟨hp.sublist (List.take_sublist pos l), ?_, ?_⟩
  · rw [List.pairwise_cons]
    refine ⟨?_, hp.sublist (List.drop_sublist pos l)⟩
    intro b hb
    obtain ⟨j, hj⟩ := List.get?_of_mem hb
    have hlb : l.get? (pos + j) = some b := by rw [← List.get?_drop]; exact hj
    exact hhigh (pos + j) b (by omega) hlb
  · intro a ha b hb
    obtain ⟨i, hi⟩ := List.get?_of_mem ha
    have hilt : i < (l.take pos).length := (List.get?_eq_some.mp hi).1
    have hipos : i < pos := by simp [List.length_take] at hilt; omega
    have hia : l.get? i = some a := by rw [← List.get?_take hipos]; exact hi
    have hak : a < k := hlow i a hipos hia
    rcases List.mem_cons.mp hb with rfl | hb2
    · exact hak
    · obtain ⟨j, hj⟩ := List.get?_of_mem hb2
      have hlb : l.get? (pos + j) = some b := by rw [← List.get?_drop]; exact hj
      exact hak.trans (hhigh (pos + j) b (by omega) hlb)

lemma lb_get_of_mem [LinearOrder K] (n : IxNode K) (k : K)
    (hs : strictSorted n.keys = true) (hmem : k ∈ n.keys) :
    n.keys.get? (nodeLowerBound (ordCmp (K := K)) n k) = some k := by
  have spec := nodeLowerBound_spec n k hs
  have hpair := (strictSorted_iff_pairwise n.keys).mp hs
  obtain ⟨j, hj⟩ := List.get?_of_mem hmem
  set lb := nodeLowerBound (ordCmp (K := K)) n k with hlb
  have hjlb : lb ≤ j := by
    by_contra hgt
    push_neg at hgt
    exact absurd (spec.2.1 j k hgt hj) (lt_irrefl k)
  rcases Nat.eq_or_lt_of_le hjlb with heq | hlt
  · rw [← heq] at hj
    exact hj
  · have hjlen : j < n.keys.length := (List.get?_eq_some.mp hj).1
    obtain ⟨k0, hk0⟩ : ∃ k0, n.keys.get? lb = some k0 :=
      ⟨_, List.get?_eq_get (lt_trans hlt hjlen)⟩
    have h1 : k ≤ k0 := spec.2.2 lb k0 (le_refl _) hk0
    have h2 : k0 < k := sorted_get?_lt hpair hlt hk0 hj
    exact absurd h1 (not_le.mpr h2)

lemma insertKvPair_dup [LinearOrder K] (n : IxNode K) (k : K) (r : Rid)
    (hs : strictSorted n.keys = true) (hmem : k ∈ n.keys) :
    insertKvPair (ordCmp (K := K)) n k r = Except.ok (n, n.keys.length, -1) := by
  unfold insertKvPair
  simp only [lb_get_of_mem n k hs hmem]
  rw [if_pos ((ordCmp_eq_iff k k).mpr rfl)]

lemma insertKvPair_new [LinearOrder K] (n : IxNode K) (k : K) (r : Rid)
    (hs : strictSorted n.keys = true) (habs : k ∉ n.keys) :
    insertKvPair (ordCmp (K := K)) n k r = Except.ok
      ({ n with
          keys := n.keys.take (nodeLowerBound (ordCmp (K := K)) n k) ++ [k] ++
            n.keys.drop (nodeLowerBound (ordCmp (K := K)) n k),
          rids := n.rids.take (nodeLowerBound (ordCmp (K := K)) n k) ++ [r] ++
            n.rids.drop (nodeLowerBound (ordCmp (K := K)) n k) },
        n.keys.length + 1, (nodeLowerBound (ordCmp (K := K)) n k : Int)) := by
  have spec := nodeLowerBound_spec n k hs
  set lb := nodeLowerBound (ordCmp (K := K)) n k with hlbdef
  have hok : insertPair n lb k r = Except.ok { n with
      keys := n.keys.take lb ++ [k] ++ n.keys.drop lb,
      rids := n.rids.take lb ++ [r] ++ n.rids.drop lb } := by
    unfold insertPair insertPairs
    rw [if_neg (by omega)]
  have hlennew : (n.keys.take lb ++ [k] ++ n.keys.drop lb).length = n.keys.length + 1 := by
    simp [List.length_take, List.length_drop]
    omega
  simp only [insertKvPair]
  cases hget : n.keys.get? lb with
  | none =>
    simp only [hget, hok]
    simp [hlennew]
    all_goals (have hsp1 := spec.1; omega)
  | some kp =>
    have hne : ordCmp k kp ≠ Ordering.eq := by
      intro heq
      have hkk : k = kp := (ordCmp_eq_iff k kp).mp heq
      subst hkk
      exact habs (List.get?_mem hget)
    simp only [hget]
    rw [if_neg hne]
    simp only [hok]
    simp [hlennew]
    all_goals (have hsp1 := spec.1; omega)

end BPT

namespace BPT

variable {K : Type}

/-- Running `maintain_parent` from a page whose ancestor chain is
well-formed succeeds, walks only ancestor pages (overwriting one
separator key per level, which changes neither any node's shape nor any
leaf page), and preserves the chain. -/
lemma maintainParent_run [LinearOrder K] [DecidableEq K] :
    ∀ (A : List Int) (s : IxState K) (fuel : Nat) (p : Int),
    ancChain s p A →
    (∃ n, s.pages p = some n ∧ n.keys ≠ []) →
    A.length < fuel →
    ∃ s', maintainParent fuel s p = Except.ok s' ∧
      s'.root_page = s.root_page ∧ s'.first_leaf = s.first_leaf ∧
      s'.last_leaf = s.last_leaf ∧ s'.num_pages = s.num_pages ∧
      s'.nextPageNo = s.nextPageNo ∧ s'.maxSize = s.maxSize ∧
      (∀ q, s.pages q = none → s'.pages q = none) ∧
      (∀ q n, s.pages q = some n → ∃ n', s'.pages q = some n' ∧
        n'.is_leaf = n.is_leaf ∧ n'.parent = n.parent ∧ n'.prev_leaf = n.prev_leaf ∧
        n'.next_leaf = n.next_leaf ∧ n'.keys.length = n.keys.length ∧ n'.rids = n.rids ∧
        (n.is_leaf = true → n' = n)) ∧
      ancChain s' p A := by
  intro A
  induction A with
  | nil =>
    intro s fuel p hanc hkeys hfuel
    obtain ⟨n0, hn0, hpar0⟩ := hanc
    cases fuel with
    | zero => omega
    | succ f =>
      refine ⟨s, ?_, rfl, rfl, rfl, rfl, rfl, rfl, fun q h => h,
        fun q n h => ⟨n, h, rfl, rfl, rfl, rfl, rfl, rfl, fun _ => rfl⟩, ⟨n0, hn0, hpar0⟩⟩
      simp only [maintainParent, hn0, hpar0]
      simp [IX_NO_PAGE]
  | cons a rest ih =>
    intro s fuel p hanc hkeys hfuel
    obtain ⟨⟨n0, hn0, hpar0⟩, ⟨par, hpar, hpl, hpk, hplen, hpc, hpcl, hpcd⟩, ha0, haN,
      hanr, hrest⟩ := hanc
    obtain ⟨n0', hn0', hkne⟩ := hkeys
    rw [hn0] at hn0'
    cases hn0'
    cases fuel with
    | zero => simp at hfuel
    | succ f =>
      have hpa : p ≠ a := by
        obtain ⟨rd, hrd, hrdp⟩ := hpc
        intro heq
        exact (hpcd rd hrd).1 (by rw [hrdp, heq])
      -- find_child succeeds
      obtain ⟨rank, x, hfind, hranklt, hxget, hxp⟩ :=
        findIdx?_of_mem (f := fun r : Rid => decide (r.page_no = p))
          (by obtain ⟨rd, hrd, hrdp⟩ := hpc; exact ⟨rd, hrd, by simp [hrdp]⟩)
      have hrankk : rank < par.keys.length := by omega
      obtain ⟨pk, hpkget⟩ : ∃ pk, par.keys.get? rank = some pk :=
        ⟨_, List.get?_eq_get hrankk⟩
      obtain ⟨ck, hckget⟩ : ∃ ck, n0.keys.get? 0 = some ck := by
        cases hc : n0.keys with
        | nil => exact absurd hc hkne
        | cons c t => exact ⟨c, rfl⟩
      by_cases heq : pk = ck
      · -- keys already agree: stop
        refine ⟨s, ?_, rfl, rfl, rfl, rfl, rfl, rfl, fun q h => h,
          fun q n h => ⟨n, h, rfl, rfl, rfl, rfl, rfl, rfl, fun _ => rfl⟩,
          ⟨⟨n0, hn0, hpar0⟩, ⟨par, hpar, hpl, hpk, hplen, hpc, hpcl, hpcd⟩, ha0, haN,
            hanr, hrest⟩⟩
        simp only [maintainParent, hn0, hpar0]
        rw [if_neg (by simp only [IX_NO_PAGE]; omega)]
        simp only [hpar, findChild, hfind, hpkget, hckget]
        rw [if_pos heq]
      · -- overwrite the separator and climb
        set par1 : IxNode K := { par with keys := par.keys.set rank ck } with hpar1def
        set s1 : IxState K := setPage s a par1 with hs1def
        have hs1a : s1.pages a = some par1 := by simp [hs1def, setPage]
        have hs1other : ∀ q, q ≠ a → s1.pages q = s.pages q := by
          intro q hq
          simp [hs1def, setPage, hq]
        have hs1live : ∀ q, (s.pages q).isSome = true → (s1.pages q).isSome = true := by
          intro q hq
          by_cases hqa : q = a
          · subst hqa; simp [hs1a]
          · rw [hs1other q hqa]; exact hq
        have hanc1 : ancChain s1 a rest := by
          refine ancChain_stable (by simp [hs1def, setPage]) hs1live rest a hrest ?_ ?_
          · intro x hx
            exact hs1other x (fun hxa => hanr (hxa ▸ hx))
          · exact ⟨par, par1, hpar, hs1a, rfl⟩
        have hkeys1 : ∃ n, s1.pages a = some n ∧ n.keys ≠ [] := by
          refine ⟨par1, hs1a, ?_⟩
          have : par1.keys.length = par.keys.length := by simp [hpar1def]
          intro hnil
          rw [hnil] at this
          simp at this
          omega
        obtain ⟨s', hrun, hroot, hfirst, hlast, hnum, hnext, hmax, hnone, hsome, hanc'⟩ :=
          ih s1 f a hanc1 hkeys1 (by simp at hfuel; omega)
        have hs1none : ∀ q, s.pages q = none → s1.pages q = none := by
          intro q hq
          by_cases hqa : q = a
          · subst hqa; rw [hpar] at hq; cases hq
          · rw [hs1other q hqa]; exact hq
        have hshape : ∀ q n, s.pages q = some n → ∃ n', s'.pages q = some n' ∧
            n'.is_leaf = n.is_leaf ∧ n'.parent = n.parent ∧ n'.prev_leaf = n.prev_leaf ∧
            n'.next_leaf = n.next_leaf ∧ n'.keys.length = n.keys.length ∧ n'.rids = n.rids ∧
            (n.is_leaf = true → n' = n) := by
          intro q n hq
          by_cases hqa : q = a
          · subst hqa
            rw [hpar] at hq
            cases hq
            obtain ⟨n', hn', e1, e2, e3, e4, e5, e6, _⟩ := hsome _ par1 hs1a
            exact ⟨n', hn', by simp [hpar1def] at e1 ⊢; exact e1,
              by simpa [hpar1def] using e2, by simpa [hpar1def] using e3,
              by simpa [hpar1def] using e4,
              by simp [hpar1def] at e5 ⊢; omega, by simpa [hpar1def] using e6,
              fun hleaf => absurd hpl (by simp [hleaf])⟩
          · exact hsome q n (by rw [hs1other q hqa]; exact hq)
        refine ⟨s', ?_, hroot, hfirst, hlast, hnum,
          by rw [hnext]; simp [hs1def, setPage], hmax,
          fun q hq => hnone q (hs1none q hq), hshape, ?_⟩
        · simp only [maintainParent, hn0, hpar0]
          rw [if_neg (by simp only [IX_NO_PAGE]; omega)]
          simp only [hpar, findChild, hfind, hpkget, hckget]
          rw [if_neg heq]
          exact hrun
        · -- rebuild the full chain in s'
          obtain ⟨par'', hpar'', e1, e2, e3, e4, e5, e6, _⟩ := hsome a par1 hs1a
          obtain ⟨n0'', hn0'', f1, f2, _, _, _, _, _⟩ :=
            hshape p n0 hn0
          refine ⟨⟨n0'', hn0'', by rw [f2, hpar0]⟩,
            ⟨par'', hpar'', by rw [e1]; simp [hpar1def, hpl], ?_, ?_, ?_, ?_, ?_⟩,
            ha0, by rw [hnext]; simpa [hs1def, setPage] using haN, hanr, hanc'⟩
          · rw [e5]
            simp [hpar1def]
            omega
          · rw [e5, e6]
            simp [hpar1def]
            omega
          · rw [e6]
            simpa [hpar1def] using hpc
          · intro rd hrd
            rw [e6] at hrd
            simp only [hpar1def] at hrd
            have hlv := hpcl rd hrd
            by_cases hrda : rd.page_no = a
            · rw [hrda, hpar''] ; simp
            · have h1 : s1.pages rd.page_no = s.pages rd.page_no := hs1other _ hrda
              cases hq : s.pages rd.page_no with
              | none => rw [hq] at hlv; simp at hlv
              | some m =>
                obtain ⟨m', hm', _⟩ := hsome rd.page_no m (by rw [h1]; exact hq)
                simp [hm']
          · intro rd hrd
            rw [e6] at hrd
            exact hpcd rd (by simpa [hpar1def] using hrd)
end BPT

namespace BPT

variable {K : Type}

/-- Running the `maintain_child` loop of `split_node` over any index
list into the node's child array: every touched page only has its
parent pointer redirected to `pp`; pages that are not children of `pp`
are untouched. -/
lemma maintainChildren_run :
    ∀ (idxs : List Nat) (s : IxState K) (pp : Int) (sib : IxNode K),
    s.pages pp = some sib → sib.is_leaf = false →
    (∀ rd ∈ sib.rids, (s.pages rd.page_no).isSome = true) →
    (∀ rd ∈ sib.rids, rd.page_no ≠ pp) →
    (∀ i ∈ idxs, i < sib.rids.length) →
    ∃ s', maintainChildren s pp idxs = Except.ok s' ∧
      s'.root_page = s.root_page ∧ s'.first_leaf = s.first_leaf ∧
      s'.last_leaf = s.last_leaf ∧ s'.num_pages = s.num_pages ∧
      s'.nextPageNo = s.nextPageNo ∧ s'.maxSize = s.maxSize ∧
      s'.pages pp = some sib ∧
      (∀ q, s.pages q = none → s'.pages q = none) ∧
      (∀ q n, s.pages q = some n → ∃ n', s'.pages q = some n' ∧
        n'.is_leaf = n.is_leaf ∧ n'.prev_leaf = n.prev_leaf ∧ n'.next_leaf = n.next_leaf ∧
        n'.keys = n.keys ∧ n'.rids = n.rids ∧
        (n'.parent = n.parent ∨ n'.parent = pp)) ∧
      (∀ q, (∀ rd ∈ sib.rids, q ≠ rd.page_no) → s'.pages q = s.pages q) := by
  intro idxs
  induction idxs with
  | nil =>
    intro s pp sib hsib hsl hlive hne hidx
    exact ⟨s, rfl, rfl, rfl, rfl, rfl, rfl, rfl, hsib, fun q h => h,
      fun q n h => ⟨n, h, rfl, rfl, rfl, rfl, rfl, Or.inl rfl⟩, fun q _ => rfl⟩
  | cons i rest ih =>
    intro s pp sib hsib hsl hlive hne hidx
    have hilt : i < sib.rids.length := hidx i (List.mem_cons_self i rest)
    obtain ⟨rd, hrd⟩ : ∃ rd, sib.rids.get? i = some rd := ⟨_, List.get?_eq_get hilt⟩
    have hrdmem : rd ∈ sib.rids := List.get?_mem hrd
    have hlv := hlive rd hrdmem
    cases hcp : s.pages rd.page_no with
    | none => rw [hcp] at hlv; simp at hlv
    | some child =>
      set s1 : IxState K := setPage s rd.page_no { child with parent := pp } with hs1def
      have hs1c : s1.pages rd.page_no = some { child with parent := pp } := by
        simp [hs1def, setPage]
      have hs1other : ∀ q, q ≠ rd.page_no → s1.pages q = s.pages q := by
        intro q hq
        simp [hs1def, setPage, hq]
      have hs1sib : s1.pages pp = some sib := by
        rw [hs1other pp (fun h => hne rd hrdmem h.symm)]
        exact hsib
      have hstep : maintainChild s pp i = Except.ok s1 := by
        unfold maintainChild valueAt
        simp only [hsib, hsl, Bool.false_eq_true, if_false, hrd, Option.map_some', hcp]
      obtain ⟨s', hrun, hroot, hfirst, hlast, hnum, hnext, hmax, hsib', hnone, hshape,
        hunt⟩ := ih s1 pp sib hs1sib hsl
        (fun rd2 hrd2 => by
          by_cases hq : rd2.page_no = rd.page_no
          · rw [hq, hs1c]; rfl
          · rw [hs1other _ hq]; exact hlive rd2 hrd2)
        hne (fun j hj => hidx j (List.mem_cons_of_mem i hj))
      refine ⟨s', ?_, hroot, hfirst, hlast, hnum,
        by rw [hnext]; simp [hs1def, setPage], hmax, hsib', ?_, ?_, ?_⟩
      · rw [maintainChildren, hstep]
        exact hrun
      · intro q hq
        apply hnone
        by_cases hqc : q = rd.page_no
        · rw [hqc] at hq
          rw [hcp] at hq
          cases hq
        · rw [hs1other q hqc]
          exact hq
      · intro q n hq
        by_cases hqc : q = rd.page_no
        · subst hqc
          rw [hcp] at hq
          cases hq
          obtain ⟨n', hn', e1, e2, e3, e4, e5, e6⟩ := hshape _ _ hs1c
          refine ⟨n', hn', e1, e2, e3, e4, e5, ?_⟩
          rcases e6 with h | h
          · exact Or.inr (by simpa using h)
          · exact Or.inr h
        · obtain ⟨n', hn', e1, e2, e3, e4, e5, e6⟩ := hshape q n
            (by rw [hs1other q hqc]; exact hq)
          exact ⟨n', hn', e1, e2, e3, e4, e5, e6⟩
      · intro q hq
        rw [hunt q hq, hs1other q (hq rd hrdmem)]

end BPT


namespace BPT

variable {K : Type}

lemma setPage_pages (s : IxState K) (p : Int) (n : IxNode K) (q : Int) :
    (setPage s p n).pages q = if q = p then some n else s.pages q := rfl

lemma setPage_root (s : IxState K) (p : Int) (n : IxNode K) :
    (setPage s p n).root_page = s.root_page := rfl

lemma setPage_first (s : IxState K) (p : Int) (n : IxNode K) :
    (setPage s p n).first_leaf = s.first_leaf := rfl

lemma setPage_last (s : IxState K) (p : Int) (n : IxNode K) :
    (setPage s p n).last_leaf = s.last_leaf := rfl

lemma setPage_num (s : IxState K) (p : Int) (n : IxNode K) :
    (setPage s p n).num_pages = s.num_pages := rfl

lemma setPage_next (s : IxState K) (p : Int) (n : IxNode K) :
    (setPage s p n).nextPageNo = s.nextPageNo := rfl

lemma setPage_max (s : IxState K) (p : Int) (n : IxNode K) :
    (setPage s p n).maxSize = s.maxSize := rfl

end BPT


namespace BPT

variable {K : Type}

/-- Effect of `split_node` on a page with parallel key/rid arrays: the
upper half of the keys (from `get_min_size()`) moves to a fresh sibling
page `s.nextPageNo`; the original page keeps the lower half; for a leaf
the chain is stitched through the sibling; for an internal node the
moved children are re-parented; no other page's keys change, and pages
that are neither the split page, its next leaf, nor one of its children
are untouched. -/
lemma splitNode_run {s : IxState K} {p : Int} {node : IxNode K}
    (hnode : s.pages p = some node)
    (hlen : node.keys.length = node.rids.length)
    (hp0 : 0 ≤ p) (hpN : p < s.nextPageNo)
    (hfresh : ∀ q, s.nextPageNo ≤ q → s.pages q = none)
    (hnlp : node.is_leaf = true → node.next_leaf ≠ p)
    (hnl : node.is_leaf = true →
      node.next_leaf = IX_NO_PAGE ∨ (s.pages node.next_leaf).isSome = true)
    (hch : node.is_leaf = false →
      (∀ rd ∈ node.rids, (s.pages rd.page_no).isSome = true) ∧
      (∀ rd ∈ node.rids, rd.page_no ≠ p)) :
    ∃ s' np ns, splitNode s p = Except.ok (s', s.nextPageNo) ∧
      s'.root_page = s.root_page ∧ s'.first_leaf = s.first_leaf ∧
      s'.last_leaf = s.last_leaf ∧ s'.num_pages = s.num_pages + 1 ∧
      s'.nextPageNo = s.nextPageNo + 1 ∧ s'.maxSize = s.maxSize ∧
      s'.pages p = some np ∧
      np.is_leaf = node.is_leaf ∧ np.parent = node.parent ∧
      np.keys = node.keys.take (s.maxSize / 2) ∧
      np.rids = node.rids.take (s.maxSize / 2) ∧
      (node.is_leaf = true → np.next_leaf = s.nextPageNo) ∧
      (node.is_leaf = false → np.next_leaf = node.next_leaf ∧ np.prev_leaf = node.prev_leaf) ∧
      s'.pages s.nextPageNo = some ns ∧
      ns.is_leaf = node.is_leaf ∧ ns.parent = node.parent ∧
      ns.keys = node.keys.drop (s.maxSize / 2) ∧
      ns.rids = node.rids.drop (s.maxSize / 2) ∧
      (node.is_leaf = true → ns.prev_leaf = p ∧ ns.next_leaf = node.next_leaf) ∧
      (∀ q, s.pages q = none → q ≠ s.nextPageNo → s'.pages q = none) ∧
      (∀ q, (s.pages q).isSome = true → (s'.pages q).isSome = true) ∧
      (∀ q, s'.nextPageNo ≤ q → s'.pages q = none) ∧
      (∀ q n, s.pages q = some n → q ≠ p → ∃ n', s'.pages q = some n' ∧
        n'.is_leaf = n.is_leaf ∧ n'.keys = n.keys ∧ n'.rids = n.rids ∧
        (node.is_leaf = true → n'.parent = n.parent)) ∧
      (∀ q, q ≠ p → q < s.nextPageNo →
        (node.is_leaf = true → q ≠ node.next_leaf) →
        (∀ rd ∈ node.rids, q ≠ rd.page_no) → s'.pages q = s.pages q) := by
  have hpnew : p ≠ s.nextPageNo := by omega
  have hpnew' : s.nextPageNo ≠ p := by omega
  by_cases hl : node.is_leaf = true
  · -- leaf split
    have hnlne : node.next_leaf ≠ p := hnlp hl
    have hnlnewP : node.next_leaf ≠ s.nextPageNo := by
      rcases hnl hl with h | h
      · rw [h]; simp only [IX_NO_PAGE]; omega
      · intro heq
        rw [heq, hfresh s.nextPageNo (le_refl _)] at h
        simp at h
    by_cases hnlno : node.next_leaf = IX_NO_PAGE
    · -- leaf with no next page to stitch
      have heval : splitNode s p = Except.ok (setPage (setPage (setPage (setPage (setPage
          { s with num_pages := s.num_pages + 1, nextPageNo := s.nextPageNo + 1 }
          s.nextPageNo (zeroNode K))
          s.nextPageNo { zeroNode K with prev_leaf := p, next_leaf := node.next_leaf })
          p { node with next_leaf := s.nextPageNo })
          s.nextPageNo
          { is_leaf := node.is_leaf, parent := node.parent, prev_leaf := p,
            next_leaf := node.next_leaf, keys := node.keys.drop (s.maxSize / 2),
            rids := node.rids.drop (s.maxSize / 2) })
          p { is_leaf := node.is_leaf, parent := node.parent, prev_leaf := node.prev_leaf,
              next_leaf := s.nextPageNo, keys := node.keys.take (s.maxSize / 2),
              rids := node.rids.take (s.maxSize / 2) },
          s.nextPageNo) := by
        simp only [splitNode, createNewNode, hnode, hl, if_true, hnlno, minSize, insertPairs,
          setPage_pages, setPage_max, setPage_next, if_pos rfl, if_neg hpnew, if_neg hpnew',
          zeroNode, List.take_nil, List.drop_nil, List.nil_append, List.append_nil, ne_eq,
          not_true_eq_false, Bool.false_eq_true, if_false, List.length_nil, gt_iff_lt,
          lt_self_iff_false]
      refine ⟨_,
        { is_leaf := node.is_leaf, parent := node.parent, prev_leaf := node.prev_leaf,
          next_leaf := s.nextPageNo, keys := node.keys.take (s.maxSize / 2),
          rids := node.rids.take (s.maxSize / 2) },
        { is_leaf := node.is_leaf, parent := node.parent, prev_leaf := p,
          next_leaf := node.next_leaf, keys := node.keys.drop (s.maxSize / 2),
          rids := node.rids.drop (s.maxSize / 2) },
        heval, rfl, rfl, rfl, rfl, rfl, rfl, ?_, rfl, rfl, rfl, rfl, fun _ => rfl,
        fun hml => absurd hl (by simp [hml]), ?_, rfl, rfl, rfl, rfl,
        fun _ => ⟨rfl, rfl⟩, ?_, ?_, ?_, ?_, ?_⟩
      · rw [setPage_pages, if_pos rfl]
      · rw [setPage_pages, if_neg hpnew', setPage_pages, if_pos rfl]
      · intro q hq hqnew
        by_cases hqp : q = p
        · subst hqp; rw [hnode] at hq; cases hq
        · rw [setPage_pages, if_neg hqp, setPage_pages, if_neg hqnew, setPage_pages,
            if_neg hqp, setPage_pages, if_neg hqnew, setPage_pages, if_neg hqnew]
          exact hq
      · intro q hq
        by_cases h1 : q = p
        · subst h1; rw [setPage_pages, if_pos rfl]; rfl
        · by_cases h2 : q = s.nextPageNo
          · subst h2; rw [setPage_pages, if_neg hpnew', setPage_pages, if_pos rfl]; rfl
          · rw [setPage_pages, if_neg h1, setPage_pages, if_neg h2, setPage_pages, if_neg h1,
              setPage_pages, if_neg h2, setPage_pages, if_neg h2]
            exact hq
      · intro q hq
        have hq1 : s.nextPageNo + 1 ≤ q := hq
        rw [setPage_pages, if_neg (by omega : ¬ q = p), setPage_pages,
          if_neg (by omega : ¬ q = s.nextPageNo), setPage_pages, if_neg (by omega : ¬ q = p),
          setPage_pages, if_neg (by omega : ¬ q = s.nextPageNo), setPage_pages,
          if_neg (by omega : ¬ q = s.nextPageNo)]
        exact hfresh q (by omega)
      · intro q n hq hqp
        by_cases h2 : q = s.nextPageNo
        · subst h2
          rw [hfresh _ (le_refl _)] at hq
          cases hq
        · refine ⟨n, ?_, rfl, rfl, rfl, fun _ => rfl⟩
          rw [setPage_pages, if_neg hqp, setPage_pages, if_neg h2, setPage_pages, if_neg hqp,
            setPage_pages, if_neg h2, setPage_pages, if_neg h2]
          exact hq
      · intro q hqp hqlt _ _
        rw [setPage_pages, if_neg hqp, setPage_pages, if_neg (by omega : ¬ q = s.nextPageNo),
          setPage_pages, if_neg hqp, setPage_pages, if_neg (by omega : ¬ q = s.nextPageNo),
          setPage_pages, if_neg (by omega : ¬ q = s.nextPageNo)]
    · -- leaf with a live next leaf to stitch
      have hnlsome : ∃ nl, s.pages node.next_leaf = some nl := by
        rcases hnl hl with h | h
        · exact absurd h hnlno
        · cases hx : s.pages node.next_leaf with
          | none => rw [hx] at h; simp at h
          | some nl => exact ⟨nl, rfl⟩
      obtain ⟨nl, hnlget⟩ := hnlsome
      have hnlne' : p ≠ node.next_leaf := fun h => hnlne h.symm
      have hnlnewP' : s.nextPageNo ≠ node.next_leaf := fun h => hnlnewP h.symm
      have heval : splitNode s p = Except.ok (setPage (setPage (setPage (setPage (setPage
          (setPage
          { s with num_pages := s.num_pages + 1, nextPageNo := s.nextPageNo + 1 }
          s.nextPageNo (zeroNode K))
          s.nextPageNo { zeroNode K with prev_leaf := p, next_leaf := node.next_leaf })
          p { node with next_leaf := s.nextPageNo })
          node.next_leaf { nl with prev_leaf := s.nextPageNo })
          s.nextPageNo
          { is_leaf := node.is_leaf, parent := node.parent, prev_leaf := p,
            next_leaf := node.next_leaf, keys := node.keys.drop (s.maxSize / 2),
            rids := node.rids.drop (s.maxSize / 2) })
          p { is_leaf := node.is_leaf, parent := node.parent, prev_leaf := node.prev_leaf,
              next_leaf := s.nextPageNo, keys := node.keys.take (s.maxSize / 2),
              rids := node.rids.take (s.maxSize / 2) },
          s.nextPageNo) := by
        simp only [splitNode, createNewNode, hnode, hl, if_true, minSize, insertPairs,
          setPage_pages, setPage_max, setPage_next, if_pos rfl, if_neg hpnew, if_neg hpnew',
          if_neg hnlne, if_neg hnlnewP, if_neg hnlne', if_neg hnlnewP', hnlget, zeroNode,
          List.take_nil, List.drop_nil,
          List.nil_append, List.append_nil, ne_eq, hnlno, not_false_eq_true,
          Bool.false_eq_true, if_false, List.length_nil, gt_iff_lt, lt_self_iff_false]
      refine ⟨_,
        { is_leaf := node.is_leaf, parent := node.parent, prev_leaf := node.prev_leaf,
          next_leaf := s.nextPageNo, keys := node.keys.take (s.maxSize / 2),
          rids := node.rids.take (s.maxSize / 2) },
        { is_leaf := node.is_leaf, parent := node.parent, prev_leaf := p,
          next_leaf := node.next_leaf, keys := node.keys.drop (s.maxSize / 2),
          rids := node.rids.drop (s.maxSize / 2) },
        heval, rfl, rfl, rfl, rfl, rfl, rfl, ?_, rfl, rfl, rfl, rfl, fun _ => rfl,
        fun hml => absurd hl (by simp [hml]), ?_, rfl, rfl, rfl, rfl,
        fun _ => ⟨rfl, rfl⟩, ?_, ?_, ?_, ?_, ?_⟩
      · rw [setPage_pages, if_pos rfl]
      · rw [setPage_pages, if_neg hpnew', setPage_pages, if_pos rfl]
      · intro q hq hqnew
        have hqnl : q ≠ node.next_leaf := by
          intro heq
          rw [heq, hnlget] at hq
          cases hq
        by_cases hqp : q = p
        · subst hqp; rw [hnode] at hq; cases hq
        · rw [setPage_pages, if_neg hqp, setPage_pages, if_neg hqnew, setPage_pages,
            if_neg hqnl, setPage_pages, if_neg hqp, setPage_pages, if_neg hqnew,
            setPage_pages, if_neg hqnew]
          exact hq
      · intro q hq
        by_cases h1 : q = p
        · subst h1; rw [setPage_pages, if_pos rfl]; rfl
        · by_cases h2 : q = s.nextPageNo
          · subst h2; rw [setPage_pages, if_neg hpnew', setPage_pages, if_pos rfl]; rfl
          · by_cases h3 : q = node.next_leaf
            · subst h3
              rw [setPage_pages, if_neg h1, setPage_pages, if_neg h2, setPage_pages,
                if_pos rfl]
              rfl
            · rw [setPage_pages, if_neg h1, setPage_pages, if_neg h2, setPage_pages,
                if_neg h3, setPage_pages, if_neg h1, setPage_pages, if_neg h2,
                setPage_pages, if_neg h2]
              exact hq
      · intro q hq
        have hq1 : s.nextPageNo + 1 ≤ q := hq
        have hqnl : ¬ q = node.next_leaf := by
          intro heq
          have := hfresh node.next_leaf (by omega)
          rw [this] at hnlget
          cases hnlget
        rw [setPage_pages, if_neg (by omega : ¬ q = p), setPage_pages,
          if_neg (by omega : ¬ q = s.nextPageNo), setPage_pages, if_neg hqnl,
          setPage_pages, if_neg (by omega : ¬ q = p), setPage_pages,
          if_neg (by omega : ¬ q = s.nextPageNo), setPage_pages,
          if_neg (by omega : ¬ q = s.nextPageNo)]
        exact hfresh q (by omega)
      · intro q n hq hqp
        by_cases h2 : q = s.nextPageNo
        · subst h2
          rw [hfresh _ (le_refl _)] at hq
          cases hq
        · by_cases h3 : q = node.next_leaf
          · subst h3
            rw [hnlget] at hq
            cases hq
            refine ⟨{ nl with prev_leaf := s.nextPageNo }, ?_, rfl, rfl, rfl, fun _ => rfl⟩
            rw [setPage_pages, if_neg hqp, setPage_pages, if_neg h2, setPage_pages,
              if_pos rfl]
          · refine ⟨n, ?_, rfl, rfl, rfl, fun _ => rfl⟩
            rw [setPage_pages, if_neg hqp, setPage_pages, if_neg h2, setPage_pages,
              if_neg h3, setPage_pages, if_neg hqp, setPage_pages, if_neg h2,
              setPage_pages, if_neg h2]
            exact hq
      · intro q hqp hqlt hqnlf _
        have hqnl : ¬ q = node.next_leaf := hqnlf hl
        rw [setPage_pages, if_neg hqp, setPage_pages, if_neg (by omega : ¬ q = s.nextPageNo),
          setPage_pages, if_neg hqnl, setPage_pages, if_neg hqp, setPage_pages,
          if_neg (by omega : ¬ q = s.nextPageNo), setPage_pages,
          if_neg (by omega : ¬ q = s.nextPageNo)]
  · -- internal split
    have hl' : node.is_leaf = false := by simpa using hl
    obtain ⟨hclive, hcne⟩ := hch hl'
    have heval : splitNode s p = (match maintainChildren (setPage (setPage (setPage
        { s with num_pages := s.num_pages + 1, nextPageNo := s.nextPageNo + 1 }
        s.nextPageNo (zeroNode K))
        s.nextPageNo
        { is_leaf := node.is_leaf, parent := node.parent,
          prev_leaf := (zeroNode K).prev_leaf, next_leaf := (zeroNode K).next_leaf,
          keys := node.keys.drop (s.maxSize / 2), rids := node.rids.drop (s.maxSize / 2) })
        p { is_leaf := node.is_leaf, parent := node.parent, prev_leaf := node.prev_leaf,
            next_leaf := node.next_leaf, keys := node.keys.take (s.maxSize / 2),
            rids := node.rids.take (s.maxSize / 2) })
        s.nextPageNo (List.range (node.keys.drop (s.maxSize / 2)).length) with
      | Except.error e => Except.error e
      | Except.ok s7 => Except.ok (s7, s.nextPageNo)) := by
      simp only [splitNode, createNewNode, hnode, hl', minSize, insertPairs,
        setPage_pages, setPage_max, setPage_next, if_pos rfl, if_true, if_neg hpnew,
        if_neg hpnew', zeroNode, List.take_nil, List.drop_nil, List.nil_append,
        List.append_nil, ne_eq, Bool.false_eq_true, if_false, List.length_nil, gt_iff_lt,
        lt_self_iff_false]
    obtain ⟨s7, hmc, hroot7, hfirst7, hlast7, hnum7, hnext7, hmax7, hsib7, hnone7,
      hshape7, hunt7⟩ := maintainChildren_run
        (List.range (node.keys.drop (s.maxSize / 2)).length)
        (setPage (setPage (setPage
          { s with num_pages := s.num_pages + 1, nextPageNo := s.nextPageNo + 1 }
          s.nextPageNo (zeroNode K))
          s.nextPageNo
          { is_leaf := node.is_leaf, parent := node.parent,
            prev_leaf := (zeroNode K).prev_leaf, next_leaf := (zeroNode K).next_leaf,
            keys := node.keys.drop (s.maxSize / 2), rids := node.rids.drop (s.maxSize / 2) })
          p { is_leaf := node.is_leaf, parent := node.parent, prev_leaf := node.prev_leaf,
              next_leaf := node.next_leaf, keys := node.keys.take (s.maxSize / 2),
              rids := node.rids.take (s.maxSize / 2) })
        s.nextPageNo
        { is_leaf := node.is_leaf, parent := node.parent,
          prev_leaf := (zeroNode K).prev_leaf, next_leaf := (zeroNode K).next_leaf,
          keys := node.keys.drop (s.maxSize / 2), rids := node.rids.drop (s.maxSize / 2) }
        (by rw [setPage_pages, if_neg hpnew', setPage_pages, if_pos rfl])
        hl'
        (by
          intro rd hrd
          simp only at hrd
          have hrdmem : rd ∈ node.rids := List.mem_of_mem_drop hrd
          have hlv := hclive rd hrdmem
          by_cases h1 : rd.page_no = p
          · rw [setPage_pages, if_pos h1]; rfl
          · have h2 : rd.page_no ≠ s.nextPageNo := by
              intro heq
              rw [heq, hfresh s.nextPageNo (le_refl _)] at hlv
              simp at hlv
            rw [setPage_pages, if_neg h1, setPage_pages, if_neg h2, setPage_pages, if_neg h2]
            exact hlv)
        (by
          intro rd hrd
          simp only at hrd
          have hrdmem : rd ∈ node.rids := List.mem_of_mem_drop hrd
          have hlv := hclive rd hrdmem
          intro heq
          rw [heq, hfresh s.nextPageNo (le_refl _)] at hlv
          simp at hlv)
        (by
          intro i hi
          simp only [List.mem_range] at hi
          simp only [List.length_drop] at hi ⊢
          omega)
    refine ⟨s7,
      { is_leaf := node.is_leaf, parent := node.parent, prev_leaf := node.prev_leaf,
        next_leaf := node.next_leaf, keys := node.keys.take (s.maxSize / 2),
        rids := node.rids.take (s.maxSize / 2) },
      { is_leaf := node.is_leaf, parent := node.parent,
        prev_leaf := (zeroNode K).prev_leaf, next_leaf := (zeroNode K).next_leaf,
        keys := node.keys.drop (s.maxSize / 2), rids := node.rids.drop (s.maxSize / 2) },
      ?_, ?_, ?_, ?_, ?_, ?_, ?_, ?_, rfl, rfl, rfl, rfl,
      fun hml => absurd hml (by simp [hl']),
      fun _ => ⟨rfl, rfl⟩, hsib7, rfl, rfl, rfl, rfl,
      fun hml => absurd hml (by simp [hl']), ?_, ?_, ?_, ?_, ?_⟩
    · rw [heval, hmc]
    · rw [hroot7]; rfl
    · rw [hfirst7]; rfl
    · rw [hlast7]; rfl
    · rw [hnum7]; rfl
    · rw [hnext7]; rfl
    · rw [hmax7]; rfl
    · have := hunt7 p (by
        intro rd hrd
        simp only at hrd
        exact fun h => hcne rd (List.mem_of_mem_drop hrd) h.symm)
      rw [this, setPage_pages, if_pos rfl]
    · intro q hq hqnew
      apply hnone7
      by_cases hqp : q = p
      · subst hqp; rw [hnode] at hq; cases hq
      · rw [setPage_pages, if_neg hqp, setPage_pages, if_neg hqnew, setPage_pages,
          if_neg hqnew]
        exact hq
    · intro q hq
      by_cases h1 : q = p
      · subst h1
        have := hunt7 q (by
          intro rd hrd
          simp only at hrd
          exact fun h => hcne rd (List.mem_of_mem_drop hrd) h.symm)
        rw [this, setPage_pages, if_pos rfl]
        rfl
      · by_cases h2 : q = s.nextPageNo
        · subst h2; rw [hsib7]; rfl
        · cases hx : s.pages q with
          | none => rw [hx] at hq; simp at hq
          | some m =>
            obtain ⟨m', hm', _⟩ := hshape7 q m (by
              rw [setPage_pages, if_neg h1, setPage_pages, if_neg h2, setPage_pages,
                if_neg h2]
              exact hx)
            rw [hm']
            rfl
    · intro q hq
      rw [hnext7] at hq
      have hq1 : s.nextPageNo + 1 ≤ q := hq
      apply hnone7
      rw [setPage_pages, if_neg (by omega : ¬ q = p), setPage_pages,
        if_neg (by omega : ¬ q = s.nextPageNo), setPage_pages,
        if_neg (by omega : ¬ q = s.nextPageNo)]
      exact hfresh q (by omega)
    · intro q n hq hqp
      by_cases h2 : q = s.nextPageNo
      · subst h2
        rw [hfresh _ (le_refl _)] at hq
        cases hq
      · obtain ⟨n', hn', e1, _, _, e4, e5, _⟩ := hshape7 q n (by
          rw [setPage_pages, if_neg hqp, setPage_pages, if_neg h2, setPage_pages, if_neg h2]
          exact hq)
        exact ⟨n', hn', e1, e4, e5, fun hml => absurd hml (by simp [hl'])⟩
    · intro q hqp hqlt _ hqch
      have := hunt7 q (by
        intro rd hrd
        simp only at hrd
        exact hqch rd (List.mem_of_mem_drop hrd))
      rw [this, setPage_pages, if_neg hqp, setPage_pages,
        if_neg (by omega : ¬ q = s.nextPageNo), setPage_pages,
        if_neg (by omega : ¬ q = s.nextPageNo)]

end BPT

namespace BPT

variable {K : Type}

lemma ancChain_mem_bounds {s : IxState K} :
    ∀ (A : List Int) (p : Int), ancChain s p A → ∀ x ∈ A, 0 ≤ x ∧ x < s.nextPageNo := by
  intro A
  induction A with
  | nil => intro p _ x hx; exact absurd hx (by simp)
  | cons a rest ih =>
    intro p hanc x hx
    obtain ⟨_, _, ha0, haN, _, hrest⟩ := hanc
    rcases List.mem_cons.mp hx with rfl | hx2
    · exact ⟨ha0, haN⟩
    · exact ih a hrest x hx2

end BPT

namespace BPT

variable {K : Type}

/-- Running `insert_into_parent` up a well-formed ancestor chain
succeeds, never shrinks the page range, never kills a page, and
preserves the keys, rids and leaf flag of every leaf page (only parent
pointers of leaves can change). -/
lemma insertIntoParent_run [LinearOrder K] :
    ∀ (A : List Int) (fuel : Nat) (s : IxState K) (oldP newP : Int) (key : K),
    ancChain s oldP A →
    (∃ n, s.pages oldP = some n ∧ n.keys ≠ []) →
    (∃ m, s.pages newP = some m) →
    newP ∉ oldP :: A →
    (∀ q, s.nextPageNo ≤ q → s.pages q = none) →
    2 ≤ s.maxSize →
    A.length < fuel →
    ∃ s', insertIntoParent fuel s oldP key newP = Except.ok s' ∧
      s.nextPageNo ≤ s'.nextPageNo ∧ s'.maxSize = s.maxSize ∧
      s'.first_leaf = s.first_leaf ∧ s'.last_leaf = s.last_leaf ∧
      (∀ q, s'.nextPageNo ≤ q → s'.pages q = none) ∧
      (∀ q, (s.pages q).isSome = true → (s'.pages q).isSome = true) ∧
      (∀ q n, s.pages q = some n → n.is_leaf = true →
        ∃ n', s'.pages q = some n' ∧ n'.is_leaf = true ∧ n'.keys = n.keys ∧
          n'.rids = n.rids) ∧
      ((∀ x ∈ A, ∀ n, s.pages x = some n → n.parent ≠ IX_NO_PAGE →
          minSize s ≤ n.keys.length ∧ n.keys.length + 1 ≤ s.maxSize) →
        ∀ q n', s'.pages q = some n' →
          (∃ n, s.pages q = some n ∧ n'.keys.length = n.keys.length) ∨
          (minSize s ≤ n'.keys.length ∧ n'.keys.length + 1 ≤ s.maxSize) ∨
          n'.parent = IX_NO_PAGE) := by
  intro A
  induction A with
  | nil =>
    intro fuel s oldP newP key hanc hkeys hm hnew hfresh hmax hfuel
    obtain ⟨n0, hn0, hpar0⟩ := hanc
    obtain ⟨n0', hn0', hkne⟩ := hkeys
    rw [hn0] at hn0'
    cases hn0'
    obtain ⟨m, hmget⟩ := hm
    have hnewold : newP ≠ oldP := by simpa using hnew
    have hmN : newP < s.nextPageNo := by
      by_contra h
      rw [hfresh newP (by omega)] at hmget
      cases hmget
    have hnewN : newP ≠ s.nextPageNo := by omega
    obtain ⟨k0, hk0⟩ : ∃ k0, n0.keys.get? 0 = some k0 := by
      cases hc : n0.keys with
      | nil => exact absurd hc hkne
      | cons c t => exact ⟨c, rfl⟩
    cases fuel with
    | zero => simp at hfuel
    | succ f =>
      have heval : insertIntoParent (f + 1) s oldP key newP = Except.ok
          { setPage (setPage (setPage (setPage
              { s with num_pages := s.num_pages + 1, nextPageNo := s.nextPageNo + 1 }
              s.nextPageNo (zeroNode K))
              s.nextPageNo
              { is_leaf := false, parent := IX_NO_PAGE, prev_leaf := IX_NO_PAGE,
                next_leaf := IX_NO_PAGE, keys := [k0, key],
                rids := [⟨oldP, -1⟩, ⟨newP, -1⟩] })
              oldP { n0 with parent := s.nextPageNo })
              newP { m with parent := s.nextPageNo }
            with root_page := s.nextPageNo } := by
        simp only [insertIntoParent, hn0, hpar0, if_pos rfl, createNewNode, hk0,
          insertPair, insertPairs, setPage_pages, setPage_next, if_neg hnewold,
          if_neg hnewN, hmget, zeroNode, List.take_nil, List.drop_nil, List.nil_append,
          List.append_nil, List.length_nil, List.length_cons, gt_iff_lt,
          lt_self_iff_false, if_false, Nat.lt_irrefl, List.take_succ_cons, List.take_zero,
          List.drop_succ_cons, List.drop_zero, List.cons_append, List.singleton_append]
        rfl
      have hoN : oldP < s.nextPageNo := by
        by_contra h
        rw [hfresh oldP (by omega)] at hn0
        cases hn0
      refine ⟨_, heval, by show s.nextPageNo ≤ s.nextPageNo + 1; omega, rfl, rfl, rfl,
        ?_, ?_, ?_, ?_⟩
      · intro q hq
        have hq1 : s.nextPageNo + 1 ≤ q := hq
        show (setPage _ newP _).pages q = none
        simp only [setPage_pages]
        rw [if_neg (by omega : ¬ q = newP), if_neg (by omega : ¬ q = oldP),
          if_neg (by omega : ¬ q = s.nextPageNo), if_neg (by omega : ¬ q = s.nextPageNo)]
        exact hfresh q (by omega)
      · intro q hq
        show ((setPage _ newP _).pages q).isSome = true
        simp only [setPage_pages]
        by_cases h1 : q = newP
        · rw [if_pos h1]; rfl
        · rw [if_neg h1]
          by_cases h2 : q = oldP
          · rw [if_pos h2]; rfl
          · rw [if_neg h2]
            by_cases h3 : q = s.nextPageNo
            · rw [if_pos h3]; rfl
            · rw [if_neg h3, if_neg h3]
              exact hq
      · intro q n hq hleaf
        by_cases h1 : q = newP
        · subst h1
          rw [hmget] at hq
          cases hq
          refine ⟨{ m with parent := s.nextPageNo }, ?_, hleaf, rfl, rfl⟩
          show (setPage _ q _).pages q = _
          simp [setPage_pages]
        · by_cases h2 : q = oldP
          · subst h2
            rw [hn0] at hq
            cases hq
            refine ⟨{ n0 with parent := s.nextPageNo }, ?_, hleaf, rfl, rfl⟩
            show (setPage _ newP _).pages q = _
            simp [setPage_pages, h1]
          · have h3 : q ≠ s.nextPageNo := by
              intro h
              rw [hfresh q (by omega)] at hq
              cases hq
            refine ⟨n, ?_, hleaf, rfl, rfl⟩
            show (setPage _ newP _).pages q = _
            simp only [setPage_pages]
            rw [if_neg h1, if_neg h2, if_neg h3, if_neg h3]
            exact hq
      · intro _ q n' hq'
        simp only [setPage_pages] at hq'
        by_cases h1 : q = newP
        · rw [if_pos h1] at hq'
          cases hq'
          exact Or.inl ⟨m, by rw [h1]; exact hmget, rfl⟩
        · rw [if_neg h1] at hq'
          by_cases h2 : q = oldP
          · rw [if_pos h2] at hq'
            cases hq'
            exact Or.inl ⟨n0, by rw [h2]; exact hn0, rfl⟩
          · rw [if_neg h2] at hq'
            by_cases h3 : q = s.nextPageNo
            · rw [if_pos h3] at hq'
              cases hq'
              exact Or.inr (Or.inr rfl)
            · rw [if_neg h3, if_neg h3] at hq'
              exact Or.inl ⟨n', hq', rfl⟩
  | cons a rest ih =>
    intro fuel s oldP newP key hanc hkeys hm hnew hfresh hmax hfuel
    obtain ⟨⟨n0, hn0, hpar0⟩, ⟨par, hpar, hpl, hpk, hplen, hpc, hpcl, hpcd⟩, ha0, haN,
      hanr, hrest⟩ := hanc
    obtain ⟨m, hmget⟩ := hm
    have hnew' := hnew
    simp only [List.mem_cons, not_or] at hnew'
    obtain ⟨hnewold, hnewa, hnewrest⟩ := hnew'
    have hmN : newP < s.nextPageNo := by
      by_contra h
      rw [hfresh newP (by omega)] at hmget
      cases hmget
    have hane : ¬ (a = IX_NO_PAGE) := by simp only [IX_NO_PAGE]; omega
    obtain ⟨rank, rx, hfc0, hranklt, hrankget, hrankx⟩ :=
      findIdx?_of_mem (f := fun r : Rid => decide (r.page_no = oldP))
        (by obtain ⟨rd, hrdm, hrde⟩ := hpc; exact ⟨rd, hrdm, by simp [hrde]⟩)
    have hfc : findChild par oldP = some rank := hfc0
    have hranklen : rank + 1 ≤ par.keys.length := by omega
    set par1 : IxNode K := { par with
      keys := par.keys.take (rank + 1) ++ [key] ++ par.keys.drop (rank + 1),
      rids := par.rids.take (rank + 1) ++ [⟨newP, -1⟩] ++ par.rids.drop (rank + 1) }
      with hpar1def
    have hip : insertPair par (rank + 1) key ⟨newP, -1⟩ = Except.ok par1 := by
      rw [hpar1def]
      simp only [insertPair, insertPairs, gt_iff_lt]
      rw [if_neg (by omega : ¬ par.keys.length < rank + 1)]
    have hpar1k : par1.keys =
        par.keys.take (rank + 1) ++ [key] ++ par.keys.drop (rank + 1) := by rw [hpar1def]
    have hpar1r : par1.rids =
        par.rids.take (rank + 1) ++ [⟨newP, -1⟩] ++ par.rids.drop (rank + 1) := by
      rw [hpar1def]
    have hpar1klen : par1.keys.length = par.keys.length + 1 := by
      rw [hpar1k]
      simp only [List.length_append, List.length_take, List.length_drop,
        List.length_singleton]
      omega
    have hpar1rlen : par1.rids.length = par.rids.length + 1 := by
      rw [hpar1r]
      simp only [List.length_append, List.length_take, List.length_drop,
        List.length_singleton]
      omega
    have hpar1len : par1.keys.length = par1.rids.length := by omega
    have hpar1leaf : par1.is_leaf = false := by rw [hpar1def]; exact hpl
    have hpar1par : par1.parent = par.parent := by rw [hpar1def]
    have hpar1mem : ∀ rd ∈ par1.rids, rd = (⟨newP, -1⟩ : Rid) ∨ rd ∈ par.rids := by
      intro rd hrd
      rw [hpar1r] at hrd
      rcases List.mem_append.mp hrd with h1 | h2
      · rcases List.mem_append.mp h1 with h3 | h4
        · exact Or.inr (List.take_subset _ _ h3)
        · exact Or.inl (by simpa using h4)
      · exact Or.inr (List.drop_subset _ _ h2)
    set s2 : IxState K := setPage (setPage s a par1) newP { m with parent := a }
      with hs2def
    have hs2a : s2.pages a = some par1 := by
      rw [hs2def]
      simp only [setPage_pages]
      rw [if_neg (fun h => hnewa h.symm)]
      simp
    have hs2newP : s2.pages newP = some { m with parent := a } := by
      rw [hs2def]
      simp [setPage_pages]
    have hs2other : ∀ q, q ≠ newP → q ≠ a → s2.pages q = s.pages q := by
      intro q h1 h2
      rw [hs2def]
      simp only [setPage_pages]
      rw [if_neg h1, if_neg h2]
    have hs2next : s2.nextPageNo = s.nextPageNo := by rw [hs2def]; rfl
    have hs2max : s2.maxSize = s.maxSize := by rw [hs2def]; rfl
    have hs2first : s2.first_leaf = s.first_leaf := by rw [hs2def]; rfl
    have hs2last : s2.last_leaf = s.last_leaf := by rw [hs2def]; rfl
    have hs2fresh : ∀ q, s2.nextPageNo ≤ q → s2.pages q = none := by
      intro q hq
      rw [hs2next] at hq
      rw [hs2other q (by omega) (by omega)]
      exact hfresh q hq
    have hs2live : ∀ q, (s.pages q).isSome = true → (s2.pages q).isSome = true := by
      intro q hq
      by_cases h1 : q = newP
      · rw [h1, hs2newP]; rfl
      · by_cases h2 : q = a
        · rw [h2, hs2a]; rfl
        · rw [hs2other q h1 h2]; exact hq
    cases fuel with
    | zero => simp at hfuel
    | succ f =>
    have hfuel3 : rest.length < f := by
      simp only [List.length_cons] at hfuel
      omega
    by_cases hfl : par1.keys.length = s.maxSize
    · -- the parent became full: split it and recurse
      have hfull : nodeIsFull s2 par1 = true := by
        simp only [nodeIsFull, hs2max, decide_eq_true_eq]
        exact hfl
      have hpN2 : a < s2.nextPageNo := by rw [hs2next]; exact haN
      have hpar1leafT : ¬ (par1.is_leaf = true) := by rw [hpar1leaf]; simp
      have hnlp2 : par1.is_leaf = true → par1.next_leaf ≠ a :=
        fun h => absurd h hpar1leafT
      have hnl2 : par1.is_leaf = true →
          par1.next_leaf = IX_NO_PAGE ∨ (s2.pages par1.next_leaf).isSome = true :=
        fun h => absurd h hpar1leafT
      have hch2 : par1.is_leaf = false →
          (∀ rd ∈ par1.rids, (s2.pages rd.page_no).isSome = true) ∧
          (∀ rd ∈ par1.rids, rd.page_no ≠ a) := by
        intro _
        constructor
        · intro rd hrd
          rcases hpar1mem rd hrd with rfl | hmem
          · show (s2.pages newP).isSome = true
            rw [hs2newP]; rfl
          · exact hs2live _ (hpcl rd hmem)
        · intro rd hrd
          rcases hpar1mem rd hrd with rfl | hmem
          · exact hnewa
          · exact (hpcd rd hmem).1
      obtain ⟨s3, np, ns, hsp, hroot3, hfirst3, hlast3, hnum3, hnext3, hmax3, hnp,
        hnpl, hnppar, hnpk, hnpr, hnpnlL, hnpnlI, hns, hnsl, hnspar, hnsk, hnsr,
        hnsLf, hnone3, hlive3, hfresh3, hframe3, huntouch3⟩ :=
        splitNode_run hs2a hpar1len ha0 hpN2 hs2fresh hnlp2 hnl2 hch2
      rw [hs2next] at hsp hns hnext3
      rw [hs2max] at hnpk hnsk
      have hnsklen : ns.keys.length = s.maxSize - s.maxSize / 2 := by
        rw [hnsk, List.length_drop, hfl]
      obtain ⟨sk0, hsk0⟩ : ∃ sk0, ns.keys.get? 0 = some sk0 := by
        cases hg : ns.keys.get? 0 with
        | none =>
          rw [List.get?_eq_none] at hg
          omega
        | some c => exact ⟨c, rfl⟩
      have hnpklen : np.keys.length = s.maxSize / 2 := by
        rw [hnpk, List.length_take, hfl]
        omega
      have hnpkne : np.keys ≠ [] := by
        intro h
        rw [h] at hnpklen
        simp at hnpklen
        omega
      have hrestb := ancChain_mem_bounds rest a hrest
      have hA3 : ∀ x ∈ rest, s3.pages x = s.pages x := by
        intro x hx
        have hxb := hrestb x hx
        have hxa : x ≠ a := fun h => hanr (h ▸ hx)
        have hxn : x ≠ newP := fun h => hnewrest (h ▸ hx)
        have h2 : s2.pages x = s.pages x := hs2other x hxn hxa
        have h3 : s3.pages x = s2.pages x := by
          apply huntouch3 x hxa
          · rw [hs2next]; omega
          · intro hlf; exact absurd hlf hpar1leafT
          · intro rd hrd
            rcases hpar1mem rd hrd with rfl | hmem
            · exact hxn
            · exact fun h => (hpcd rd hmem).2 (h ▸ hx)
        rw [h3, h2]
      have hlive23 : ∀ q, (s.pages q).isSome = true → (s3.pages q).isSome = true :=
        fun q hq => hlive3 q (hs2live q hq)
      have hanc3 : ancChain s3 a rest :=
        ancChain_stable (by omega) hlive23 rest a hrest hA3
          ⟨par, np, hpar, hnp, by rw [hnppar, hpar1par]⟩
      have hkeys3 : ∃ n, s3.pages a = some n ∧ n.keys ≠ [] := ⟨np, hnp, hnpkne⟩
      have hm3 : ∃ mm, s3.pages s.nextPageNo = some mm := ⟨ns, hns⟩
      have hnew3 : (s.nextPageNo : Int) ∉ a :: rest := by
        simp only [List.mem_cons, not_or]
        refine ⟨by omega, fun hx => ?_⟩
        have := hrestb _ hx
        omega
      have hmax3' : 2 ≤ s3.maxSize := by rw [hmax3, hs2max]; exact hmax
      obtain ⟨s4, hrun4, hnext4, hmax4, hfirst4, hlast4, hfresh4, hlive4, hleaf4, hsz4⟩ :=
        ih f s3 a s.nextPageNo sk0 hanc3 hkeys3 hm3 hnew3 hfresh3 hmax3' hfuel3
      have heval : insertIntoParent (f + 1) s oldP key newP =
          insertIntoParent f s3 a sk0 s.nextPageNo := by
        simp only [insertIntoParent, hn0, hpar0, if_neg hane, hpar, hfc, hip,
          setPage_pages, if_neg hnewa, hmget, ← hs2def, if_pos hfull, hsp, hns, hsk0]
      refine ⟨s4, heval.trans hrun4, by omega, ?_, ?_, ?_, hfresh4, ?_, ?_, ?_⟩
      · rw [hmax4, hmax3, hs2max]
      · rw [hfirst4, hfirst3, hs2first]
      · rw [hlast4, hlast3, hs2last]
      · intro q hq
        exact hlive4 q (hlive23 q hq)
      · intro q n hq hleafq
        have hqa : q ≠ a := by
          intro h
          subst h
          rw [hpar] at hq
          cases hq
          exact absurd hleafq (by simp [hpl])
        by_cases h1 : q = newP
        · subst h1
          rw [hmget] at hq
          cases hq
          obtain ⟨n', hn', hl', hk', hr', _⟩ :=
            hframe3 q { m with parent := a } hs2newP hqa
          have hl'' : n'.is_leaf = true := by rw [hl']; exact hleafq
          obtain ⟨n'', hn'', hl3, hk3, hr3⟩ := hleaf4 q n' hn' hl''
          exact ⟨n'', hn'', hl3, by rw [hk3, hk'], by rw [hr3, hr']⟩
        · have hq2 : s2.pages q = some n := by rw [hs2other q h1 hqa]; exact hq
          obtain ⟨n', hn', hl', hk', hr', _⟩ := hframe3 q n hq2 hqa
          obtain ⟨n'', hn'', hl3, hk3, hr3⟩ := hleaf4 q n' hn' (hl'.trans hleafq)
          exact ⟨n'', hn'', hl3, hk3.trans hk', hr3.trans hr'⟩
      · intro hA_bnd q n' hq'
        have hmaxeq : s3.maxSize = s.maxSize := by rw [hmax3, hs2max]
        have hminq : minSize s3 = minSize s := by simp only [minSize, hmaxeq]
        have hA3bnd : ∀ x ∈ rest, ∀ n, s3.pages x = some n → n.parent ≠ IX_NO_PAGE →
            minSize s3 ≤ n.keys.length ∧ n.keys.length + 1 ≤ s3.maxSize := by
          intro x hx n hn hnpx
          rw [hA3 x hx] at hn
          rw [hminq, hmaxeq]
          exact hA_bnd x (List.mem_cons_of_mem a hx) n hn hnpx
        rcases hsz4 hA3bnd q n' hq' with ⟨n3, hn3, hlen3⟩ | ⟨hb1, hb2⟩ | hroot
        · by_cases h1 : q = a
          · rw [h1, hnp] at hn3
            cases hn3
            refine Or.inr (Or.inl ⟨?_, ?_⟩)
            · rw [hlen3, hnpklen]
              simp [minSize]
            · rw [hlen3, hnpklen]
              omega
          · by_cases h2 : q = s.nextPageNo
            · rw [h2, hns] at hn3
              cases hn3
              refine Or.inr (Or.inl ⟨?_, ?_⟩)
              · rw [hlen3, hnsklen]
                simp only [minSize]
                omega
              · rw [hlen3, hnsklen]
                omega
            · by_cases h3 : q = newP
              · obtain ⟨n2, hn2, _, hk2, _, _⟩ :=
                  hframe3 newP { m with parent := a } hs2newP hnewa
                rw [h3, hn2] at hn3
                cases hn3
                exact Or.inl ⟨m, by rw [h3]; exact hmget, by rw [hlen3, hk2]⟩
              · cases hsq : s.pages q with
                | none =>
                  have h2n : s2.pages q = none := by rw [hs2other q h3 h1]; exact hsq
                  rw [hnone3 q h2n (by rw [hs2next]; exact h2)] at hn3
                  cases hn3
                | some n0q =>
                  have h2q : s2.pages q = some n0q := by rw [hs2other q h3 h1]; exact hsq
                  obtain ⟨n2, hn2, _, hk2, _, _⟩ := hframe3 q n0q h2q h1
                  rw [hn2] at hn3
                  cases hn3
                  refine Or.inl ⟨n0q, rfl, ?_⟩
                  rw [hlen3, hk2]
        · refine Or.inr (Or.inl ⟨?_, ?_⟩)
          · rw [hminq] at hb1
            exact hb1
          · rw [hmaxeq] at hb2
            exact hb2
        · exact Or.inr (Or.inr hroot)
    · -- the parent has room: the insertion ends here
      have hnf' : ¬ (nodeIsFull s2 par1 = true) := by
        simp only [nodeIsFull, hs2max, decide_eq_true_eq]
        exact hfl
      have heval : insertIntoParent (f + 1) s oldP key newP = Except.ok s2 := by
        simp only [insertIntoParent, hn0, hpar0, if_neg hane, hpar, hfc, hip,
          setPage_pages, if_neg hnewa, hmget, ← hs2def, if_neg hnf']
      refine ⟨s2, heval, hs2next.ge, hs2max, hs2first, hs2last, hs2fresh, hs2live, ?_, ?_⟩
      · intro q n hq hleafq
        by_cases h1 : q = newP
        · subst h1
          rw [hmget] at hq
          cases hq
          exact ⟨{ m with parent := a }, hs2newP, hleafq, rfl, rfl⟩
        · by_cases h2 : q = a
          · subst h2
            rw [hpar] at hq
            cases hq
            exact absurd hleafq (by simp [hpl])
          · exact ⟨n, by rw [hs2other q h1 h2]; exact hq, hleafq, rfl, rfl⟩
      · intro hA_bnd q n' hq'
        by_cases h1 : q = newP
        · rw [h1, hs2newP] at hq'
          cases hq'
          exact Or.inl ⟨m, by rw [h1]; exact hmget, rfl⟩
        · by_cases h2 : q = a
          · rw [h2, hs2a] at hq'
            cases hq'
            cases hrestC : rest with
            | nil =>
              rw [hrestC] at hrest
              obtain ⟨nx, hnx, hnxpar⟩ := hrest
              rw [hpar] at hnx
              cases hnx
              refine Or.inr (Or.inr ?_)
              rw [hpar1par]
              exact hnxpar
            | cons b rest2 =>
              rw [hrestC] at hrest
              obtain ⟨⟨nx, hnx, hnxpar⟩, _, hb0, _, _, _⟩ := hrest
              rw [hpar] at hnx
              cases hnx
              have hbnd := hA_bnd a (List.mem_cons_self a rest) par hpar
                (by rw [hnxpar]; simp only [IX_NO_PAGE]; omega)
              have hbnd1 := hbnd.1
              have hbnd2 := hbnd.2
              refine Or.inr (Or.inl ⟨?_, ?_⟩)
              · rw [hpar1klen]
                omega
              · rw [hpar1klen]
                omega
          · rw [hs2other q h1 h2] at hq'
            exact Or.inl ⟨n', hq', rfl⟩

end BPT

namespace BPT

variable {K : Type}

lemma ancChain_not_mem {s : IxState K} :
    ∀ (A : List Int) (p : Int), ancChain s p A → p ∉ A := by
  intro A p hanc hmem
  cases A with
  | nil => simp at hmem
  | cons a rest =>
    obtain ⟨_, ⟨par, hpar, _, _, _, hpc, _, hpcd⟩, _, _, _, _⟩ := hanc
    obtain ⟨rd, hrd, hrdp⟩ := hpc
    rcases List.mem_cons.mp hmem with rfl | h
    · exact (hpcd rd hrd).1 hrdp
    · exact (hpcd rd hrd).2 (hrdp.symm ▸ h)

/-- `ancChain` is stable under state changes that keep the shape
(leaf flag, parent, key count, children) of every chain page, keep the
base page's parent, never kill a page and never shrink the page
range. -/
lemma ancChain_stable_shape {s s' : IxState K}
    (hnext : s.nextPageNo ≤ s'.nextPageNo)
    (hlive : ∀ q, (s.pages q).isSome = true → (s'.pages q).isSome = true) :
    ∀ (A : List Int) (p : Int),
    ancChain s p A →
    (∀ a ∈ A, ∀ n, s.pages a = some n → ∃ n', s'.pages a = some n' ∧
      n'.is_leaf = n.is_leaf ∧ n'.parent = n.parent ∧
      n'.keys.length = n.keys.length ∧ n'.rids = n.rids) →
    (∃ n n', s.pages p = some n ∧ s'.pages p = some n' ∧ n'.parent = n.parent) →
    ancChain s' p A := by
  intro A
  induction A with
  | nil =>
    intro p hanc hA hp
    obtain ⟨n0, hn0, hpar0⟩ := hanc
    obtain ⟨n, n', hn, hn', hpp⟩ := hp
    rw [hn0] at hn
    cases hn
    exact ⟨n', hn', hpp.trans hpar0⟩
  | cons a rest ih =>
    intro p hanc hA hp
    obtain ⟨⟨n0, hn0, hpar0⟩, ⟨par, hpar, hpl, hpk, hplen, hpc, hpcl, hpcd⟩, ha0, haN,
      hanr, hrest⟩ := hanc
    obtain ⟨n, n', hn, hn', hpp⟩ := hp
    rw [hn0] at hn
    cases hn
    obtain ⟨par', hpar', hpl', hppar', hpklen', hprids'⟩ :=
      hA a (List.mem_cons_self a rest) par hpar
    refine ⟨⟨n', hn', hpp.trans hpar0⟩,
      ⟨par', hpar', by rw [hpl']; exact hpl, by omega,
        by rw [hpklen', hprids']; exact hplen,
        by rw [hprids']; exact hpc,
        fun rd hrd => hlive _ (hpcl rd (hprids' ▸ hrd)),
        fun rd hrd => hpcd rd (hprids' ▸ hrd)⟩, ha0, by omega, hanr, ?_⟩
    exact ih a hrest (fun x hx => hA x (List.mem_cons_of_mem a hx))
      ⟨par, par', hpar, hpar', hppar'⟩

lemma insert_at_get {α : Type} (l : List α) (pos : Nat) (x : α) (h : pos ≤ l.length) :
    (l.take pos ++ [x] ++ l.drop pos).get? pos = some x := by
  have hlt : (l.take pos).length = pos := by
    simp only [List.length_take]
    omega
  rw [List.append_assoc, List.get?_append_right hlt.le, hlt]
  simp

end BPT

namespace BPT

variable {K : Type}

/-- Running `insert_entry` with an absent key on a well-formed tree:
the descent finds a leaf; when the leaf does not reach `max_size` the
key/rid pair lands in it at its sorted position with the size up by
one; when it reaches `max_size` the leaf splits into halves of
`max_size / 2` and `max_size - max_size / 2` keys and the returned
page is the half holding the key. -/
lemma insert_entry_new_run [LinearOrder K] (s : IxState K) (h fuel : Nat) (k : K) (r : Rid)
    (hwf : Wf s h = true)
    (hfresh : ∀ q, s.nextPageNo ≤ q → s.pages q = none)
    (hfuel : h ≤ fuel)
    (hkabs : k ∉ treeKeys s h s.root_page) :
    ∃ LP L, findLeafPage (ordCmp (K := K)) s k false fuel = Except.ok (LP, L) ∧
      s.pages LP = some L ∧ L.is_leaf = true ∧
      ((L.keys.length + 1 ≠ s.maxSize ∧
        ∃ s2 L1 i, insert_entry (ordCmp (K := K)) s k r fuel = Except.ok (s2, LP) ∧
          s2.pages LP = some L1 ∧ L1.is_leaf = true ∧ strictSorted L1.keys = true ∧
          L1.keys.length = L.keys.length + 1 ∧
          L1.keys.get? i = some k ∧ L1.rids.get? i = some r ∧
          ((∀ q n, s.pages q = some n → n.parent ≠ IX_NO_PAGE →
              minSize s ≤ n.keys.length ∧ n.keys.length + 1 ≤ s.maxSize) →
            ∀ q n', s2.pages q = some n' →
              (∃ n, s.pages q = some n ∧ n'.keys.length = n.keys.length) ∨
              (minSize s ≤ n'.keys.length ∧ n'.keys.length + 1 ≤ s.maxSize) ∨
              n'.parent = IX_NO_PAGE)) ∨
       (L.keys.length + 1 = s.maxSize ∧
        ∃ s2 p L1 S1, insert_entry (ordCmp (K := K)) s k r fuel = Except.ok (s2, p) ∧
          s2.pages LP = some L1 ∧ s2.pages s.nextPageNo = some S1 ∧
          L1.is_leaf = true ∧ S1.is_leaf = true ∧
          strictSorted L1.keys = true ∧ strictSorted S1.keys = true ∧
          L1.keys.length = s.maxSize / 2 ∧ S1.keys.length = s.maxSize - s.maxSize / 2 ∧
          (∃ Lp i, s2.pages p = some Lp ∧ Lp.is_leaf = true ∧
            strictSorted Lp.keys = true ∧
            Lp.keys.get? i = some k ∧ Lp.rids.get? i = some r) ∧
          ((∀ q n, s.pages q = some n → n.parent ≠ IX_NO_PAGE →
              minSize s ≤ n.keys.length ∧ n.keys.length + 1 ≤ s.maxSize) →
            ∀ q n', s2.pages q = some n' →
              (∃ n, s.pages q = some n ∧ n'.keys.length = n.keys.length) ∨
              (minSize s ≤ n'.keys.length ∧ n'.keys.length + 1 ≤ s.maxSize) ∨
              n'.parent = IX_NO_PAGE))) := by
  rw [Wf, Bool.and_eq_true, decide_eq_true_eq] at hwf
  have hok := hwf.1
  have hmax := hwf.2
  obtain ⟨h0, rfl⟩ : ∃ h0, h = h0 + 1 := by
    cases h with
    | zero => rw [nodeOk] at hok; exact absurd hok (by simp)
    | succ h0 => exact ⟨h0, rfl⟩
  have hanc0 : ancChain s s.root_page [] := by
    obtain ⟨n, hsp, hpar, _⟩ := nodeOk_elim hok
    exact ⟨n, hsp, hpar⟩
  obtain ⟨LP, L, A, hrun, hLsp, hLleaf, hLsort, hLlen, hLP0, hLPN, hLnlp, hLnext, hLanc,
    hAlen, hpres, hrev⟩ := findLeaf_descend k (h0 + 1) s.root_page IX_NO_PAGE none none fuel
      [] hok hfuel hanc0 (fun a ha => absurd ha (by simp))
  have hAlen' : A.length < h0 + 1 := by simpa using hAlen
  have hfind : findLeafPage (ordCmp (K := K)) s k false fuel = Except.ok (LP, L) := hrun
  refine ⟨LP, L, hfind, hLsp, hLleaf, ?_⟩
  · have hkL : k ∉ L.keys := fun hx => hkabs (hrev k hx)
    have spec := nodeLowerBound_spec L k hLsort
    have hkv := insertKvPair_new L k r hLsort hkL
    set lb := nodeLowerBound (ordCmp (K := K)) L k with hlbdef
    set leaf1 : IxNode K := { L with
      keys := L.keys.take lb ++ [k] ++ L.keys.drop lb,
      rids := L.rids.take lb ++ [r] ++ L.rids.drop lb } with hleaf1def
    have hleaf1leaf : leaf1.is_leaf = true := by rw [hleaf1def]; exact hLleaf
    have hleaf1par : leaf1.parent = L.parent := by rw [hleaf1def]
    have hleaf1next : leaf1.next_leaf = L.next_leaf := by rw [hleaf1def]
    have hleaf1k : leaf1.keys = L.keys.take lb ++ [k] ++ L.keys.drop lb := by rw [hleaf1def]
    have hleaf1r : leaf1.rids = L.rids.take lb ++ [r] ++ L.rids.drop lb := by rw [hleaf1def]
    have hlb_le : lb ≤ L.keys.length := spec.1
    have hlbr : lb ≤ L.rids.length := by omega
    have hleaf1klen : leaf1.keys.length = L.keys.length + 1 := by
      rw [hleaf1k]
      simp only [List.length_append, List.length_take, List.length_drop,
        List.length_singleton]
      omega
    have hleaf1rlen : leaf1.rids.length = L.rids.length + 1 := by
      rw [hleaf1r]
      simp only [List.length_append, List.length_take, List.length_drop,
        List.length_singleton]
      omega
    have hleaf1len : leaf1.keys.length = leaf1.rids.length := by omega
    have hhigh : ∀ i k0, lb ≤ i → L.keys.get? i = some k0 → k < k0 := by
      intro i k0 hi hget
      rcases lt_or_eq_of_le (spec.2.2 i k0 hi hget) with hlt | heq
      · exact hlt
      · rw [← heq] at hget
        exact absurd (List.get?_mem hget) hkL
    have hleaf1sorted : strictSorted leaf1.keys = true := by
      rw [hleaf1k, strictSorted_iff_pairwise]
      have hp := insert_pairwise ((strictSorted_iff_pairwise L.keys).mp hLsort)
        spec.2.1 hhigh
      simpa [List.append_assoc] using hp
    have hgetk : leaf1.keys.get? lb = some k := by
      rw [hleaf1k]
      exact insert_at_get _ _ _ hlb_le
    have hgetr : leaf1.rids.get? lb = some r := by
      rw [hleaf1r]
      exact insert_at_get _ _ _ hlbr
    have hleaf1ne : leaf1.keys ≠ [] := by
      intro hnil
      rw [hnil] at hleaf1klen
      simp at hleaf1klen
    set s1 : IxState K := setPage s LP leaf1 with hs1def
    have hs1LP : s1.pages LP = some leaf1 := by
      rw [hs1def]
      simp [setPage_pages]
    have hs1other : ∀ q, q ≠ LP → s1.pages q = s.pages q := by
      intro q hq
      rw [hs1def]
      simp only [setPage_pages]
      rw [if_neg hq]
    have hs1next : s1.nextPageNo = s.nextPageNo := by rw [hs1def]; rfl
    have hs1max : s1.maxSize = s.maxSize := by rw [hs1def]; rfl
    have hs1root : s1.root_page = s.root_page := by rw [hs1def]; rfl
    have hs1first : s1.first_leaf = s.first_leaf := by rw [hs1def]; rfl
    have hs1last : s1.last_leaf = s.last_leaf := by rw [hs1def]; rfl
    have hs1fresh : ∀ q, s1.nextPageNo ≤ q → s1.pages q = none := by
      intro q hq
      rw [hs1next] at hq
      rw [hs1other q (by omega)]
      exact hfresh q hq
    have hs1live : ∀ q, (s.pages q).isSome = true → (s1.pages q).isSome = true := by
      intro q hq
      by_cases h1 : q = LP
      · rw [h1, hs1LP]; rfl
      · rw [hs1other q h1]; exact hq
    have hnotmem := ancChain_not_mem A LP hLanc
    have hanc1 : ancChain s1 LP A := by
      apply ancChain_stable hs1next.ge hs1live A LP hLanc
      · intro a ha
        exact hs1other a (fun he => hnotmem (he ▸ ha))
      · exact ⟨L, leaf1, hLsp, hs1LP, hleaf1par⟩
    obtain ⟨s2, hmaint, hs2LP, hroot2, hfirst2, hlast2, hnext2, hmax2, hfresh2, hlive2,
      hleafpres2, hshape2f, hnone2f, hanc2⟩ :
        ∃ s2, (if (lb : Int) = 0 then maintainParent fuel s1 LP else Except.ok s1) =
            Except.ok s2 ∧
          s2.pages LP = some leaf1 ∧
          s2.root_page = s.root_page ∧ s2.first_leaf = s.first_leaf ∧
          s2.last_leaf = s.last_leaf ∧ s2.nextPageNo = s.nextPageNo ∧
          s2.maxSize = s.maxSize ∧
          (∀ q, s2.nextPageNo ≤ q → s2.pages q = none) ∧
          (∀ q, (s1.pages q).isSome = true → (s2.pages q).isSome = true) ∧
          (∀ q n, s1.pages q = some n → n.is_leaf = true → s2.pages q = some n) ∧
          (∀ q n, s1.pages q = some n → ∃ n', s2.pages q = some n' ∧
            n'.keys.length = n.keys.length ∧ n'.parent = n.parent) ∧
          (∀ q, s1.pages q = none → s2.pages q = none) ∧
          ancChain s2 LP A := by
      by_cases hpos : (lb : Int) = 0
      · rw [if_pos hpos]
        obtain ⟨s2, hrun2, hroot2, hfirst2, hlast2, hnum2, hnext2, hmax2, hnone2,
          hshape2, hanc2⟩ :=
          maintainParent_run A s1 fuel LP hanc1 ⟨leaf1, hs1LP, hleaf1ne⟩ (by omega)
        have hLP2 : s2.pages LP = some leaf1 := by
          obtain ⟨n2, hn2, _, _, _, _, _, _, hex⟩ := hshape2 LP leaf1 hs1LP
          rw [hn2, hex hleaf1leaf]
        refine ⟨s2, hrun2, hLP2, hroot2.trans hs1root, hfirst2.trans hs1first,
          hlast2.trans hs1last, hnext2.trans hs1next, hmax2.trans hs1max, ?_, ?_, ?_,
          ?_, hnone2, hanc2⟩
        · intro q hq
          rw [hnext2] at hq
          exact hnone2 q (hs1fresh q hq)
        · intro q hq
          cases hx : s1.pages q with
          | none => rw [hx] at hq; simp at hq
          | some n =>
            obtain ⟨n2, hn2, _⟩ := hshape2 q n hx
            rw [hn2]
            rfl
        · intro q n hq hl
          obtain ⟨n2, hn2, _, _, _, _, _, _, hex⟩ := hshape2 q n hq
          rw [hn2, hex hl]
        · intro q n hq
          obtain ⟨n2, hn2, _, hparp, _, _, hkl, _, _⟩ := hshape2 q n hq
          exact ⟨n2, hn2, hkl, hparp⟩
      · rw [if_neg hpos]
        exact ⟨s1, rfl, hs1LP, hs1root, hs1first, hs1last, hs1next, hs1max, hs1fresh,
          fun q hq => hq, fun q n hq _ => hq, fun q n hq => ⟨n, hq, rfl, rfl⟩,
          fun q hq => hq, hanc1⟩
    by_cases hfl : leaf1.keys.length = s.maxSize
    · -- the leaf is full and splits
      have hfull : nodeIsFull s2 leaf1 = true := by
        simp only [nodeIsFull, hmax2, decide_eq_true_eq]
        exact hfl
      have hLP2next : LP < s2.nextPageNo := by rw [hnext2]; exact hLPN
      have hnlp2 : leaf1.is_leaf = true → leaf1.next_leaf ≠ LP := by
        intro _
        rw [hleaf1next]
        exact hLnlp
      have hnl2 : leaf1.is_leaf = true →
          leaf1.next_leaf = IX_NO_PAGE ∨ (s2.pages leaf1.next_leaf).isSome = true := by
        intro _
        rw [hleaf1next]
        rcases hLnext with hn | hn
        · exact Or.inl hn
        · exact Or.inr (hlive2 _ (hs1live _ hn))
      have hch2 : leaf1.is_leaf = false →
          (∀ rd ∈ leaf1.rids, (s2.pages rd.page_no).isSome = true) ∧
          (∀ rd ∈ leaf1.rids, rd.page_no ≠ LP) := by
        intro hml
        rw [hleaf1leaf] at hml
        simp at hml
      obtain ⟨s3, np, ns, hsp, hroot3, hfirst3, hlast3, hnum3, hnext3, hmax3, hnp, hnpl,
        hnppar, hnpk, hnpr, hnpnlL, hnpnlI, hns, hnsl, hnspar, hnsk, hnsr, hnsLf, hnone3,
        hlive3, hfresh3, hframe3, huntouch3⟩ :=
        splitNode_run hs2LP hleaf1len hLP0 hLP2next hfresh2 hnlp2 hnl2 hch2
      rw [hnext2] at hsp hns hnext3
      rw [hmax2] at hnpk hnpr hnsk hnsr
      have hflr : leaf1.rids.length = s.maxSize := by omega
      have hnpklen : np.keys.length = s.maxSize / 2 := by
        rw [hnpk, List.length_take, hfl]
        omega
      have hnsklen : ns.keys.length = s.maxSize - s.maxSize / 2 := by
        rw [hnsk, List.length_drop, hfl]
      obtain ⟨sk0, hsk0⟩ : ∃ sk0, ns.keys.get? 0 = some sk0 := by
        cases hg : ns.keys.get? 0 with
        | none =>
          rw [List.get?_eq_none] at hg
          omega
        | some c => exact ⟨c, rfl⟩
      have hnpkne : np.keys ≠ [] := by
        intro hnil
        rw [hnil] at hnpklen
        simp at hnpklen
        omega
      obtain ⟨s4, hs4if, hs4pages, hs4next, hs4max⟩ :
          ∃ s4, (if LP = s3.last_leaf then { s3 with last_leaf := s.nextPageNo } else s3) =
              s4 ∧
            s4.pages = s3.pages ∧ s4.nextPageNo = s3.nextPageNo ∧
            s4.maxSize = s3.maxSize := by
        by_cases hll : LP = s3.last_leaf
        · exact ⟨{ s3 with last_leaf := s.nextPageNo }, by rw [if_pos hll], rfl, rfl, rfl⟩
        · exact ⟨s3, by rw [if_neg hll], rfl, rfl, rfl⟩
      have hns4 : s4.pages s.nextPageNo = some ns := by rw [hs4pages]; exact hns
      have hnp4 : s4.pages LP = some np := by rw [hs4pages]; exact hnp
      have hfresh4 : ∀ q, s4.nextPageNo ≤ q → s4.pages q = none := by
        intro q hq
        rw [hs4next] at hq
        rw [hs4pages]
        exact hfresh3 q hq
      have hnotmem2 := ancChain_not_mem A LP hanc2
      have hanc4 : ancChain s4 LP A := by
        apply ancChain_stable_shape (s := s2) (by rw [hs4next, hnext3, hnext2]; omega)
          (fun q hq => by rw [hs4pages]; exact hlive3 q hq) A LP hanc2
        · intro a ha n hn
          obtain ⟨n2, hn2, he1, he2, he3, he4⟩ :=
            hframe3 a n hn (fun he => hnotmem2 (he ▸ ha))
          exact ⟨n2, by rw [hs4pages]; exact hn2, he1, he4 hleaf1leaf,
            by rw [he2], by rw [he3]⟩
        · exact ⟨leaf1, np, hs2LP, hnp4, hnppar⟩
      have hrestb := ancChain_mem_bounds A LP hLanc
      have hnew5 : s.nextPageNo ∉ LP :: A := by
        simp only [List.mem_cons, not_or]
        refine ⟨by omega, fun hx => ?_⟩
        have := hrestb _ hx
        omega
      have hmax4 : 2 ≤ s4.maxSize := by
        rw [hs4max, hmax3, hmax2]
        exact hmax
      obtain ⟨s5, hrun5, hnext5, hmax5, hfirst5, hlast5, hfresh5, hlive5, hleaf5, hsz5⟩ :=
        insertIntoParent_run A fuel s4 LP s.nextPageNo sk0 hanc4 ⟨np, hnp4, hnpkne⟩
          ⟨ns, hns4⟩ hnew5 hfresh4 hmax4 (by omega)
      obtain ⟨sib2, hsib2, hsib2leaf, hsib2k, hsib2r⟩ :=
        hleaf5 s.nextPageNo ns hns4 (by rw [hnsl]; exact hleaf1leaf)
      obtain ⟨np2, hnp2, hnp2leaf, hnp2k, hnp2r⟩ :=
        hleaf5 LP np hnp4 (by rw [hnpl]; exact hleaf1leaf)
      have hpair1 := (strictSorted_iff_pairwise leaf1.keys).mp hleaf1sorted
      have hsib2sorted : strictSorted sib2.keys = true := by
        rw [strictSorted_iff_pairwise, hsib2k, hnsk]
        exact hpair1.sublist (List.drop_sublist _ _)
      have hnp2sorted : strictSorted np2.keys = true := by
        rw [strictSorted_iff_pairwise, hnp2k, hnpk]
        exact hpair1.sublist (List.take_sublist _ _)
      have hnp2len : np2.keys.length = s.maxSize / 2 := by
        rw [hnp2k]
        exact hnpklen
      have hsib2len : sib2.keys.length = s.maxSize - s.maxSize / 2 := by
        rw [hsib2k]
        exact hnsklen
      have hdisc : (∀ q n, s.pages q = some n → n.parent ≠ IX_NO_PAGE →
          minSize s ≤ n.keys.length ∧ n.keys.length + 1 ≤ s.maxSize) →
          ∀ q n', s5.pages q = some n' →
            (∃ n, s.pages q = some n ∧ n'.keys.length = n.keys.length) ∨
            (minSize s ≤ n'.keys.length ∧ n'.keys.length + 1 ≤ s.maxSize) ∨
            n'.parent = IX_NO_PAGE := by
        intro hSz q n' hq'
        have hmaxeq4 : s4.maxSize = s.maxSize := by rw [hs4max, hmax3, hmax2]
        have hmin4 : minSize s4 = minSize s := by simp only [minSize, hmaxeq4]
        have hA4bnd : ∀ x ∈ A, ∀ n, s4.pages x = some n → n.parent ≠ IX_NO_PAGE →
            minSize s4 ≤ n.keys.length ∧ n.keys.length + 1 ≤ s4.maxSize := by
          intro x hx n hn hnpx
          have hxLP : x ≠ LP := fun he => hnotmem (he ▸ hx)
          have hxb := hrestb x hx
          rw [hs4pages] at hn
          cases h2x : s2.pages x with
          | none =>
            rw [hnone3 x h2x (by rw [hnext2]; omega)] at hn
            cases hn
          | some nx2 =>
            obtain ⟨n3, hn3, _, hk3, _, hp3⟩ := hframe3 x nx2 h2x hxLP
            rw [hn3] at hn
            cases hn
            cases h1x : s1.pages x with
            | none =>
              rw [hnone2f x h1x] at h2x
              cases h2x
            | some nx1 =>
              obtain ⟨nx2b, hnx2b, hlen2, hpar2⟩ := hshape2f x nx1 h1x
              rw [hnx2b] at h2x
              cases h2x
              have hsx : s.pages x = some nx1 := by
                rw [← hs1other x hxLP]
                exact h1x
              have hb := hSz x nx1 hsx
                (by rw [← hpar2, ← hp3 hleaf1leaf]; exact hnpx)
              rw [hmin4, hmaxeq4, hk3, hlen2]
              exact hb
        rcases hsz5 hA4bnd q n' hq' with ⟨n4, hn4, hlen4⟩ | ⟨hb1, hb2⟩ | hroot
        · rw [hs4pages] at hn4
          by_cases h1 : q = LP
          · rw [h1, hnp] at hn4
            cases hn4
            refine Or.inr (Or.inl ⟨?_, ?_⟩)
            · rw [hlen4, hnpklen]
              simp [minSize]
            · rw [hlen4, hnpklen]
              omega
          · by_cases h2 : q = s.nextPageNo
            · rw [h2, hns] at hn4
              cases hn4
              refine Or.inr (Or.inl ⟨?_, ?_⟩)
              · rw [hlen4, hnsklen]
                simp only [minSize]
                omega
              · rw [hlen4, hnsklen]
                omega
            · cases hsq : s.pages q with
              | none =>
                have h1n : s1.pages q = none := by
                  rw [hs1other q h1]
                  exact hsq
                have h2n : s2.pages q = none := hnone2f q h1n
                rw [hnone3 q h2n (by rw [hnext2]; exact h2)] at hn4
                cases hn4
              | some n0 =>
                have h1q : s1.pages q = some n0 := by
                  rw [hs1other q h1]
                  exact hsq
                obtain ⟨n2, hn2, hlen2, _⟩ := hshape2f q n0 h1q
                obtain ⟨n3, hn3, _, hk3, _, _⟩ := hframe3 q n2 hn2 h1
                rw [hn3] at hn4
                cases hn4
                refine Or.inl ⟨n0, rfl, ?_⟩
                rw [hlen4, hk3, hlen2]
        · refine Or.inr (Or.inl ⟨?_, ?_⟩)
          · rw [hmin4] at hb1
            exact hb1
          · rw [hmaxeq4] at hb2
            exact hb2
        · exact Or.inr (Or.inr hroot)
      by_cases hhalf : lb < s.maxSize / 2
      · -- the key stays in the lower half
        have hget2 : np2.keys.get? lb = some k := by
          rw [hnp2k, hnpk, List.get?_take hhalf]
          exact hgetk
        have hgetr2 : np2.rids.get? lb = some r := by
          rw [hnp2r, hnpr, List.get?_take hhalf]
          exact hgetr
        have hknotin : k ∉ sib2.keys := by
          rw [hsib2k, hnsk]
          intro hmem
          obtain ⟨j, hj⟩ := List.get?_of_mem hmem
          rw [List.get?_drop] at hj
          exact absurd (sorted_get?_lt hpair1 (by omega) hgetk hj) (lt_irrefl k)
        cases hkk : sib2.keys.get? (nodeLowerBound (ordCmp (K := K)) sib2 k) with
        | none =>
          have heval : insert_entry (ordCmp (K := K)) s k r fuel = Except.ok (s5, LP) := by
            simp only [insert_entry, hfind, hkv, ← hs1def, hmaint, if_pos hfull, hsp,
              hs4if, hns4, hsk0, hrun5, hsib2, hkk,
              if_neg (show ¬ (L.keys.length + 1 = L.keys.length) by omega)]
          exact Or.inr ⟨by omega, s5, LP, np2, sib2, heval, hnp2, hsib2, hnp2leaf,
            hsib2leaf, hnp2sorted, hsib2sorted, hnp2len, hsib2len,
            ⟨np2, lb, hnp2, hnp2leaf, hnp2sorted, hget2, hgetr2⟩, hdisc⟩
        | some kk =>
          have hne : ¬ (ordCmp kk k = Ordering.eq) := by
            intro heq
            rw [(ordCmp_eq_iff kk k).mp heq] at hkk
            exact hknotin (List.get?_mem hkk)
          have heval : insert_entry (ordCmp (K := K)) s k r fuel = Except.ok (s5, LP) := by
            simp only [insert_entry, hfind, hkv, ← hs1def, hmaint, if_pos hfull, hsp,
              hs4if, hns4, hsk0, hrun5, hsib2, hkk, if_neg hne,
              if_neg (show ¬ (L.keys.length + 1 = L.keys.length) by omega)]
          exact Or.inr ⟨by omega, s5, LP, np2, sib2, heval, hnp2, hsib2, hnp2leaf,
            hsib2leaf, hnp2sorted, hsib2sorted, hnp2len, hsib2len,
            ⟨np2, lb, hnp2, hnp2leaf, hnp2sorted, hget2, hgetr2⟩, hdisc⟩
      · -- the key moves to the sibling
        push_neg at hhalf
        have hj : sib2.keys.get? (lb - s.maxSize / 2) = some k := by
          rw [hsib2k, hnsk, List.get?_drop,
            show s.maxSize / 2 + (lb - s.maxSize / 2) = lb by omega]
          exact hgetk
        have hrj : sib2.rids.get? (lb - s.maxSize / 2) = some r := by
          rw [hsib2r, hnsr, List.get?_drop,
            show s.maxSize / 2 + (lb - s.maxSize / 2) = lb by omega]
          exact hgetr
        have hlbget := lb_get_of_mem sib2 k hsib2sorted (List.get?_mem hj)
        have heval : insert_entry (ordCmp (K := K)) s k r fuel =
            Except.ok (s5, s.nextPageNo) := by
          simp only [insert_entry, hfind, hkv, ← hs1def, hmaint, if_pos hfull, hsp,
            hs4if, hns4, hsk0, hrun5, hsib2, hlbget,
            if_pos ((ordCmp_eq_iff k k).mpr rfl),
            if_neg (show ¬ (L.keys.length + 1 = L.keys.length) by omega)]
        exact Or.inr ⟨by omega, s5, s.nextPageNo, np2, sib2, heval, hnp2, hsib2,
          hnp2leaf, hsib2leaf, hnp2sorted, hsib2sorted, hnp2len, hsib2len,
          ⟨sib2, lb - s.maxSize / 2, hsib2, hsib2leaf, hsib2sorted, hj, hrj⟩, hdisc⟩
    · -- the leaf still fits
      have hnf : ¬ (nodeIsFull s2 leaf1 = true) := by
        simp only [nodeIsFull, hmax2, decide_eq_true_eq]
        exact hfl
      have heval : insert_entry (ordCmp (K := K)) s k r fuel = Except.ok (s2, LP) := by
        simp only [insert_entry, hfind, hkv, ← hs1def, hmaint, if_neg hnf,
          if_neg (show ¬ (L.keys.length + 1 = L.keys.length) by omega)]
      refine Or.inl ⟨by omega, s2, leaf1, lb, heval, hs2LP, hleaf1leaf, hleaf1sorted,
        hleaf1klen, hgetk, hgetr, ?_⟩
      intro hSz q n' hq'
      by_cases h1 : q = LP
      · rw [h1, hs2LP] at hq'
        cases hq'
        by_cases hLroot : L.parent = IX_NO_PAGE
        · refine Or.inr (Or.inr ?_)
          rw [hleaf1par]
          exact hLroot
        · have hb := hSz LP L hLsp hLroot
          have hb1 := hb.1
          have hb2 := hb.2
          refine Or.inr (Or.inl ⟨?_, ?_⟩)
          · rw [hleaf1klen]
            omega
          · rw [hleaf1klen]
            omega
      · cases hsq : s.pages q with
        | none =>
          have h1n : s1.pages q = none := by
            rw [hs1other q h1]
            exact hsq
          rw [hnone2f q h1n] at hq'
          cases hq'
        | some n0 =>
          have h1q : s1.pages q = some n0 := by
            rw [hs1other q h1]
            exact hsq
          obtain ⟨n2, hn2, hlen2, _⟩ := hshape2f q n0 h1q
          rw [hn2] at hq'
          cases hq'
          exact Or.inl ⟨n0, rfl, hlen2⟩

end BPT

namespace BPT

/-- A one-leaf tree holding the single key 5: the witness state for the
insert theorem. -/
def sC1leaf : IxNode Int :=
  { is_leaf := true, parent := -1, prev_leaf := -1, next_leaf := -1,
    keys := [5], rids := [⟨100, 0⟩] }

def sC1 : IxState Int :=
  { root_page := 2, first_leaf := 2, last_leaf := 2, num_pages := 3,
    pages := fun q => if q = 2 then some sC1leaf else none,
    nextPageNo := 3, maxSize := 4 }

/-- C1: starting from a well-formed tree, `insert_entry` of a key that
is already present returns `IX_NO_PAGE` with the state untouched; for
an absent key it succeeds and returns a state together with the page
number of a leaf that holds the new key and its record id at the key's
sorted position. -/
theorem C1_insert_entry [LinearOrder K] (s : IxState K) (h fuel : Nat) (k : K) (r : Rid)
    (hwf : Wf s h = true)
    (hfresh : ∀ q, s.nextPageNo ≤ q → s.pages q = none)
    (hfuel : h ≤ fuel) :
    (k ∈ treeKeys s h s.root_page →
      insert_entry (ordCmp (K := K)) s k r fuel = Except.ok (s, IX_NO_PAGE)) ∧
    (k ∉ treeKeys s h s.root_page →
      ∃ s2 p L i, insert_entry (ordCmp (K := K)) s k r fuel = Except.ok (s2, p) ∧
        s2.pages p = some L ∧ L.is_leaf = true ∧ strictSorted L.keys = true ∧
        L.keys.get? i = some k ∧ L.rids.get? i = some r) := by
  constructor
  · -- the key is already present
    intro hkmem
    have hwf2 := hwf
    rw [Wf, Bool.and_eq_true, decide_eq_true_eq] at hwf2
    have hok := hwf2.1
    obtain ⟨h0, rfl⟩ : ∃ h0, h = h0 + 1 := by
      cases h with
      | zero => rw [nodeOk] at hok; exact absurd hok (by simp)
      | succ h0 => exact ⟨h0, rfl⟩
    have hanc0 : ancChain s s.root_page [] := by
      obtain ⟨n, hsp, hpar, _⟩ := nodeOk_elim hok
      exact ⟨n, hsp, hpar⟩
    obtain ⟨LP, L, A, hrun, hLsp, hLleaf, hLsort, hLlen, hLP0, hLPN, hLnlp, hLnext, hLanc,
      hAlen, hpres, hrev⟩ := findLeaf_descend k (h0 + 1) s.root_page IX_NO_PAGE none none
        fuel [] hok hfuel hanc0 (fun a ha => absurd ha (by simp))
    have hfind : findLeafPage (ordCmp (K := K)) s k false fuel = Except.ok (LP, L) := hrun
    have hkv := insertKvPair_dup L k r hLsort (hpres hkmem)
    simp only [insert_entry, hfind, hkv]
    rw [if_pos trivial]
  · -- the key is absent
    intro hkabs
    obtain ⟨LP, L, hfind, hLsp, hLleaf, hcase⟩ :=
      insert_entry_new_run s h fuel k r hwf hfresh hfuel hkabs
    rcases hcase with ⟨-, s2, L1, i, hrun, hp, hl, hs, -, hk, hr, -⟩ |
      ⟨-, s2, p, L1, S1, hrun, -, -, -, -, -, -, -, -, ⟨Lp, i, hp, hl, hs, hk, hr⟩, -⟩
    · exact ⟨s2, LP, L1, i, hrun, hp, hl, hs, hk, hr⟩
    · exact ⟨s2, p, Lp, i, hrun, hp, hl, hs, hk, hr⟩

theorem C1_insert_entry_witness :
    Wf sC1 1 = true ∧
    ((5 ∈ treeKeys sC1 1 sC1.root_page →
        insert_entry (ordCmp (K := Int)) sC1 5 ⟨200, 1⟩ 1 = Except.ok (sC1, IX_NO_PAGE)) ∧
      (5 ∉ treeKeys sC1 1 sC1.root_page →
        ∃ s2 p L i, insert_entry (ordCmp (K := Int)) sC1 5 ⟨200, 1⟩ 1 = Except.ok (s2, p) ∧
          s2.pages p = some L ∧ L.is_leaf = true ∧ strictSorted L.keys = true ∧
          L.keys.get? i = some 5 ∧ L.rids.get? i = some ⟨200, 1⟩)) :=
  ⟨rfl, C1_insert_entry sC1 1 1 5 ⟨200, 1⟩ rfl
    (fun q hq => by
      have hq3 : (3 : Int) ≤ q := hq
      show (if q = 2 then some sC1leaf else none) = none
      rw [if_neg (by omega : ¬ q = 2)])
    (le_refl 1)⟩

end BPT

namespace BPT

variable {K : Type}

/-- The size bounds claimed for every node of the subtree at `p`
(height-fueled walk): a non-root node holds between `min_size = max / 2`
and `max` keys. -/
def sizesOk (s : IxState K) : Nat → Int → Bool → Bool
  | 0, _, _ => true
  | fuel + 1, p, isRoot =>
    match s.pages p with
    | none => true
    | some n =>
      (isRoot || (decide (minSize s ≤ n.keys.length) &&
        decide (n.keys.length ≤ s.maxSize))) &&
      (n.is_leaf || (n.rids.map (fun rd => rd.page_no)).all
        (fun c => sizesOk s fuel c false))

/-- A two-level tree with `max_size = 4`: the root at page 2 over the
leaves at pages 3 (full: 4 keys) and 4 (2 keys).  Every non-root node
holds between `min_size = 2` and `max_size = 4` keys, so the state is
valid for the claimed bounds. -/
def sC2leafA : IxNode Int :=
  { is_leaf := true, parent := 2, prev_leaf := -1, next_leaf := 4,
    keys := [10, 12, 14, 16], rids := [⟨110, 0⟩, ⟨112, 0⟩, ⟨114, 0⟩, ⟨116, 0⟩] }

def sC2leafB : IxNode Int :=
  { is_leaf := true, parent := 2, prev_leaf := 3, next_leaf := -1,
    keys := [20, 22], rids := [⟨120, 0⟩, ⟨122, 0⟩] }

def sC2root : IxNode Int :=
  { is_leaf := false, parent := -1, prev_leaf := -1, next_leaf := -1,
    keys := [10, 20], rids := [⟨3, -1⟩, ⟨4, -1⟩] }

def sC2 : IxState Int :=
  { root_page := 2, first_leaf := 3, last_leaf := 4, num_pages := 5,
    pages := fun q => if q = 2 then some sC2root else if q = 3 then some sC2leafA
      else if q = 4 then some sC2leafB else none,
    nextPageNo := 5, maxSize := 4 }

/-- The leaf at page 3 after inserting key 11: five keys, above
`max_size = 4`. -/
def sC2leafA2 : IxNode Int :=
  { is_leaf := true, parent := 2, prev_leaf := -1, next_leaf := 4,
    keys := [10, 11, 12, 14, 16],
    rids := [⟨110, 0⟩, ⟨300, 0⟩, ⟨112, 0⟩, ⟨114, 0⟩, ⟨116, 0⟩] }

/-- C2: a well-formed tree in which every non-root node holds between
`min_size` and `max_size` keys (here the non-root leaf at page 3 holds
exactly `max_size = 4`) is driven out of those bounds by one
`insert_entry`: the key lands in the full leaf, `node_is_full` tests
the new size `5` for equality with `4`, no split happens, and the
non-root leaf ends with `max_size + 1` keys. -/
theorem C2_insert_overflow_counterexample :
    Wf sC2 2 = true ∧
    sizesOk sC2 2 sC2.root_page true = true ∧
    insert_entry (ordCmp (K := Int)) sC2 11 ⟨300, 0⟩ 2 =
      Except.ok (setPage sC2 3 sC2leafA2, 3) ∧
    (setPage sC2 3 sC2leafA2).root_page = 2 ∧
    (setPage sC2 3 sC2leafA2).pages 3 = some sC2leafA2 ∧
    sC2leafA2.parent = 2 ∧
    sC2leafA2.keys.length = sC2.maxSize + 1 ∧
    sizesOk (setPage sC2 3 sC2leafA2) 2 (setPage sC2 3 sC2leafA2).root_page true =
      false :=
  ⟨rfl, rfl, rfl, rfl, rfl, rfl, rfl, rfl⟩

end BPT


namespace BPT

variable {K : Type}

/-- Running `coalesce_or_redistribute` on a non-root leaf that just
underflowed to `min_size - 1` keys, at the decision point where the
parent slot and the preferred sibling have been resolved: when the two
nodes together hold at least `max_size` keys one entry moves from the
sibling, restoring the node to `min_size` and leaving the sibling at or
above `min_size`; otherwise the two nodes are merged into the left one,
which ends with their combined key count (at least `min_size`, strictly
below `max_size`), and the parent loses one separator. -/
lemma coalesceOrRedistribute_run [LinearOrder K] {s : IxState K} {p neighborP : Int}
    {node parent neighbor : IxNode K} {node_idx : Nat} (fuel : Nat)
    (hnode : s.pages p = some node)
    (hleaf : node.is_leaf = true)
    (hnbleaf : neighbor.is_leaf = true)
    (hnotroot : p ≠ s.root_page)
    (hunder1 : node.keys.length + 1 = minSize s)
    (hpar : s.pages node.parent = some parent)
    (hfc : findChild parent p = some node_idx)
    (hnbv : valueAt parent (if node_idx > 0 then node_idx - 1 else 1) = some neighborP)
    (hnb : s.pages neighborP = some neighbor)
    (hlen : node.keys.length = node.rids.length)
    (hnblen : neighbor.keys.length = neighbor.rids.length)
    (hppne : node.parent ≠ p)
    (hppnb : node.parent ≠ neighborP)
    (hnbp : neighborP ≠ p)
    (hmax : 2 ≤ s.maxSize)
    (hnbmin : minSize s ≤ neighbor.keys.length)
    (hidx : (if node_idx = 0 then 1 else node_idx) < parent.keys.length)
    (hparmin : minSize s + 1 ≤ parent.keys.length)
    (hnlm : (if node_idx = 0 then neighbor.next_leaf else node.next_leaf) = IX_NO_PAGE ∨
      ((if node_idx = 0 then neighbor.next_leaf else node.next_leaf) ≠ IX_NO_PAGE ∧
        ∃ nl, s.pages (if node_idx = 0 then neighbor.next_leaf else node.next_leaf) =
            some nl ∧
          (if node_idx = 0 then neighbor.next_leaf else node.next_leaf) ≠ p ∧
          (if node_idx = 0 then neighbor.next_leaf else node.next_leaf) ≠ neighborP ∧
          (if node_idx = 0 then neighbor.next_leaf else node.next_leaf) ≠ node.parent)) :
    (s.maxSize ≤ node.keys.length + neighbor.keys.length →
      ∃ s2 node2 nb2, coalesceOrRedistribute (fuel + 1) s p = Except.ok (s2, false) ∧
        s2.pages p = some node2 ∧ s2.pages neighborP = some nb2 ∧
        node2.is_leaf = true ∧
        node2.keys.length = node.keys.length + 1 ∧
        node2.keys.length = minSize s ∧
        nb2.keys.length = neighbor.keys.length - 1 ∧
        minSize s ≤ nb2.keys.length) ∧
    (node.keys.length + neighbor.keys.length < s.maxSize →
      ∃ s2 merged par2, coalesceOrRedistribute (fuel + 1) s p = Except.ok (s2, false) ∧
        s2.pages (if node_idx = 0 then p else neighborP) = some merged ∧
        merged.is_leaf = true ∧
        merged.keys.length = node.keys.length + neighbor.keys.length ∧
        minSize s ≤ merged.keys.length ∧ merged.keys.length < s.maxSize ∧
        s2.pages node.parent = some par2 ∧
        par2.keys.length = parent.keys.length - 1 ∧
        minSize s ≤ par2.keys.length) := by
  have hmindef : minSize s = s.maxSize / 2 := rfl
  have hunder : node.keys.length < minSize s := by omega
  have hnotge : ¬ (node.keys.length ≥ minSize s) := by omega
  constructor
  · -- redistribute one entry
    intro hge
    have hnb2 : 2 ≤ neighbor.keys.length := by omega
    by_cases hni : node_idx = 0
    · -- the sibling is the right one: move its first pair
      have hgt0 : ¬ (node_idx > 0) := by omega
      rw [if_neg hgt0] at hnbv
      obtain ⟨k0, hk0⟩ : ∃ k0, neighbor.keys.get? 0 = some k0 :=
        ⟨_, List.get?_eq_get (by omega)⟩
      obtain ⟨r0, hr0⟩ : ∃ r0, neighbor.rids.get? 0 = some r0 :=
        ⟨_, List.get?_eq_get (by omega)⟩
      obtain ⟨k1, hk1⟩ : ∃ k1, neighbor.keys.get? 1 = some k1 :=
        ⟨_, List.get?_eq_get (by omega)⟩
      have hgetnb3 : (List.take 0 neighbor.keys ++ List.drop (0 + 1) neighbor.keys).get? 0 =
          some k1 := by
        rw [List.take_zero, List.nil_append, List.get?_drop]
        simpa using hk1
      set N1 : IxNode K :=
        { node with keys := node.keys ++ [k0], rids := node.rids ++ [r0] } with hN1
      set N3 : IxNode K :=
        { neighbor with
          keys := List.take 0 neighbor.keys ++ List.drop (0 + 1) neighbor.keys,
          rids := List.take 0 neighbor.rids ++ List.drop (0 + 1) neighbor.rids } with hN3
      set PP : IxNode K :=
        { parent with keys := parent.keys.set (0 + 1) k1 } with hPP
      set S : IxState K :=
        setPage (setPage (setPage s p N1) neighborP N3) node.parent PP with hS
      have hred : redistributeKeys s neighborP p node.parent node_idx = Except.ok S := by
        rw [hS, hN1, hN3, hPP]
        simp only [redistributeKeys, hnb, hnode, hni, if_pos hni, hk0, hr0, setPage_pages,
          if_neg hnbp, erasePair, if_neg (by omega : ¬ 0 ≥ neighbor.keys.length),
          if_neg hppnb, if_neg hppne, hpar, if_pos rfl, Option.some_bind, hgetnb3,
          hleaf, eq_self_iff_true, if_true]
      have hrun : coalesceOrRedistribute (fuel + 1) s p = Except.ok (S, false) := by
        simp only [coalesceOrRedistribute, hnode, if_neg hnotroot, if_neg hnotge,
          hpar, hfc, if_neg hgt0, hnbv, hnb, if_pos hge, hred]
      have hpageP : S.pages p = some N1 := by
        rw [hS]
        simp only [setPage_pages]
        rw [if_neg (fun h => hppne h.symm), if_neg (fun h => hnbp h.symm)]
        simp
      have hpageNb : S.pages neighborP = some N3 := by
        rw [hS]
        simp only [setPage_pages]
        rw [if_neg (fun h => hppnb h.symm)]
        simp
      have hlen1 : N1.keys.length = node.keys.length + 1 := by
        rw [hN1]
        simp
      have hlen3 : N3.keys.length = neighbor.keys.length - 1 := by
        rw [hN3]
        simp
      exact ⟨S, N1, N3, hrun, hpageP, hpageNb, hleaf, hlen1, by omega, hlen3, by omega⟩
    · -- the sibling is the left one: move its last pair
      have hgt1 : node_idx > 0 := by omega
      rw [if_pos hgt1] at hnbv
      have hnb1 : 1 ≤ neighbor.keys.length := by omega
      obtain ⟨kl, hkl⟩ : ∃ kl, neighbor.keys.get? (neighbor.keys.length - 1) = some kl :=
        ⟨_, List.get?_eq_get (by omega)⟩
      obtain ⟨rl, hrl⟩ : ∃ rl, neighbor.rids.get? (neighbor.rids.length - 1) = some rl :=
        ⟨_, List.get?_eq_get (by omega)⟩
      set N1 : IxNode K :=
        { node with keys := kl :: node.keys, rids := rl :: node.rids } with hN1
      set N3 : IxNode K :=
        { neighbor with
          keys := neighbor.keys.dropLast,
          rids := neighbor.rids.dropLast } with hN3
      set PP : IxNode K :=
        { parent with keys := parent.keys.set node_idx kl } with hPP
      set S : IxState K :=
        setPage (setPage (setPage s p N1) neighborP N3) node.parent PP with hS
      have hpnb : ¬ (p = neighborP) := fun h => hnbp h.symm
      have hred : redistributeKeys s neighborP p node.parent node_idx = Except.ok S := by
        rw [hS, hN1, hN3, hPP]
        simp only [redistributeKeys, hnb, hnode, if_neg hni, hkl, hrl, setPage_pages,
          if_neg hnbp, if_neg hpnb, if_neg hppnb, if_neg hppne, hpar,
          if_pos rfl, Option.some_bind, List.get?_cons_zero, hleaf, eq_self_iff_true,
          if_true]
      have hrun : coalesceOrRedistribute (fuel + 1) s p = Except.ok (S, false) := by
        simp only [coalesceOrRedistribute, hnode, if_neg hnotroot, if_neg hnotge,
          hpar, hfc, if_pos hgt1, hnbv, hnb, if_pos hge, hred]
      have hpageP : S.pages p = some N1 := by
        rw [hS]
        simp only [setPage_pages]
        rw [if_neg (fun h => hppne h.symm), if_neg (fun h => hnbp h.symm)]
        simp
      have hpageNb : S.pages neighborP = some N3 := by
        rw [hS]
        simp only [setPage_pages]
        rw [if_neg (fun h => hppnb h.symm)]
        simp
      have hlen1 : N1.keys.length = node.keys.length + 1 := by
        rw [hN1]
        simp
      have hlen3 : N3.keys.length = neighbor.keys.length - 1 := by
        rw [hN3]
        simp
      exact ⟨S, N1, N3, hrun, hpageP, hpageNb, hleaf, hlen1, by omega, hlen3, by omega⟩
  · -- coalesce the two nodes
    intro hlt
    have hng : ¬ (node.keys.length + neighbor.keys.length ≥ s.maxSize) := by omega
    by_cases hni : node_idx = 0
    · -- the right sibling is absorbed into this node
      have hgt0 : ¬ (node_idx > 0) := by omega
      rw [if_neg hgt0] at hnbv
      rw [if_pos hni] at hnlm hidx
      have htk : node.keys.take node.keys.length = node.keys := by simp
      have hdk : node.keys.drop node.keys.length = [] := by simp
      have htr : node.rids.take node.keys.length = node.rids := by
        rw [hlen]
        simp
      have hdr : node.rids.drop node.keys.length = [] := by
        rw [hlen]
        simp
      have hirr : ¬ (node.keys.length > node.keys.length) := by omega
      have h1ge : ¬ (1 ≥ parent.keys.length) := by omega
      have hppne2 : ¬ (p = node.parent) := fun h => hppne h.symm
      set M : IxNode K :=
        { node with
          keys := node.keys ++ neighbor.keys,
          rids := node.rids ++ neighbor.rids } with hM
      set M2 : IxNode K :=
        { node with
          next_leaf := neighbor.next_leaf,
          keys := node.keys ++ neighbor.keys,
          rids := node.rids ++ neighbor.rids } with hM2
      set PD : IxNode K :=
        { parent with
          keys := parent.keys.take 1 ++ parent.keys.drop (1 + 1),
          rids := parent.rids.take 1 ++ parent.rids.drop (1 + 1) } with hPD
      set S1 : IxState K := setPage s p M with hS1
      set S3 : IxState K := setPage S1 p M2 with hS3
      have hPDlen : PD.keys.length = parent.keys.length - 1 := by
        rw [hPD]
        simp
        omega
      have hM2len : M2.keys.length = node.keys.length + neighbor.keys.length := by
        rw [hM2]
        simp
      rcases hnlm with hnl0 | ⟨hnlne, nl, hnl, hnlp, hnlnb, hnlpar⟩
      · -- the absorbed node was the last leaf
        have hnn : ¬ (neighbor.next_leaf ≠ IX_NO_PAGE) := not_not_intro hnl0
        set S4 : IxState K := { S3 with last_leaf := p } with hS4
        set S5 : IxState K := setPage S4 node.parent PD with hS5
        have hminS5 : minSize S5 = minSize s := by
          rw [hS5, hS4, hS3, hS1]
          rfl
        have hcns : coalesceNodesStep s neighborP p node.parent node_idx =
            Except.ok (S5, decide (PD.keys.length < minSize S5)) := by
          rw [hS5, hS4, hS3, hS1, hPD, hM2, hM]
          simp only [coalesceNodesStep, hni, eq_self_iff_true, if_true, hnode, hnb,
            insertPairs, if_neg hirr, htk, hdk, htr, hdr, List.append_nil,
            hnbleaf, setPage_pages, if_pos rfl, if_neg hnn, if_neg hppne, hpar,
            erasePair, if_neg h1ge]
        have hflag : decide (PD.keys.length < minSize S5) = false :=
          decide_eq_false (by rw [hPDlen, hminS5]; omega)
        have hrun : coalesceOrRedistribute (fuel + 1) s p = Except.ok (S5, false) := by
          simp only [coalesceOrRedistribute, hnode, if_neg hnotroot, if_neg hnotge,
            hpar, hfc, if_neg hgt0, hnbv, hnb, if_neg hng, hcns, hflag,
            Bool.false_eq_true, if_false]
        have hpageM : S5.pages p = some M2 := by
          rw [hS5, hS4]
          simp only [setPage_pages]
          rw [if_neg hppne2, hS3]
          simp only [setPage_pages]
          simp
        have hpagePD : S5.pages node.parent = some PD := by
          rw [hS5]
          simp only [setPage_pages]
          simp
        rw [if_pos hni]
        exact ⟨S5, M2, PD, hrun, hpageM, hleaf, hM2len, by omega, by omega,
          hpagePD, hPDlen, by omega⟩
      · -- stitch the following leaf back to this node
        have hnlp2 : ¬ (p = neighbor.next_leaf) := fun h => hnlp h.symm
        have hppnl : ¬ (node.parent = neighbor.next_leaf) := fun h => hnlpar h.symm
        set NL2 : IxNode K := { nl with prev_leaf := p } with hNL2
        set S4 : IxState K := setPage S3 neighbor.next_leaf NL2 with hS4
        set S5 : IxState K := setPage S4 node.parent PD with hS5
        have hminS5 : minSize S5 = minSize s := by
          rw [hS5, hS4, hS3, hS1]
          rfl
        have hcns : coalesceNodesStep s neighborP p node.parent node_idx =
            Except.ok (S5, decide (PD.keys.length < minSize S5)) := by
          rw [hS5, hS4, hS3, hS1, hPD, hNL2, hM2, hM]
          simp only [coalesceNodesStep, hni, eq_self_iff_true, if_true, hnode, hnb,
            insertPairs, if_neg hirr, htk, hdk, htr, hdr, List.append_nil,
            hnbleaf, setPage_pages, if_pos rfl, if_pos hnlne, if_neg hnlp, hnl,
            if_neg hppne, if_neg hppnl, hpar, erasePair, if_neg h1ge]
        have hflag : decide (PD.keys.length < minSize S5) = false :=
          decide_eq_false (by rw [hPDlen, hminS5]; omega)
        have hrun : coalesceOrRedistribute (fuel + 1) s p = Except.ok (S5, false) := by
          simp only [coalesceOrRedistribute, hnode, if_neg hnotroot, if_neg hnotge,
            hpar, hfc, if_neg hgt0, hnbv, hnb, if_neg hng, hcns, hflag,
            Bool.false_eq_true, if_false]
        have hpageM : S5.pages p = some M2 := by
          rw [hS5, hS4]
          simp only [setPage_pages]
          rw [if_neg hppne2, if_neg hnlp2, hS3]
          simp only [setPage_pages]
          simp
        have hpagePD : S5.pages node.parent = some PD := by
          rw [hS5]
          simp only [setPage_pages]
          simp
        rw [if_pos hni]
        exact ⟨S5, M2, PD, hrun, hpageM, hleaf, hM2len, by omega, by omega,
          hpagePD, hPDlen, by omega⟩
    · -- this node is absorbed into the left sibling
      have hgt1 : node_idx > 0 := by omega
      rw [if_pos hgt1] at hnbv
      rw [if_neg hni] at hnlm hidx
      have htk : neighbor.keys.take neighbor.keys.length = neighbor.keys := by simp
      have hdk : neighbor.keys.drop neighbor.keys.length = [] := by simp
      have htr : neighbor.rids.take neighbor.keys.length = neighbor.rids := by
        rw [hnblen]
        simp
      have hdr : neighbor.rids.drop neighbor.keys.length = [] := by
        rw [hnblen]
        simp
      have hirr : ¬ (neighbor.keys.length > neighbor.keys.length) := by omega
      have hNge : ¬ (node_idx ≥ parent.keys.length) := by omega
      have hpnb : ¬ (p = neighborP) := fun h => hnbp h.symm
      have hppnb2 : ¬ (node.parent = neighborP) := hppnb
      set M : IxNode K :=
        { neighbor with
          keys := neighbor.keys ++ node.keys,
          rids := neighbor.rids ++ node.rids } with hM
      set M2 : IxNode K :=
        { neighbor with
          next_leaf := node.next_leaf,
          keys := neighbor.keys ++ node.keys,
          rids := neighbor.rids ++ node.rids } with hM2
      set PD : IxNode K :=
        { parent with
          keys := parent.keys.take node_idx ++ parent.keys.drop (node_idx + 1),
          rids := parent.rids.take node_idx ++ parent.rids.drop (node_idx + 1) } with hPD
      set S1 : IxState K := setPage s neighborP M with hS1
      set S3 : IxState K := setPage S1 neighborP M2 with hS3
      have hPDlen : PD.keys.length = parent.keys.length - 1 := by
        rw [hPD]
        simp
        omega
      have hM2len : M2.keys.length = node.keys.length + neighbor.keys.length := by
        rw [hM2]
        simp
        omega
      rcases hnlm with hnl0 | ⟨hnlne, nl, hnl, hnlp, hnlnb, hnlpar⟩
      · -- the absorbed node was the last leaf
        have hnn : ¬ (node.next_leaf ≠ IX_NO_PAGE) := not_not_intro hnl0
        set S4 : IxState K := { S3 with last_leaf := neighborP } with hS4
        set S5 : IxState K := setPage S4 node.parent PD with hS5
        have hminS5 : minSize S5 = minSize s := by
          rw [hS5, hS4, hS3, hS1]
          rfl
        have hcns : coalesceNodesStep s neighborP p node.parent node_idx =
            Except.ok (S5, decide (PD.keys.length < minSize S5)) := by
          rw [hS5, hS4, hS3, hS1, hPD, hM2, hM]
          simp only [coalesceNodesStep, if_neg hni, hnode, hnb,
            insertPairs, if_neg hirr, htk, hdk, htr, hdr, List.append_nil,
            hleaf, eq_self_iff_true, if_true, setPage_pages, if_pos rfl, if_neg hnn,
            if_neg hppnb2, hpar, erasePair, if_neg hNge]
        have hflag : decide (PD.keys.length < minSize S5) = false :=
          decide_eq_false (by rw [hPDlen, hminS5]; omega)
        have hrun : coalesceOrRedistribute (fuel + 1) s p = Except.ok (S5, false) := by
          simp only [coalesceOrRedistribute, hnode, if_neg hnotroot, if_neg hnotge,
            hpar, hfc, if_pos hgt1, hnbv, hnb, if_neg hng, hcns, hflag,
            Bool.false_eq_true, if_false]
        have hnbpp : ¬ (neighborP = node.parent) := fun h => hppnb h.symm
        have hpageM : S5.pages neighborP = some M2 := by
          rw [hS5, hS4]
          simp only [setPage_pages]
          rw [if_neg hnbpp, hS3]
          simp only [setPage_pages]
          simp
        have hpagePD : S5.pages node.parent = some PD := by
          rw [hS5]
          simp only [setPage_pages]
          simp
        rw [if_neg hni]
        exact ⟨S5, M2, PD, hrun, hpageM, hnbleaf, hM2len, by omega, by omega,
          hpagePD, hPDlen, by omega⟩
      · -- stitch the following leaf back to the sibling
        have hnlnb2 : ¬ (node.next_leaf = neighborP) := hnlnb
        have hppnl : ¬ (node.parent = node.next_leaf) := fun h => hnlpar h.symm
        set NL2 : IxNode K := { nl with prev_leaf := neighborP } with hNL2
        set S4 : IxState K := setPage S3 node.next_leaf NL2 with hS4
        set S5 : IxState K := setPage S4 node.parent PD with hS5
        have hminS5 : minSize S5 = minSize s := by
          rw [hS5, hS4, hS3, hS1]
          rfl
        have hcns : coalesceNodesStep s neighborP p node.parent node_idx =
            Except.ok (S5, decide (PD.keys.length < minSize S5)) := by
          rw [hS5, hS4, hS3, hS1, hPD, hNL2, hM2, hM]
          simp only [coalesceNodesStep, if_neg hni, hnode, hnb,
            insertPairs, if_neg hirr, htk, hdk, htr, hdr, List.append_nil,
            hleaf, eq_self_iff_true, if_true, setPage_pages, if_pos rfl,
            if_pos hnlne, if_neg hnlnb2, hnl, if_neg hppnb2, if_neg hppnl, hpar,
            erasePair, if_neg hNge]
        have hflag : decide (PD.keys.length < minSize S5) = false :=
          decide_eq_false (by rw [hPDlen, hminS5]; omega)
        have hrun : coalesceOrRedistribute (fuel + 1) s p = Except.ok (S5, false) := by
          simp only [coalesceOrRedistribute, hnode, if_neg hnotroot, if_neg hnotge,
            hpar, hfc, if_pos hgt1, hnbv, hnb, if_neg hng, hcns, hflag,
            Bool.false_eq_true, if_false]
        have hnbpp : ¬ (neighborP = node.parent) := fun h => hppnb h.symm
        have hnbnl : ¬ (neighborP = node.next_leaf) := fun h => hnlnb h.symm
        have hpageM : S5.pages neighborP = some M2 := by
          rw [hS5, hS4]
          simp only [setPage_pages]
          rw [if_neg hnbpp, if_neg hnbnl, hS3]
          simp only [setPage_pages]
          simp
        have hpagePD : S5.pages node.parent = some PD := by
          rw [hS5]
          simp only [setPage_pages]
          simp
        rw [if_neg hni]
        exact ⟨S5, M2, PD, hrun, hpageM, hnbleaf, hM2len, by omega, by omega,
          hpagePD, hPDlen, by omega⟩

end BPT

namespace BPT

/-- A three-leaf tree with `max_size = 4` (`min_size = 2`) for the
delete side: the leaf at page 3 holds a single key — one below
`min_size` — and its right sibling at page 4 holds exactly `min_size`
keys, so `coalesce_or_redistribute` merges the two. -/
def sC2dleaf3 : IxNode Int :=
  { is_leaf := true, parent := 2, prev_leaf := -1, next_leaf := 4,
    keys := [10], rids := [⟨210, 0⟩] }

def sC2dleaf4 : IxNode Int :=
  { is_leaf := true, parent := 2, prev_leaf := 3, next_leaf := 5,
    keys := [20, 22], rids := [⟨220, 0⟩, ⟨222, 0⟩] }

def sC2dleaf5 : IxNode Int :=
  { is_leaf := true, parent := 2, prev_leaf := 4, next_leaf := -1,
    keys := [30, 32], rids := [⟨230, 0⟩, ⟨232, 0⟩] }

def sC2droot : IxNode Int :=
  { is_leaf := false, parent := -1, prev_leaf := -1, next_leaf := -1,
    keys := [10, 20, 30], rids := [⟨3, -1⟩, ⟨4, -1⟩, ⟨5, -1⟩] }

def sC2d : IxState Int :=
  { root_page := 2, first_leaf := 3, last_leaf := 5, num_pages := 6,
    pages := fun q => if q = 2 then some sC2droot else if q = 3 then some sC2dleaf3
      else if q = 4 then some sC2dleaf4 else if q = 5 then some sC2dleaf5 else none,
    nextPageNo := 6, maxSize := 4 }

end BPT

namespace BPT

variable {K : Type}

/-- C2 (amended): how the implementation maintains node sizes.  Insert
side: on a well-formed tree an absent-key insert splits the found leaf
exactly when its size reaches `max_size` (the halves hold `max_size / 2`
and `max_size - max_size / 2` keys, both between `min_size` and
`max_size - 1`), otherwise the leaf just grows by one key; and if every
non-root node of the input holds between `min_size` and `max_size - 1`
keys, then every page of the output keeps its key count, or lies within
those bounds, or is the root.  Delete side: `coalesce_or_redistribute`
on a non-root leaf that underflowed to `min_size - 1` keys merges it
with the preferred sibling exactly when the two nodes' combined key
count is strictly below `max_size` — the merged leaf holds the combined
count (at least `min_size`, below `max_size`) and the parent loses one
separator — and otherwise moves exactly one entry from the sibling,
restoring the leaf to `min_size` and leaving the sibling at or above
`min_size`. -/
theorem C2_size_maintenance [LinearOrder K] (s : IxState K) (h fuel : Nat) (k : K)
    (r : Rid) (sd : IxState K) (pd neighborP : Int)
    (node parent neighbor : IxNode K) (node_idx fueld : Nat)
    (hwf : Wf s h = true)
    (hfresh : ∀ q, s.nextPageNo ≤ q → s.pages q = none)
    (hfuel : h ≤ fuel)
    (hkabs : k ∉ treeKeys s h s.root_page)
    (hSz : ∀ q n, s.pages q = some n → n.parent ≠ IX_NO_PAGE →
      minSize s ≤ n.keys.length ∧ n.keys.length + 1 ≤ s.maxSize)
    (hnode : sd.pages pd = some node)
    (hleaf : node.is_leaf = true)
    (hnbleaf : neighbor.is_leaf = true)
    (hnotroot : pd ≠ sd.root_page)
    (hunder1 : node.keys.length + 1 = minSize sd)
    (hpar : sd.pages node.parent = some parent)
    (hfc : findChild parent pd = some node_idx)
    (hnbv : valueAt parent (if node_idx > 0 then node_idx - 1 else 1) = some neighborP)
    (hnb : sd.pages neighborP = some neighbor)
    (hlen : node.keys.length = node.rids.length)
    (hnblen : neighbor.keys.length = neighbor.rids.length)
    (hppne : node.parent ≠ pd)
    (hppnb : node.parent ≠ neighborP)
    (hnbp : neighborP ≠ pd)
    (hmaxd : 2 ≤ sd.maxSize)
    (hnbmin : minSize sd ≤ neighbor.keys.length)
    (hidx : (if node_idx = 0 then 1 else node_idx) < parent.keys.length)
    (hparmin : minSize sd + 1 ≤ parent.keys.length)
    (hnlm : (if node_idx = 0 then neighbor.next_leaf else node.next_leaf) = IX_NO_PAGE ∨
      ((if node_idx = 0 then neighbor.next_leaf else node.next_leaf) ≠ IX_NO_PAGE ∧
        ∃ nl, sd.pages (if node_idx = 0 then neighbor.next_leaf else node.next_leaf) =
            some nl ∧
          (if node_idx = 0 then neighbor.next_leaf else node.next_leaf) ≠ pd ∧
          (if node_idx = 0 then neighbor.next_leaf else node.next_leaf) ≠ neighborP ∧
          (if node_idx = 0 then neighbor.next_leaf else node.next_leaf) ≠ node.parent)) :
    (∃ LP L, findLeafPage (ordCmp (K := K)) s k false fuel = Except.ok (LP, L) ∧
      s.pages LP = some L ∧ L.is_leaf = true ∧
      ∃ s2 rp, insert_entry (ordCmp (K := K)) s k r fuel = Except.ok (s2, rp) ∧
        ((L.keys.length + 1 ≠ s.maxSize ∧ rp = LP ∧
          ∃ L1, s2.pages LP = some L1 ∧ L1.keys.length = L.keys.length + 1) ∨
         (L.keys.length + 1 = s.maxSize ∧
          ∃ L1 S1, s2.pages LP = some L1 ∧ s2.pages s.nextPageNo = some S1 ∧
            L1.is_leaf = true ∧ S1.is_leaf = true ∧
            minSize s ≤ L1.keys.length ∧ L1.keys.length < s.maxSize ∧
            minSize s ≤ S1.keys.length ∧ S1.keys.length < s.maxSize)) ∧
        ∀ q n', s2.pages q = some n' →
          (∃ n, s.pages q = some n ∧ n'.keys.length = n.keys.length) ∨
          (minSize s ≤ n'.keys.length ∧ n'.keys.length + 1 ≤ s.maxSize) ∨
          n'.parent = IX_NO_PAGE) ∧
    (sd.maxSize ≤ node.keys.length + neighbor.keys.length →
      ∃ s2 node2 nb2, coalesceOrRedistribute (fueld + 1) sd pd = Except.ok (s2, false) ∧
        s2.pages pd = some node2 ∧ s2.pages neighborP = some nb2 ∧
        node2.is_leaf = true ∧
        node2.keys.length = node.keys.length + 1 ∧
        node2.keys.length = minSize sd ∧
        nb2.keys.length = neighbor.keys.length - 1 ∧
        minSize sd ≤ nb2.keys.length) ∧
    (node.keys.length + neighbor.keys.length < sd.maxSize →
      ∃ s2 merged par2, coalesceOrRedistribute (fueld + 1) sd pd =
          Except.ok (s2, false) ∧
        s2.pages (if node_idx = 0 then pd else neighborP) = some merged ∧
        merged.is_leaf = true ∧
        merged.keys.length = node.keys.length + neighbor.keys.length ∧
        minSize sd ≤ merged.keys.length ∧ merged.keys.length < sd.maxSize ∧
        s2.pages node.parent = some par2 ∧
        par2.keys.length = parent.keys.length - 1 ∧
        minSize sd ≤ par2.keys.length) := by
  have hmax : 2 ≤ s.maxSize := by
    have h2 := hwf
    rw [Wf, Bool.and_eq_true, decide_eq_true_eq] at h2
    exact h2.2
  obtain ⟨hcor1, hcor2⟩ := coalesceOrRedistribute_run fueld hnode hleaf hnbleaf
    hnotroot hunder1 hpar hfc hnbv hnb hlen hnblen hppne hppnb hnbp hmaxd hnbmin
    hidx hparmin hnlm
  obtain ⟨LP, L, hfind, hLsp, hLleaf, hcase⟩ :=
    insert_entry_new_run s h fuel k r hwf hfresh hfuel hkabs
  refine ⟨⟨LP, L, hfind, hLsp, hLleaf, ?_⟩, hcor1, hcor2⟩
  rcases hcase with ⟨hne, s2, L1, i, hrun, hp, -, -, hlen1, -, -, hdisc⟩ |
    ⟨heq, s2, p, L1, S1, hrun, hpL, hpS, hl1, hs1l, -, -, hlenL, hlenS, -, hdisc⟩
  · exact ⟨s2, LP, hrun, Or.inl ⟨hne, rfl, L1, hp, hlen1⟩, hdisc hSz⟩
  · refine ⟨s2, p, hrun, Or.inr ⟨heq, L1, S1, hpL, hpS, hl1, hs1l, ?_, ?_, ?_, ?_⟩,
      hdisc hSz⟩
    · rw [hlenL]
      simp [minSize]
    · rw [hlenL]
      omega
    · rw [hlenS]
      simp only [minSize]
      omega
    · rw [hlenS]
      omega

theorem C2_size_maintenance_witness :
    Wf sC1 1 = true ∧ (6 : Int) ∉ treeKeys sC1 1 sC1.root_page ∧
    sC2d.pages 3 = some sC2dleaf3 ∧
    sC2dleaf3.keys.length + 1 = minSize sC2d ∧
    ((∃ LP L, findLeafPage (ordCmp (K := Int)) sC1 6 false 1 = Except.ok (LP, L) ∧
      sC1.pages LP = some L ∧ L.is_leaf = true ∧
      ∃ s2 rp, insert_entry (ordCmp (K := Int)) sC1 6 ⟨400, 2⟩ 1 =
          Except.ok (s2, rp) ∧
        ((L.keys.length + 1 ≠ sC1.maxSize ∧ rp = LP ∧
          ∃ L1, s2.pages LP = some L1 ∧ L1.keys.length = L.keys.length + 1) ∨
         (L.keys.length + 1 = sC1.maxSize ∧
          ∃ L1 S1, s2.pages LP = some L1 ∧ s2.pages sC1.nextPageNo = some S1 ∧
            L1.is_leaf = true ∧ S1.is_leaf = true ∧
            minSize sC1 ≤ L1.keys.length ∧ L1.keys.length < sC1.maxSize ∧
            minSize sC1 ≤ S1.keys.length ∧ S1.keys.length < sC1.maxSize)) ∧
        ∀ q n', s2.pages q = some n' →
          (∃ n, sC1.pages q = some n ∧ n'.keys.length = n.keys.length) ∨
          (minSize sC1 ≤ n'.keys.length ∧ n'.keys.length + 1 ≤ sC1.maxSize) ∨
          n'.parent = IX_NO_PAGE) ∧
     (sC2d.maxSize ≤ sC2dleaf3.keys.length + sC2dleaf4.keys.length →
      ∃ s2 node2 nb2, coalesceOrRedistribute (1 + 1) sC2d 3 = Except.ok (s2, false) ∧
        s2.pages 3 = some node2 ∧ s2.pages 4 = some nb2 ∧
        node2.is_leaf = true ∧
        node2.keys.length = sC2dleaf3.keys.length + 1 ∧
        node2.keys.length = minSize sC2d ∧
        nb2.keys.length = sC2dleaf4.keys.length - 1 ∧
        minSize sC2d ≤ nb2.keys.length) ∧
     (sC2dleaf3.keys.length + sC2dleaf4.keys.length < sC2d.maxSize →
      ∃ s2 merged par2, coalesceOrRedistribute (1 + 1) sC2d 3 =
          Except.ok (s2, false) ∧
        s2.pages (if (0 : Nat) = 0 then (3 : Int) else 4) = some merged ∧
        merged.is_leaf = true ∧
        merged.keys.length = sC2dleaf3.keys.length + sC2dleaf4.keys.length ∧
        minSize sC2d ≤ merged.keys.length ∧ merged.keys.length < sC2d.maxSize ∧
        s2.pages sC2dleaf3.parent = some par2 ∧
        par2.keys.length = sC2droot.keys.length - 1 ∧
        minSize sC2d ≤ par2.keys.length)) :=
  ⟨rfl, by decide, rfl, rfl,
    C2_size_maintenance sC1 1 1 6 ⟨400, 2⟩ sC2d 3 4 sC2dleaf3 sC2droot sC2dleaf4 0 1
      rfl
      (fun q hq => by
        have hq3 : (3 : Int) ≤ q := hq
        show (if q = 2 then some sC1leaf else none) = none
        rw [if_neg (by omega : ¬ q = 2)])
      (le_refl 1) (by decide)
      (fun q n hq hpar => by
        by_cases h2 : q = 2
        · have hq2 : (if q = 2 then some sC1leaf else none) = some n := hq
          rw [if_pos h2] at hq2
          have hn : sC1leaf = n := Option.some.inj hq2
          exact absurd (by rw [← hn]; rfl) hpar
        · have hq2 : (if q = 2 then some sC1leaf else none) = some n := hq
          rw [if_neg h2] at hq2
          exact Option.noConfusion hq2)
      rfl rfl rfl (by decide) rfl rfl rfl rfl rfl rfl rfl
      (by decide) (by decide) (by decide) (by decide) (by decide) (by decide)
      (by decide)
      (Or.inr ⟨by decide, sC2dleaf5, rfl, by decide, by decide, by decide⟩)⟩

end BPT
